import Mathlib

/-!
# DankOS kernel core: thread table, scheduler, tick handler, syscall dispatcher

A shallow embedding of `thread.h`, `thread.c`, `kernel.h` and `kernel.c`.

* 32-bit machine words are natural numbers; every C operation that can wrap is
  reduced modulo `2 ^ 32` where the C code performs it.
* The globals (`thread_table`, `thread_mem`, `thread_current`, `tid_counter`,
  `systime_ms`, `next_to_run_ms`, `kernel_stack_top`) are the fields of one
  record, `KState`, passed explicitly.
* A `thread_t*` is its 32-bit address.  The addresses the linker gives to the
  static objects are the fields of `Layout`.  The table is an array of records,
  so the functions of `thread.c` are embedded for references to table entries:
  a reference that passes `thread_in_table` is taken to be `&thread_table[i]`
  for the index `i` that `thread_pos` computes (`slot_ref`), as is every
  pointer the kernel itself creates.  The relations that let callers pass
  arbitrary references (`KOp`, `KOpCount`) carry `slot_ref` as a premise.
* Memory that is not one of the kernel objects above (lock cells, memory mapped
  registers) is the field `mem`, a map from the address of an object to its
  value.  The cases `SYSCALL_LOCK` and `SYSCALL_UNLOCK` access memory through
  the raw address in R1: `lock_load` and `lock_store` give the access to a lock
  cell in the data of the program (`lock_cell`), to the `state` field of a
  table entry and to `next_to_run_ms`, and no result for any other address.
* `kernel_exit` and `kernel_panic` never return: a function that reaches one
  of them ends with an `Outcome`.
-/

namespace DankOS

/-! ## thread.h / kernel.h constants -/

def MAX_THREADS : Nat := 12
def LOG2_THREAD_MEM_SIZE : Nat := 10
def THREAD_MEM_SIZE : Nat := 2 ^ LOG2_THREAD_MEM_SIZE
/-- Invalid index into the thread table. -/
def TT_IDX_INVALID : Nat := MAX_THREADS
def UINT32_MAX : Nat := 4294967295
def KERNEL_SCHEDULER_IRQ_FREQ : Nat := 1000
def SYSTIME_CYCLES_PER_MS : Nat := 1000 / KERNEL_SCHEDULER_IRQ_FREQ
def KERNEL_STACKSIZE : Nat := 1024

def SYSCALL_EXIT : Nat := 0
def SYSCALL_YIELD : Nat := 1
def SYSCALL_SLEEP : Nat := 2
def SYSCALL_SPAWN : Nat := 3
def SYSCALL_FORK : Nat := 4
def SYSCALL_RESET : Nat := 5
def SYSCALL_WAIT : Nat := 6
def SYSCALL_KILL : Nat := 7
def SYSCALL_GET_TID : Nat := 8
def SYSCALL_LOCK : Nat := 9
def SYSCALL_UNLOCK : Nat := 10

def LOCK_UNLOCKED : Nat := 0
def LOCK_LOCKED : Nat := 1

/-- Subtraction of two `uint32_t` values, wrapping modulo `2 ^ 32`. -/
def sub32 (a b : Nat) : Nat := (a + 2 ^ 32 - b % 2 ^ 32) % 2 ^ 32

/-- Addition of two `uint32_t` values, wrapping modulo `2 ^ 32`. -/
def add32 (a b : Nat) : Nat := (a + b) % 2 ^ 32

/-! ## thread.h types -/

inductive tstate_t
  | T_EMPTY
  | T_RUNNABLE
  | T_BLOCKED
  | T_ZOMBIE
  | T_SLEEPING
  deriving DecidableEq, Repr

inductive twait_status_t
  | WAITSTATUS_NONE
  | WAITSTATUS_THREAD
  deriving DecidableEq, Repr

open tstate_t twait_status_t

structure registers_t where
  R4 : Nat
  R5 : Nat
  R6 : Nat
  R7 : Nat
  R8 : Nat
  R9 : Nat
  R10 : Nat
  R11 : Nat
  SP : Nat
  R0 : Nat
  R1 : Nat
  R2 : Nat
  R3 : Nat
  R12 : Nat
  LR : Nat
  PC : Nat
  PSR : Nat
  deriving DecidableEq, Repr

structure thread_t where
  id : Nat
  state : tstate_t
  scnt : Nat
  regs : registers_t
  waitstat : twait_status_t
  deriving DecidableEq, Repr

/-- The numeric value of a `tstate_t`. -/
def tstate_code : tstate_t → Nat
  | T_EMPTY => 0
  | T_RUNNABLE => 1
  | T_BLOCKED => 2
  | T_ZOMBIE => 3
  | T_SLEEPING => 4

/-- The `tstate_t` with the given numeric value, if there is one. -/
def tstate_of_code : Nat → Option tstate_t
  | 0 => some T_EMPTY
  | 1 => some T_RUNNABLE
  | 2 => some T_BLOCKED
  | 3 => some T_ZOMBIE
  | 4 => some T_SLEEPING
  | _ => none

/-- The `twait_status_t` with the given numeric value, if there is one. -/
def twait_of_code : Nat → Option twait_status_t
  | 0 => some WAITSTATUS_NONE
  | 1 => some WAITSTATUS_THREAD
  | _ => none

/-- The register store after `memset(&regs, 0, sizeof(registers_t))`. -/
def zero_regs : registers_t :=
  { R4 := 0, R5 := 0, R6 := 0, R7 := 0, R8 := 0, R9 := 0, R10 := 0, R11 := 0,
    SP := 0, R0 := 0, R1 := 0, R2 := 0, R3 := 0, R12 := 0, LR := 0, PC := 0,
    PSR := 0 }

/-- Addresses of the static objects and the size of one table entry, and the
range of addresses of the on-chip SRAM. -/
structure Layout where
  thread_table_addr : Nat
  thread_mem_addr : Nat
  kernel_stack_addr : Nat
  sizeof_thread_t : Nat
  thread_current_addr : Nat
  tid_counter_addr : Nat
  kernel_stack_top_addr : Nat
  systime_ms_addr : Nat
  next_to_run_ms_addr : Nat
  sram_addr : Nat
  sram_size : Nat

/-- The objects lie inside the 32-bit address space, none of them at address
0, and a table entry has a positive size. -/
def Layout.wf (L : Layout) : Prop :=
  0 < L.thread_table_addr ∧ 0 < L.sizeof_thread_t ∧
  L.thread_table_addr + MAX_THREADS * L.sizeof_thread_t < 2 ^ 32 ∧
  0 < L.thread_mem_addr ∧
  L.thread_mem_addr + MAX_THREADS * THREAD_MEM_SIZE < 2 ^ 32

instance (L : Layout) : Decidable L.wf := by
  unfold Layout.wf; infer_instance

/-- The globals of `thread.c` and `kernel.c`, the memory outside them, and the
stack pointer of the CPU. -/
structure KState where
  thread_table : Nat → thread_t
  thread_mem : Nat → Nat → Nat
  thread_current : Nat
  tid_counter : Nat
  systime_ms : Nat
  next_to_run_ms : Nat
  kernel_stack_top : Nat
  mem : Nat → Nat
  cpu_sp : Nat

/-- Assignment to one element of an array. -/
def upd {α : Type} (f : Nat → α) (i : Nat) (v : α) : Nat → α :=
  fun j => if j = i then v else f j

/-- The address `&thread_table[i]` (`thread_table + i`). -/
def slot_addr (L : Layout) (i : Nat) : Nat :=
  L.thread_table_addr + i * L.sizeof_thread_t

/-- Conversion of a 32-bit unsigned value to `intptr_t`. -/
def to_intptr (u : Nat) : Int :=
  if u % 2 ^ 32 < 2 ^ 31 then ((u % 2 ^ 32 : Nat) : Int)
  else ((u % 2 ^ 32 : Nat) : Int) - 2 ^ 32

/-! ## thread.c -/

/-- Source `thread_pos`.  The difference of the two addresses is divided by
`sizeof(thread_t)`, a `size_t`: by the usual arithmetic conversions the
difference is converted to unsigned and the division is unsigned; the quotient
is then stored in the `intptr_t pos`. -/
def thread_pos (L : Layout) (thread : Nat) : Nat :=
  if thread = 0 then MAX_THREADS
  else
    let pos : Int := to_intptr (sub32 thread L.thread_table_addr / L.sizeof_thread_t)
    if 0 ≤ pos ∧ pos < (MAX_THREADS : Int) then pos.toNat
    else TT_IDX_INVALID

/-- Source `thread_in_table`. -/
def thread_in_table (L : Layout) (thread : Nat) : Bool :=
  thread_pos L thread != MAX_THREADS

/-- The reference `thread` is a reference to a table entry or is rejected by
`thread_in_table`: if it passes `thread_in_table`, it is `&thread_table[i]` for
the index `i` that `thread_pos` computes.  The functions below that take a
`thread_t*` are embedded for such references; an address inside the table that
is not the address of an entry passes `thread_in_table` too, and what the C
code reads and writes through it is not described by them. -/
def slot_ref (L : Layout) (thread : Nat) : Prop :=
  thread_in_table L thread = true → thread = slot_addr L (thread_pos L thread)

instance (L : Layout) (thread : Nat) : Decidable (slot_ref L thread) := by
  unfold slot_ref; infer_instance

/-- Loop of `tt_entry_for_tid` from index `i`, with `n` iterations left. -/
def tt_entry_for_tid_from (L : Layout) (tab : Nat → thread_t) (id : Nat) :
    Nat → Nat → Nat
  | 0, _ => 0
  | n + 1, i =>
    if (tab i).id = id ∧ (tab i).state ≠ T_EMPTY then slot_addr L i
    else tt_entry_for_tid_from L tab id n (i + 1)

/-- Source `tt_entry_for_tid`: the entry with a matching id, or NULL (0). -/
def tt_entry_for_tid (L : Layout) (k : KState) (id : Nat) : Nat :=
  tt_entry_for_tid_from L k.thread_table id MAX_THREADS 0

/-- The do-while loop of `thread_first_empty` at index `ret`, with `n`
iterations left. -/
def thread_first_empty_from (tab : Nat → thread_t) : Nat → Nat → Nat
  | 0, _ => TT_IDX_INVALID
  | n + 1, ret =>
    if (tab ret).state = T_EMPTY then ret
    else thread_first_empty_from tab n (ret + 1)

/-- Source `thread_first_empty`. -/
def thread_first_empty (k : KState) : Nat :=
  thread_first_empty_from k.thread_table MAX_THREADS 0

/-- Source `thread_fresh_tid`: the tid returned and the new state. -/
def thread_fresh_tid (k : KState) : Nat × KState :=
  let c := (k.tid_counter + 1) % 2 ^ 32
  let c := if c = 0 then (c + 1) % 2 ^ 32 else c
  (c, { k with tid_counter := c })

/-- Source `zero_thread`, for a reference `thread` with `slot_ref`. -/
def zero_thread (L : Layout) (k : KState) (thread : Nat) : KState :=
  if !thread_in_table L thread then k
  else
    { k with
      thread_table := upd k.thread_table (thread_pos L thread)
        { id := 0, state := T_EMPTY, scnt := 0, regs := zero_regs,
          waitstat := WAITSTATUS_NONE }
      thread_mem := upd k.thread_mem (thread_pos L thread)
        (fun o => if o < THREAD_MEM_SIZE then 0
          else k.thread_mem (thread_pos L thread) o) }

/-- State after the first `n` iterations of the loop of `thread_init`. -/
def thread_init_loop (L : Layout) (k : KState) : Nat → KState
  | 0 => k
  | n + 1 => zero_thread L (thread_init_loop L k n) (slot_addr L n)

/-- Source `thread_init`. -/
def thread_init (L : Layout) (k : KState) : KState :=
  thread_init_loop L { k with tid_counter := 0 } MAX_THREADS

/-- Source `thread_spawn`: the tid returned and the new state. -/
def thread_spawn (L : Layout) (k : KState) (entry arg : Nat) : Nat × KState :=
  let i := thread_first_empty k
  if i = MAX_THREADS then (0, k)
  else
    let k1 := zero_thread L k (slot_addr L i)
    let k2 := { k1 with
      thread_table := upd k1.thread_table i { k1.thread_table i with state := T_RUNNABLE } }
    let (tid, k3) := thread_fresh_tid k2
    let k4 := { k3 with
      thread_table := upd k3.thread_table i { k3.thread_table i with id := tid } }
    let k5 := { k4 with
      thread_table := upd k4.thread_table i { k4.thread_table i with regs := zero_regs } }
    let k6 := { k5 with
      thread_table := upd k5.thread_table i
        { k5.thread_table i with
          regs := { (k5.thread_table i).regs with
            PC := entry, R0 := arg,
            SP := (L.thread_mem_addr + (i + 1) * THREAD_MEM_SIZE) % 2 ^ 32,
            PSR := 0x01000000 } } }
    ((k6.thread_table i).id, k6)

/-- Source `thread_kill`, for a reference `thread` with `slot_ref`. -/
def thread_kill (L : Layout) (k : KState) (thread : Nat) : Bool × KState :=
  if !thread_in_table L thread then (false, k)
  else
    (true, { k with
      thread_table := upd k.thread_table (thread_pos L thread)
        { k.thread_table (thread_pos L thread) with state := T_ZOMBIE } })

/-- Source `thread_kill2`. -/
def thread_kill2 (L : Layout) (k : KState) (tid : Nat) : Bool × KState :=
  let thread := tt_entry_for_tid L k tid
  if thread = 0 then (false, k)
  else
    (true, { k with
      thread_table := upd k.thread_table (thread_pos L thread)
        { k.thread_table (thread_pos L thread) with state := T_ZOMBIE } })

/-- Source `thread_copy`, for references `dest` and `src` with `slot_ref`. -/
def thread_copy (L : Layout) (k : KState) (dest src : Nat) : Bool × KState :=
  if !thread_in_table L dest || !thread_in_table L src ||
      decide ((k.thread_table (thread_pos L dest)).state ≠ T_EMPTY) ||
      decide ((k.thread_table (thread_pos L src)).state = T_EMPTY) then (false, k)
  else
    let d_index := thread_pos L dest
    let s_index := thread_pos L src
    let k1 := { k with
      thread_table := upd k.thread_table d_index (k.thread_table s_index) }
    let k2 := { k1 with
      thread_mem := upd k1.thread_mem d_index
        (fun o => if o < THREAD_MEM_SIZE then k1.thread_mem s_index o
          else k1.thread_mem d_index o) }
    let (tid, k3) := thread_fresh_tid k2
    (true, { k3 with
      thread_table := upd k3.thread_table d_index
        { k3.thread_table d_index with id := tid } })

/-- Source `thread_fork2`, for a reference `thread` with `slot_ref`, called
with a non-null out-parameter `rt`: the
result is `some p` when the call returns true and stores `p` through `rt`, and
`none` when it returns false (nothing is stored). -/
def thread_fork2 (L : Layout) (k : KState) (thread : Nat) : Option Nat × KState :=
  if !thread_in_table L thread then (none, k)
  else
    let destpos := thread_first_empty k
    if destpos = MAX_THREADS then (none, k)
    else
      let (ok, k1) := thread_copy L k (slot_addr L destpos) thread
      if ok then (some (slot_addr L destpos), k1)
      else (none, k1)

/-- Source `thread_fork`: `thread_fork2` without the out-parameter. -/
def thread_fork (L : Layout) (k : KState) (thread : Nat) : Bool × KState :=
  ((thread_fork2 L k thread).1.isSome, (thread_fork2 L k thread).2)

/-- Table after the first `n` iterations of the loop of
`thread_notify_waiting`. -/
def thread_notify_waiting_loop (L : Layout) (thread : Nat) (tab0 : Nat → thread_t) :
    Nat → (Nat → thread_t)
  | 0 => tab0
  | n + 1 =>
    let tab := thread_notify_waiting_loop L thread tab0 n
    if (tab n).state = T_BLOCKED ∧ (tab n).waitstat = WAITSTATUS_THREAD ∧
        (tab n).regs.R1 = (tab (thread_pos L thread)).id then
      let tab1 := upd tab n
        { tab n with regs := { (tab n).regs with R0 := (tab (thread_pos L thread)).regs.R1 } }
      upd tab1 n { tab1 n with state := T_RUNNABLE }
    else tab

/-- Source `thread_notify_waiting`, for a reference `thread` with
`slot_ref`. -/
def thread_notify_waiting (L : Layout) (k : KState) (thread : Nat) : KState :=
  if !thread_in_table L thread then k
  else
    { k with
      thread_table := thread_notify_waiting_loop L thread k.thread_table MAX_THREADS }

/-! ## kernel.c -/

/-- How a function that does not return ends: in `kernel_exit` (the thread
`thread_current` is resumed in user mode) or in `kernel_panic`. -/
inductive Outcome
  | exit (k : KState)
  | panic (k : KState)

/-- The state of the globals when the kernel is left. -/
def Outcome.state : Outcome → KState
  | Outcome.exit k => k
  | Outcome.panic k => k

/-- Source `kernel_run`. -/
def kernel_run (k : KState) (thread : Nat) : Outcome :=
  Outcome.exit { k with thread_current := thread }

/-- The `while (1)` loop of `kernel_schedule` at index `i`.  The result is
`none` when the fuel runs out before the loop is left. -/
def kernel_schedule_loop (L : Layout) (k : KState) (original_i : Nat) :
    Nat → Nat → Option Outcome
  | 0, _ => none
  | fuel + 1, i =>
    if (k.thread_table i).state = T_RUNNABLE then some (kernel_run k (slot_addr L i))
    else
      let i1 := i + 1
      let i2 := if i1 = MAX_THREADS then 0 else i1
      if i2 = original_i then some (Outcome.panic k)
      else kernel_schedule_loop L k original_i fuel i2

/-- Source `kernel_schedule`. -/
def kernel_schedule (L : Layout) (fuel : Nat) (k : KState) : Option Outcome :=
  let i := thread_pos L k.thread_current
  if i ≥ MAX_THREADS then some (Outcome.panic k)
  else
    let i1 := i + 1
    let i2 := if i1 = MAX_THREADS then 0 else i1
    kernel_schedule_loop L k i2 fuel i2

/-- The assignment `thread_current->regs.R0 = v`. -/
def set_current_R0 (L : Layout) (k : KState) (v : Nat) : KState :=
  { k with
    thread_table := upd k.thread_table (thread_pos L k.thread_current)
      { k.thread_table (thread_pos L k.thread_current) with
        regs := { (k.thread_table (thread_pos L k.thread_current)).regs with R0 := v } } }

/-- Case `SYSCALL_GET_TID`: the state with which the caller is resumed. -/
def case_GET_TID (L : Layout) (k : KState) : KState :=
  set_current_R0 L k (k.thread_table (thread_pos L k.thread_current)).id

/-- Case `SYSCALL_EXIT`: the state with which the scheduler is entered. -/
def case_EXIT (L : Layout) (k : KState) : KState :=
  let k1 := thread_notify_waiting L k k.thread_current
  (thread_kill L k1 k1.thread_current).2

/-- The four bytes at address `a` share no byte with the object of `s` bytes
at address `o`. -/
def apart (a o s : Nat) : Prop := a + 4 ≤ o ∨ o + s ≤ a

instance (a o s : Nat) : Decidable (apart a o s) := by
  unfold apart; infer_instance

/-- Address `a` is the address of a lock cell in the data of the program: a
word aligned word of the SRAM that shares no byte with `thread_table`,
`thread_mem`, `kernel_stack` or one of the scalar globals of `thread.c` and
`kernel.c`.  The value of such a cell is the entry `mem a`. -/
def lock_cell (L : Layout) (a : Nat) : Prop :=
  a % 4 = 0 ∧ L.sram_addr ≤ a ∧ a + 4 ≤ L.sram_addr + L.sram_size ∧
  apart a L.thread_table_addr (MAX_THREADS * L.sizeof_thread_t) ∧
  apart a L.thread_mem_addr (MAX_THREADS * THREAD_MEM_SIZE) ∧
  apart a L.kernel_stack_addr KERNEL_STACKSIZE ∧
  apart a L.thread_current_addr 4 ∧ apart a L.tid_counter_addr 4 ∧
  apart a L.kernel_stack_top_addr 4 ∧ apart a L.systime_ms_addr 4 ∧
  apart a L.next_to_run_ms_addr 4

instance (L : Layout) (a : Nat) : Decidable (lock_cell L a) := by
  unfold lock_cell; infer_instance

/-- The index `i` below `n` with `a = &thread_table[i].state`, if there is
one; the field `state` follows the 4-byte field `id`. -/
def state_field_index (L : Layout) (a : Nat) : Nat → Option Nat
  | 0 => none
  | n + 1 => if a = slot_addr L n + 4 then some n else state_field_index L a n

/-- The value the read `*((lock_t*) a)` gives.  `lock_t` and `tstate_t` are
enumerations; the compiler gives both the same size, one byte or four, and the
part is little-endian.  Three kinds of address are covered, and the value is
the same for both sizes: a lock cell in the data of the program; the field
`state` of a table entry (entries of 84 bytes); and `next_to_run_ms` while its
value fits one byte.  For any other address there is no result. -/
def lock_load (L : Layout) (k : KState) (a : Nat) : Option Nat :=
  if lock_cell L a then some (k.mem a)
  else
    match state_field_index L a MAX_THREADS with
    | some i =>
      if L.sizeof_thread_t = 84 then some (tstate_code (k.thread_table i).state) else none
    | none =>
      if a = L.next_to_run_ms_addr ∧ k.next_to_run_ms < 256 then some k.next_to_run_ms
      else none

/-- The state after the write `*((lock_t*) a) = v`, for the addresses
`lock_load` covers. -/
def lock_store (L : Layout) (k : KState) (a v : Nat) : Option KState :=
  if lock_cell L a then some { k with mem := upd k.mem a v }
  else
    match state_field_index L a MAX_THREADS with
    | some i =>
      if L.sizeof_thread_t = 84 then
        (tstate_of_code v).map (fun st =>
          { k with
            thread_table := upd k.thread_table i { k.thread_table i with state := st } })
      else none
    | none =>
      if a = L.next_to_run_ms_addr ∧ k.next_to_run_ms < 256 then
        some { k with next_to_run_ms := v }
      else none

/-- Case `SYSCALL_LOCK`: the state with which the caller is resumed; no result
when R1 is an address that `lock_load` does not cover. -/
def case_LOCK (L : Layout) (k : KState) : Option KState :=
  let cur := k.thread_table (thread_pos L k.thread_current)
  match lock_load L k cur.regs.R1 with
  | none => none
  | some v =>
    if v ≠ 0 then some (set_current_R0 L k 0)
    else (lock_store L k cur.regs.R1 LOCK_LOCKED).map (fun k1 => set_current_R0 L k1 1)

/-- Case `SYSCALL_UNLOCK`: the state with which the scheduler is entered; no
result when R1 is an address that `lock_store` does not cover. -/
def case_UNLOCK (L : Layout) (k : KState) : Option KState :=
  let cur := k.thread_table (thread_pos L k.thread_current)
  lock_store L k cur.regs.R1 LOCK_UNLOCKED

/-- Case `SYSCALL_FORK`: the state with which the caller is resumed. -/
def case_FORK (L : Layout) (k : KState) : KState :=
  match thread_fork2 L k k.thread_current with
  | (some child_thread, k1) =>
    let ci := thread_pos L child_thread
    let k2 := { k1 with
      thread_table := upd k1.thread_table ci
        { k1.thread_table ci with regs := { (k1.thread_table ci).regs with R0 := 0 } } }
    set_current_R0 L k2 (k2.thread_table ci).id
  | (none, k1) => set_current_R0 L k1 0

/-- Case `SYSCALL_SLEEP` with `R1 > 0`: the state with which the scheduler is
entered. -/
def case_SLEEP (L : Layout) (k : KState) : KState :=
  let c := thread_pos L k.thread_current
  let d := ((k.thread_table c).regs.R1 / SYSTIME_CYCLES_PER_MS) % 2 ^ 32
  let k1 := set_current_R0 L k d
  let k2 := { k1 with
    thread_table := upd k1.thread_table c { k1.thread_table c with scnt := d } }
  let k3 := { k2 with
    thread_table := upd k2.thread_table c
      { k2.thread_table c with scnt := add32 (k2.thread_table c).scnt k2.systime_ms } }
  let k4 :=
    if sub32 (k3.thread_table c).scnt k3.systime_ms
        < sub32 k3.next_to_run_ms k3.systime_ms then
      { k3 with next_to_run_ms := (k3.thread_table c).scnt }
    else k3
  { k4 with
    thread_table := upd k4.thread_table c { k4.thread_table c with state := T_SLEEPING } }

/-- Case `SYSCALL_KILL`: the state with which the caller is resumed. -/
def case_KILL (L : Layout) (k : KState) : KState :=
  let cur := k.thread_table (thread_pos L k.thread_current)
  let child_thread := tt_entry_for_tid L k cur.regs.R1
  if child_thread ≠ 0 then
    let k1 := thread_notify_waiting L k child_thread
    let r := thread_kill L k1 child_thread
    set_current_R0 L r.2 (if r.1 then 1 else 0)
  else set_current_R0 L k 0

/-- Case `SYSCALL_RESET`: the state after the write to the reset register. -/
def case_RESET (k : KState) : KState :=
  { k with mem := upd k.mem 0xE000ED0C 0x05FA0004 }

/-- Case `SYSCALL_SPAWN`: the state with which the scheduler is entered. -/
def case_SPAWN (L : Layout) (k : KState) : KState :=
  let cur := k.thread_table (thread_pos L k.thread_current)
  let r := thread_spawn L k cur.regs.R1 cur.regs.R2
  set_current_R0 L r.2 r.1

/-- Case `SYSCALL_WAIT` when the awaited thread exists: the state with which
the scheduler is entered. -/
def case_WAIT (L : Layout) (k : KState) : KState :=
  let c := thread_pos L k.thread_current
  let k1 := { k with
    thread_table := upd k.thread_table c { k.thread_table c with state := T_BLOCKED } }
  { k1 with
    thread_table := upd k1.thread_table c
      { k1.thread_table c with waitstat := WAITSTATUS_THREAD } }

/-- Source `kernel_handle_syscall`.  `kernel_run` and `kernel_schedule` do not
return, so the statements that follow a call of one of them in a case are not
executed: in particular the case `SYSCALL_KILL`, which has no `break`, ends in
its `kernel_run`.  The case `SYSCALL_RESET` leaves the switch through its
`break` and reaches the `kernel_panic` after the switch, as an unknown number
does.  The result is `none` when the fuel of the scheduler runs out, and for a
LOCK or UNLOCK on an address that `lock_load` and `lock_store` do not
cover. -/
def kernel_handle_syscall (L : Layout) (fuel : Nat) (k : KState) : Option Outcome :=
  let cur := k.thread_table (thread_pos L k.thread_current)
  if cur.regs.R0 = SYSCALL_GET_TID then
    some (kernel_run (case_GET_TID L k) (case_GET_TID L k).thread_current)
  else if cur.regs.R0 = SYSCALL_EXIT then
    kernel_schedule L fuel (case_EXIT L k)
  else if cur.regs.R0 = SYSCALL_YIELD then
    kernel_schedule L fuel k
  else if cur.regs.R0 = SYSCALL_LOCK then
    (case_LOCK L k).map (fun k1 => kernel_run k1 k1.thread_current)
  else if cur.regs.R0 = SYSCALL_UNLOCK then
    (case_UNLOCK L k).bind (kernel_schedule L fuel)
  else if cur.regs.R0 = SYSCALL_FORK then
    some (kernel_run (case_FORK L k) (case_FORK L k).thread_current)
  else if cur.regs.R0 = SYSCALL_SLEEP then
    if cur.regs.R1 > 0 then kernel_schedule L fuel (case_SLEEP L k)
    else some (kernel_run (set_current_R0 L k 0) (set_current_R0 L k 0).thread_current)
  else if cur.regs.R0 = SYSCALL_KILL then
    some (kernel_run (case_KILL L k) (case_KILL L k).thread_current)
  else if cur.regs.R0 = SYSCALL_RESET then
    some (Outcome.panic (case_RESET k))
  else if cur.regs.R0 = SYSCALL_SPAWN then
    kernel_schedule L fuel (case_SPAWN L k)
  else if cur.regs.R0 = SYSCALL_WAIT then
    if tt_entry_for_tid L k cur.regs.R1 ≠ 0 then kernel_schedule L fuel (case_WAIT L k)
    else some (kernel_run k k.thread_current)
  else some (Outcome.panic k)

/-- State of the scan of `kernel_tick_counter` after its first `n` iterations:
the table and `next_to_run_ms` (a relative time during the scan). -/
def kernel_tick_scan (systime_ms : Nat) (tab0 : Nat → thread_t) :
    Nat → (Nat → thread_t) × Nat
  | 0 => (tab0, UINT32_MAX)
  | n + 1 =>
    let s := kernel_tick_scan systime_ms tab0 n
    if (s.1 n).state = T_SLEEPING then
      if systime_ms = (s.1 n).scnt then
        (upd s.1 n { s.1 n with state := T_RUNNABLE }, s.2)
      else
        let normtime := sub32 (s.1 n).scnt systime_ms
        if normtime < s.2 then (s.1, normtime) else s
    else s

/-- Source `kernel_tick_counter`. -/
def kernel_tick_counter (k : KState) : KState :=
  let k1 := { k with systime_ms := add32 k.systime_ms 1 }
  if k1.systime_ms ≠ k1.next_to_run_ms then k1
  else
    let s := kernel_tick_scan k1.systime_ms k1.thread_table MAX_THREADS
    { k1 with thread_table := s.1, next_to_run_ms := add32 s.2 k1.systime_ms }

/-- Source `kernel_get_system_freq`. -/
def kernel_get_system_freq : Nat := 80000000

/-- Source `kernel_set_scheduler_freq`, with `KERNEL_PREEMPTION` set as in
`kernel.h`: the three SysTick registers are written. -/
def kernel_set_scheduler_freq (k : KState) (freq : Nat) : KState :=
  let k1 := { k with mem := upd k.mem 0xE000E018 0 }
  let k2 := { k1 with mem := upd k1.mem 0xE000E014 (sub32 (kernel_get_system_freq / freq) 1) }
  { k2 with mem := upd k2.mem 0xE000E010 (k2.mem 0xE000E010 ||| 0x00000007) }

/-- The assertions of the first `n` iterations of the loop of `kernel_init`
hold. -/
def kernel_init_asserts (L : Layout) : Nat → Bool
  | 0 => true
  | n + 1 =>
    kernel_init_asserts L n && (thread_pos L (slot_addr L n) == n) &&
      thread_in_table L (slot_addr L n)

/-- Byte `b` of the destination of `memcpy(r0, r1, n)`: `ram a` is the byte at
address `a` of the source. -/
def copied_byte (ram : Nat → Nat) (r0 r1 b : Nat) : Nat := ram (r1 + (b - r0))

/-- The little-endian word at address `a` of the destination of the memcpy. -/
def copied_word (ram : Nat → Nat) (r0 r1 a : Nat) : Nat :=
  copied_byte ram r0 r1 a + 2 ^ 8 * copied_byte ram r0 r1 (a + 1) +
    2 ^ 16 * copied_byte ram r0 r1 (a + 2) + 2 ^ 24 * copied_byte ram r0 r1 (a + 3)

/-- The table entry at address `s` when the memcpy wrote all its 84 bytes: the
fields are the words at their offsets (`id` 0, `state` 4, `scnt` 8, `regs` 12
to 76, `waitstat` 80).  There is a result when the words of the two
enumeration fields are values of their types; these are then the values of the
fields whether the compiler gives an enumeration one byte or four. -/
def copied_slot (ram : Nat → Nat) (r0 r1 s : Nat) : Option thread_t :=
  match tstate_of_code (copied_word ram r0 r1 (s + 4)),
      twait_of_code (copied_word ram r0 r1 (s + 80)) with
  | some st, some ws =>
    some
      { id := copied_word ram r0 r1 s, state := st, scnt := copied_word ram r0 r1 (s + 8),
        regs :=
          { R4 := copied_word ram r0 r1 (s + 12), R5 := copied_word ram r0 r1 (s + 16),
            R6 := copied_word ram r0 r1 (s + 20), R7 := copied_word ram r0 r1 (s + 24),
            R8 := copied_word ram r0 r1 (s + 28), R9 := copied_word ram r0 r1 (s + 32),
            R10 := copied_word ram r0 r1 (s + 36), R11 := copied_word ram r0 r1 (s + 40),
            SP := copied_word ram r0 r1 (s + 44), R0 := copied_word ram r0 r1 (s + 48),
            R1 := copied_word ram r0 r1 (s + 52), R2 := copied_word ram r0 r1 (s + 56),
            R3 := copied_word ram r0 r1 (s + 60), R12 := copied_word ram r0 r1 (s + 64),
            LR := copied_word ram r0 r1 (s + 68), PC := copied_word ram r0 r1 (s + 72),
            PSR := copied_word ram r0 r1 (s + 76) },
        waitstat := ws }
  | _, _ => none

/-- Every entry among the first `n` that lies at or above `r0` has a result in
`copied_slot`. -/
def copied_slots_ok (L : Layout) (ram : Nat → Nat) (r0 r1 : Nat) : Nat → Bool
  | 0 => true
  | n + 1 =>
    copied_slots_ok L ram r0 r1 n &&
      (decide (slot_addr L n < r0) || (copied_slot ram r0 r1 (slot_addr L n)).isSome)

/-- The statements of `kernel_init` that follow the inline assembly.  The
result is `Except.ok` when `kernel_init` returns and `Except.error` when an
assertion ends in `kernel_panic`. -/
def kernel_init_rest (L : Layout) (k3 : KState) : Except KState KState :=
  let k4 := { k3 with
    thread_table := upd k3.thread_table 0 { k3.thread_table 0 with state := T_RUNNABLE } }
  let k5 := { k4 with
    thread_table := upd k4.thread_table 0 { k4.thread_table 0 with id := 0 } }
  let k6 := { k5 with thread_current := slot_addr L 0 }
  let k7 := { k6 with systime_ms := 0, next_to_run_ms := UINT32_MAX }
  if kernel_init_asserts L MAX_THREADS then
    Except.ok (kernel_set_scheduler_freq k7 KERNEL_SCHEDULER_IRQ_FREQ)
  else Except.error k7

/-- Source `kernel_init`, entered with the stack pointer `k.cpu_sp`; `ram a` is
the byte of the caller's stack at address `a`.  The inline assembly computes
`r2 = current_stack_top - sp` and `r0 = &thread_mem[0][THREAD_MEM_SIZE] - r2`,
calls `memcpy(r0, sp, r2)` and sets `sp = r0`.

* When `r2 <= THREAD_MEM_SIZE` the destination lies in `thread_mem[0]`.
* When `r2` is larger the destination starts below `thread_mem`.  This case is
  covered when `thread_table` (entries of 84 bytes) ends where `thread_mem`
  begins and `r0` is the address of a table entry: the memcpy then overwrites
  that entry and every entry after it, and the entries, read back from the
  bytes written, must have a result in `copied_slot`.
* For any other call there is no result (`none`). -/
def kernel_init (L : Layout) (current_stack_top : Nat) (ram : Nat → Nat) (k : KState) :
    Option (Except KState KState) :=
  let k1 := { k with kernel_stack_top := add32 L.kernel_stack_addr KERNEL_STACKSIZE }
  let k2 := thread_init L k1
  let r1 := k2.cpu_sp
  let r2 := sub32 current_stack_top r1
  let r0 := sub32 (L.thread_mem_addr + THREAD_MEM_SIZE) r2
  let k3 := { k2 with
    thread_mem := fun s o =>
      if o < THREAD_MEM_SIZE ∧ r0 ≤ L.thread_mem_addr + s * THREAD_MEM_SIZE + o ∧
          L.thread_mem_addr + s * THREAD_MEM_SIZE + o < r0 + r2 then
        ram (r1 + (L.thread_mem_addr + s * THREAD_MEM_SIZE + o - r0))
      else k2.thread_mem s o
    cpu_sp := r0 }
  if r2 ≤ THREAD_MEM_SIZE then some (kernel_init_rest L k3)
  else if L.sizeof_thread_t = 84 ∧
      L.thread_mem_addr = L.thread_table_addr + MAX_THREADS * L.sizeof_thread_t ∧
      r0 + r2 = L.thread_mem_addr + THREAD_MEM_SIZE ∧
      thread_in_table L r0 = true ∧ r0 = slot_addr L (thread_pos L r0) ∧
      copied_slots_ok L ram r0 r1 MAX_THREADS = true then
    some (kernel_init_rest L { k3 with
      thread_table := fun i =>
        if thread_pos L r0 ≤ i ∧ i < MAX_THREADS then
          (copied_slot ram r0 r1 (slot_addr L i)).getD (k2.thread_table i)
        else k2.thread_table i })
  else none

/-! ## Scenario states and auxiliary definitions -/

/-- A layout of the static objects in the SRAM of the part, used by the
scenarios; `sizeof(thread_t)` is 84 (21 words). -/
def L0 : Layout :=
  { thread_table_addr := 0x20000000, thread_mem_addr := 0x20001000,
    kernel_stack_addr := 0x20005000, sizeof_thread_t := 84,
    thread_current_addr := 0x200003F0, tid_counter_addr := 0x200003F4,
    kernel_stack_top_addr := 0x20005400, systime_ms_addr := 0x20005404,
    next_to_run_ms_addr := 0x20005408, sram_addr := 0x20000000, sram_size := 0x8000 }

/-- A table entry with the given id, state, R0 and R1, and zero elsewhere. -/
def mk_thread (id : Nat) (state : tstate_t) (r0 r1 : Nat) : thread_t :=
  { id := id, state := state, scnt := 0, regs := { zero_regs with R0 := r0, R1 := r1 },
    waitstat := WAITSTATUS_NONE }

/-- A state whose table is `tab`, with current thread `&thread_table[c]`. -/
def mk_state (L : Layout) (tab : Nat → thread_t) (c : Nat) : KState :=
  { thread_table := tab, thread_mem := fun _ _ => 0, thread_current := slot_addr L c,
    tid_counter := 2, systime_ms := 0, next_to_run_ms := UINT32_MAX,
    kernel_stack_top := 0, mem := fun _ => 0, cpu_sp := 0 }

/-- Slot 0 and two workers A (slot 1) and B (slot 2), all RUNNABLE, each about
to issue YIELD. -/
def rr_table : Nat → thread_t := fun i =>
  if i = 0 then mk_thread 0 T_RUNNABLE SYSCALL_YIELD 0
  else if i = 1 then mk_thread 1 T_RUNNABLE SYSCALL_YIELD 0
  else if i = 2 then mk_thread 2 T_RUNNABLE SYSCALL_YIELD 0
  else mk_thread 0 T_EMPTY 0 0

/-- Slot 0 about to issue SLEEP(50), and a RUNNABLE worker in slot 1. -/
def sleep_table : Nat → thread_t := fun i =>
  if i = 0 then mk_thread 0 T_RUNNABLE SYSCALL_SLEEP 50
  else if i = 1 then mk_thread 1 T_RUNNABLE SYSCALL_YIELD 0
  else mk_thread 0 T_EMPTY 0 0

/-- The state of the SLEEP scenario: `systime_ms = 100`, no sleeper. -/
def sleep_state : KState := { mk_state L0 sleep_table 0 with systime_ms := 100 }

/-- The number of ticks a SLEEP asks for. -/
def sleep_ticks (L : Layout) (k : KState) : Nat :=
  ((k.thread_table (thread_pos L k.thread_current)).regs.R1 / SYSTIME_CYCLES_PER_MS) % 2 ^ 32

/-- Slot `t` is BLOCKED on the exit of the thread `id`. -/
def is_waiter (t : thread_t) (id : Nat) : Prop :=
  t.state = T_BLOCKED ∧ t.waitstat = WAITSTATUS_THREAD ∧ t.regs.R1 = id

instance (t : thread_t) (id : Nat) : Decidable (is_waiter t id) := by
  unfold is_waiter; infer_instance

/-- A waiter after it was woken with the exit status `status`. -/
def notified (t : thread_t) (status : Nat) : thread_t :=
  { t with regs := { t.regs with R0 := status }, state := T_RUNNABLE }

/-- The current thread runs in user mode and enters the kernel again: its
register image is `regs` at that point. -/
def set_current_regs (L : Layout) (k : KState) (regs : registers_t) : KState :=
  { k with
    thread_table := upd k.thread_table (thread_pos L k.thread_current)
      { k.thread_table (thread_pos L k.thread_current) with regs := regs } }

/-- The WAIT/EXIT scenario: slot 0, P (id 1, slot 1) blocked by WAIT on 2, and
Q (id 2, slot 2) about to issue EXIT with status 42. -/
def wait_exit_table : Nat → thread_t := fun i =>
  if i = 0 then mk_thread 0 T_RUNNABLE SYSCALL_YIELD 0
  else if i = 1 then
    { mk_thread 1 T_BLOCKED SYSCALL_WAIT 2 with waitstat := WAITSTATUS_THREAD }
  else if i = 2 then mk_thread 2 T_RUNNABLE SYSCALL_EXIT 42
  else mk_thread 0 T_EMPTY 0 0

/-- The table with which the caller is resumed by SYSCALL_KILL when the first
non-EMPTY slot with the target id is slot `j`. -/
def kill_table (k : KState) (c j : Nat) : Nat → thread_t := fun i =>
  let woken :=
    if i < MAX_THREADS ∧ is_waiter (k.thread_table i) (k.thread_table j).id then
      notified (k.thread_table i) (k.thread_table j).regs.R1
    else k.thread_table i
  let killed := if i = j then { woken with state := T_ZOMBIE } else woken
  if i = c then { killed with regs := { killed.regs with R0 := 1 } } else killed

/-- The KILL scenario: slot 0 issues KILL on the id 0xDEAD, which no slot
has. -/
def kill_unknown_state : KState :=
  set_current_regs L0 (mk_state L0 rr_table 0) { zero_regs with R0 := SYSCALL_KILL, R1 := 0xDEAD }

/-- The lock scenario: thread A in slot 0 and thread B in slot 1, both
RUNNABLE, and a lock cell at address 0x20006000 that holds 0. -/
def lock_table : Nat → thread_t := fun i =>
  if i = 0 then mk_thread 0 T_RUNNABLE SYSCALL_LOCK 0x20006000
  else if i = 1 then mk_thread 1 T_RUNNABLE SYSCALL_YIELD 0
  else mk_thread 0 T_EMPTY 0 0

/-- The state with which the caller of LOCK is resumed when R1 is the address
of a lock cell in the data of the program. -/
def case_LOCK_data (L : Layout) (k : KState) : KState :=
  let cur := k.thread_table (thread_pos L k.thread_current)
  if k.mem cur.regs.R1 ≠ 0 then set_current_R0 L k 0
  else
    let k1 := { k with mem := upd k.mem cur.regs.R1 LOCK_LOCKED }
    set_current_R0 L k1 1

/-- The state with which UNLOCK enters the scheduler when R1 is the address of
a lock cell in the data of the program. -/
def case_UNLOCK_data (L : Layout) (k : KState) : KState :=
  let cur := k.thread_table (thread_pos L k.thread_current)
  { k with mem := upd k.mem cur.regs.R1 LOCK_UNLOCKED }

/-- A register image with the given R0 and R1. -/
def regs_call (r0 r1 : Nat) : registers_t := { zero_regs with R0 := r0, R1 := r1 }

/-- The slot `thread_spawn` creates in slot `i` of a layout `L`. -/
def spawned_slot (L : Layout) (i tid entry arg : Nat) : thread_t :=
  { id := tid, state := T_RUNNABLE, scnt := 0,
    regs := { zero_regs with
      PC := entry, R0 := arg, SP := L.thread_mem_addr + (i + 1) * THREAD_MEM_SIZE,
      PSR := 0x01000000 },
    waitstat := WAITSTATUS_NONE }

/-- A table with slots 0 and 1 occupied and slot 2 the first EMPTY slot. -/
def spawn_state : KState := mk_state L0 sleep_table 0

/-- Slot `t` is a sleeper the scan at time `now` does not wake. -/
def sleeps_on (t : thread_t) (now : Nat) : Prop :=
  t.state = T_SLEEPING ∧ now ≠ t.scnt

instance (t : thread_t) (now : Nat) : Decidable (sleeps_on t now) := by
  unfold sleeps_on; infer_instance

/-- Every register of the image is a 32-bit value. -/
def regs_u32 (r : registers_t) : Prop :=
  r.R4 < 2 ^ 32 ∧ r.R5 < 2 ^ 32 ∧ r.R6 < 2 ^ 32 ∧ r.R7 < 2 ^ 32 ∧ r.R8 < 2 ^ 32 ∧
  r.R9 < 2 ^ 32 ∧ r.R10 < 2 ^ 32 ∧ r.R11 < 2 ^ 32 ∧ r.SP < 2 ^ 32 ∧ r.R0 < 2 ^ 32 ∧
  r.R1 < 2 ^ 32 ∧ r.R2 < 2 ^ 32 ∧ r.R3 < 2 ^ 32 ∧ r.R12 < 2 ^ 32 ∧ r.LR < 2 ^ 32 ∧
  r.PC < 2 ^ 32 ∧ r.PSR < 2 ^ 32

instance (r : registers_t) : Decidable (regs_u32 r) := by
  unfold regs_u32; infer_instance

/-- The current thread runs in user mode until the next entry into the kernel:
at that entry its saved register image is `regs`, and the thread stacks, the
memory outside the kernel objects and the stack pointer are what user code made
of them. -/
def user_run (L : Layout) (k : KState) (regs : registers_t) (thread_mem : Nat → Nat → Nat)
    (mem : Nat → Nat) (cpu_sp : Nat) : KState :=
  { set_current_regs L k regs with thread_mem := thread_mem, mem := mem, cpu_sp := cpu_sp }

/-- The caller's stack `[sp, top)` is no larger than the stack region of slot
0, to which `kernel_init` moves it. -/
def boot_fits (top : Nat) (k0 : KState) : Prop := sub32 top k0.cpu_sp ≤ THREAD_MEM_SIZE

instance (top : Nat) (k0 : KState) : Decidable (boot_fits top k0) := by
  unfold boot_fits; infer_instance

/-- If the system call the current thread of `k` issues is LOCK or UNLOCK, its
R1 is the address of a lock cell in the data of the program. -/
def lock_call_ok (L : Layout) (k : KState) : Prop :=
  ((k.thread_table (thread_pos L k.thread_current)).regs.R0 = SYSCALL_LOCK ∨
    (k.thread_table (thread_pos L k.thread_current)).regs.R0 = SYSCALL_UNLOCK) →
  lock_cell L (k.thread_table (thread_pos L k.thread_current)).regs.R1

instance (L : Layout) (k : KState) : Decidable (lock_call_ok L k) := by
  unfold lock_call_ok; infer_instance

/-- The states the kernel is in between two of its operations, from
`kernel_init` on, in a program that keeps to the resource model: the stack of
the caller of `kernel_init` fits the stack region of slot 0 (`boot_fits`), and
the locks passed to LOCK and UNLOCK are lock cells in the data of the program
(`lock_call_ok`).  User code runs, the tick handler runs, the tick interrupt
reschedules, or the current thread makes a system call that resumes a
thread. -/
inductive Reachable (L : Layout) : KState → Prop
  | init (top : Nat) (ram : Nat → Nat) (k0 k : KState) :
      boot_fits top k0 → kernel_init L top ram k0 = some (Except.ok k) → Reachable L k
  | user (k : KState) (regs : registers_t) (thread_mem : Nat → Nat → Nat) (mem : Nat → Nat)
      (cpu_sp : Nat) :
      Reachable L k → regs_u32 regs → Reachable L (user_run L k regs thread_mem mem cpu_sp)
  | tick (k : KState) : Reachable L k → Reachable L (kernel_tick_counter k)
  | preempt (k k' : KState) (fuel : Nat) :
      Reachable L k → kernel_schedule L fuel k = some (Outcome.exit k') → Reachable L k'
  | syscall (k k' : KState) (fuel : Nat) :
      Reachable L k → lock_call_ok L k →
      kernel_handle_syscall L fuel k = some (Outcome.exit k') → Reachable L k'

/-- The states reachable from `kernel_init` by user code, ticks, preemptions
and system calls with no restriction on the caller's stack or on the address
passed to LOCK and UNLOCK, as far as `kernel_init`, `lock_load` and
`lock_store` cover them. -/
inductive RawReachable (L : Layout) : KState → Prop
  | init (top : Nat) (ram : Nat → Nat) (k0 k : KState) :
      kernel_init L top ram k0 = some (Except.ok k) → RawReachable L k
  | user (k : KState) (regs : registers_t) (thread_mem : Nat → Nat → Nat) (mem : Nat → Nat)
      (cpu_sp : Nat) :
      RawReachable L k → regs_u32 regs →
      RawReachable L (user_run L k regs thread_mem mem cpu_sp)
  | tick (k : KState) : RawReachable L k → RawReachable L (kernel_tick_counter k)
  | preempt (k k' : KState) (fuel : Nat) :
      RawReachable L k → kernel_schedule L fuel k = some (Outcome.exit k') → RawReachable L k'
  | syscall (k k' : KState) (fuel : Nat) :
      RawReachable L k → kernel_handle_syscall L fuel k = some (Outcome.exit k') →
      RawReachable L k'

/-- What holds of the kernel state between two kernel operations. -/
structure KInv (L : Layout) (k : KState) : Prop where
  cur : ∃ c, c < MAX_THREADS ∧ k.thread_current = slot_addr L c ∧
    (k.thread_table c).state ≠ T_EMPTY
  ids : ∃ m, m < MAX_THREADS ∧ k.tid_counter = m ∧
    ∀ i, i < MAX_THREADS →
      (i ≤ m → (k.thread_table i).state ≠ T_EMPTY ∧ (k.thread_table i).id = i) ∧
      (m < i → (k.thread_table i).state = T_EMPTY)
  time_lt : k.systime_ms < 2 ^ 32 ∧ k.next_to_run_ms < 2 ^ 32
  next_ne : k.next_to_run_ms ≠ k.systime_ms
  sleepers : ∀ i, i < MAX_THREADS → (k.thread_table i).state = T_SLEEPING →
    (k.thread_table i).scnt < 2 ^ 32 ∧
    sub32 k.next_to_run_ms k.systime_ms ≤ sub32 (k.thread_table i).scnt k.systime_ms
  r1 : ∀ i, i < MAX_THREADS → (k.thread_table i).regs.R1 < 2 ^ 32

/-- A change of one slot that keeps its id, its deadline, whether it is EMPTY,
and makes it neither a sleeper nor gives it an R1 that is not a 32-bit
value. -/
def benign (a b : thread_t) : Prop :=
  b.id = a.id ∧ b.scnt = a.scnt ∧ (b.state = T_EMPTY ↔ a.state = T_EMPTY) ∧
  (b.state = T_SLEEPING → a.state = T_SLEEPING) ∧
  (a.regs.R1 < 2 ^ 32 → b.regs.R1 < 2 ^ 32)

/-- The state after `n` calls of `kernel_tick_counter`. -/
def ticks : Nat → KState → KState
  | 0, k => k
  | n + 1, k => kernel_tick_counter (ticks n k)

/-- The globals before boot, with the stack pointer of the caller of
`kernel_init`. -/
def boot_state : KState :=
  { thread_table := fun _ => mk_thread 0 T_EMPTY 0 0, thread_mem := fun _ _ => 0,
    thread_current := 0, tid_counter := 0, systime_ms := 0, next_to_run_ms := 0,
    kernel_stack_top := 0, mem := fun _ => 0, cpu_sp := 0x20007F00 }

/-- The slot `zero_thread` leaves. -/
def zero_slot : thread_t :=
  { id := 0, state := T_EMPTY, scnt := 0, regs := zero_regs, waitstat := WAITSTATUS_NONE }

/-- The state `kernel_init(0x20008000)` leaves when entered in `boot_state`
with a caller's stack of zero bytes. -/
def init_state : KState :=
  { thread_table := fun i => if i = 0 then { zero_slot with state := T_RUNNABLE } else zero_slot,
    thread_mem := fun _ _ => 0,
    thread_current := slot_addr L0 0, tid_counter := 0, systime_ms := 0,
    next_to_run_ms := UINT32_MAX, kernel_stack_top := 0x20005400,
    mem := upd (upd (upd (fun _ => 0) 0xE000E018 0) 0xE000E014 79999) 0xE000E010 7,
    cpu_sp := 0x20001300 }

/-- Thread 0 is about to issue SPAWN. -/
def spawn_call : KState :=
  user_run L0 init_state (regs_call SYSCALL_SPAWN 0x08000100) init_state.thread_mem
    init_state.mem init_state.cpu_sp

/-- The worker of slot 1 was spawned and is the current thread. -/
def after_spawn : KState :=
  { case_SPAWN L0 spawn_call with thread_current := slot_addr L0 1 }

/-- The same 100 ticks later. -/
def at_100 : KState := { after_spawn with systime_ms := 100 }

/-- The worker is about to issue SLEEP(50) at `systime_ms = 100`. -/
def sleep_call : KState :=
  user_run L0 at_100 (regs_call SYSCALL_SLEEP 50) at_100.thread_mem at_100.mem at_100.cpu_sp

/-- The worker sleeps and thread 0 is the current thread. -/
def asleep : KState := { case_SLEEP L0 sleep_call with thread_current := slot_addr L0 0 }

/-- The state 50 ticks after the SLEEP. -/
def woken : KState := ticks 50 asleep

/-- One tick before the deadline of the sleeper of `asleep`. -/
def before_wake : KState := { asleep with systime_ms := 149 }

/-- Thread 0 is about to issue FORK right after `kernel_init`. -/
def fork_call : KState :=
  user_run L0 init_state (regs_call SYSCALL_FORK 0) init_state.thread_mem init_state.mem
    init_state.cpu_sp

/-- A table in which every slot is occupied: slot 0, ten RUNNABLE workers and a
ZOMBIE in slot 11. -/
def full_table : Nat → thread_t := fun i =>
  if i = 0 then mk_thread 0 T_RUNNABLE SYSCALL_SPAWN 0x08000100
  else if i = 11 then mk_thread 11 T_ZOMBIE 0 0
  else mk_thread i T_RUNNABLE SYSCALL_YIELD 0

/-- A state with no EMPTY slot. -/
def full_state : KState := { mk_state L0 full_table 0 with tid_counter := 11 }

/-- A table whose only EMPTY slot is slot 11: slots 0 to 10 are RUNNABLE with
their index as id. -/
def one_free_table : Nat → thread_t := fun i =>
  if i < 11 then mk_thread i T_RUNNABLE SYSCALL_YIELD 0 else mk_thread 0 T_EMPTY 0 0

/-- A state with one EMPTY slot, after ten spawns. -/
def one_free_state : KState := { mk_state L0 one_free_table 0 with tid_counter := 10 }

/-- The state after `thread_spawn(entry, arg)` followed by `thread_kill` on the
slot `i` the spawn filled. -/
def spawn_then_kill (L : Layout) (k : KState) (entry arg i : Nat) : KState :=
  (thread_kill L (thread_spawn L k entry arg).2 (slot_addr L i)).2

/-- The worker of slot 1 (id 1) is about to issue KILL on its own id. -/
def kill_self_call : KState :=
  user_run L0 after_spawn (regs_call SYSCALL_KILL 1) after_spawn.thread_mem after_spawn.mem
    after_spawn.cpu_sp

/-- The state with which the worker is resumed by that KILL. -/
def killed_self : KState :=
  { kill_self_call with thread_table := kill_table kill_self_call 1 1 }

/-- The worker, now ZOMBIE, is about to issue SLEEP(5). -/
def zombie_sleep_call : KState :=
  user_run L0 killed_self (regs_call SYSCALL_SLEEP 5) killed_self.thread_mem killed_self.mem
    killed_self.cpu_sp

/-- The worker sleeps and thread 0 is the current thread. -/
def zombie_asleep : KState :=
  { case_SLEEP L0 zombie_sleep_call with thread_current := slot_addr L0 0 }

/-- Number of EMPTY slots among the first `n` slots of a table. -/
def count_empty (tab : Nat → thread_t) : Nat → Nat
  | 0 => 0
  | n + 1 => count_empty tab n + (if (tab n).state = T_EMPTY then 1 else 0)

/-- One operation of the kernel on its state: user code up to the next kernel
entry, the tick handler, a preemption, a system call that resumes a thread
(LOCK and UNLOCK on a lock cell in the data of the program), or a call of one
of the lifecycle functions of `thread.c` with any reference that is a
reference to a table entry or is rejected by `thread_in_table` (`slot_ref`).
With `live_kill` set, `thread_kill` is only applied to slots that are not
EMPTY, as in the calls the kernel itself makes. -/
inductive KOp (L : Layout) (live_kill : Bool) : KState → KState → Prop
  | user (k : KState) (regs : registers_t) (thread_mem : Nat → Nat → Nat) (mem : Nat → Nat)
      (cpu_sp : Nat) :
      regs_u32 regs → KOp L live_kill k (user_run L k regs thread_mem mem cpu_sp)
  | tick (k : KState) : KOp L live_kill k (kernel_tick_counter k)
  | preempt (k k' : KState) (fuel : Nat) :
      kernel_schedule L fuel k = some (Outcome.exit k') → KOp L live_kill k k'
  | syscall (k k' : KState) (fuel : Nat) :
      lock_call_ok L k →
      kernel_handle_syscall L fuel k = some (Outcome.exit k') → KOp L live_kill k k'
  | spawn (k : KState) (entry arg : Nat) : KOp L live_kill k (thread_spawn L k entry arg).2
  | copy (k : KState) (dest src : Nat) :
      slot_ref L dest → slot_ref L src → KOp L live_kill k (thread_copy L k dest src).2
  | fork2 (k : KState) (thread : Nat) :
      slot_ref L thread → KOp L live_kill k (thread_fork2 L k thread).2
  | kill (k : KState) (thread : Nat) :
      slot_ref L thread →
      (live_kill = true → thread_in_table L thread = true →
        (k.thread_table (thread_pos L thread)).state ≠ T_EMPTY) →
      KOp L live_kill k (thread_kill L k thread).2
  | kill2 (k : KState) (tid : Nat) : KOp L live_kill k (thread_kill2 L k tid).2
  | notify (k : KState) (thread : Nat) :
      slot_ref L thread → KOp L live_kill k (thread_notify_waiting L k thread)

/-- The states reachable by the operations of `KOp` from a `kernel_init` whose
caller's stack fits the stack region of slot 0. -/
inductive OpsReachable (L : Layout) (live_kill : Bool) : KState → Prop
  | init (top : Nat) (ram : Nat → Nat) (k0 k : KState) :
      boot_fits top k0 → kernel_init L top ram k0 = some (Except.ok k) →
      OpsReachable L live_kill k
  | step (k k' : KState) :
      OpsReachable L live_kill k → KOp L live_kill k k' → OpsReachable L live_kill k'

/-- A change of the state that keeps the tid counter, the id of every slot and
whether it is EMPTY, and keeps the current thread or makes a non-EMPTY slot
current. -/
def keeps_ids (L : Layout) (k k' : KState) : Prop :=
  k'.tid_counter = k.tid_counter ∧
  (k'.thread_current = k.thread_current ∨
    ∃ j, j < MAX_THREADS ∧ k'.thread_current = slot_addr L j ∧
      (k'.thread_table j).state ≠ T_EMPTY) ∧
  ∀ i, i < MAX_THREADS →
    (k'.thread_table i).id = (k.thread_table i).id ∧
    ((k'.thread_table i).state = T_EMPTY ↔ (k.thread_table i).state = T_EMPTY)

/-- What an operation does to the ids and to the EMPTY slots: a slot that is
not EMPTY stays so and keeps its id; and either the tid counter is unchanged
and every EMPTY slot keeps its id and stays EMPTY (or, without `live_kill`, is
killed), or one EMPTY slot `d` is filled and gets the fresh tid, which is the
new tid counter, and the other EMPTY slots are unchanged. -/
structure IdStep (L : Layout) (live_kill : Bool) (k k' : KState) : Prop where
  keep : ∀ i, i < MAX_THREADS → (k.thread_table i).state ≠ T_EMPTY →
    (k'.thread_table i).state ≠ T_EMPTY ∧ (k'.thread_table i).id = (k.thread_table i).id
  cur : k'.thread_current = k.thread_current ∨
    ∃ j, j < MAX_THREADS ∧ k'.thread_current = slot_addr L j ∧
      (k'.thread_table j).state ≠ T_EMPTY
  alloc :
    (k'.tid_counter = k.tid_counter ∧
      ∀ i, i < MAX_THREADS → (k.thread_table i).state = T_EMPTY →
        (k'.thread_table i).id = (k.thread_table i).id ∧
        ((k'.thread_table i).state = T_EMPTY ∨ live_kill = false)) ∨
    (∃ d, d < MAX_THREADS ∧ (k.thread_table d).state = T_EMPTY ∧
      (k'.thread_table d).state ≠ T_EMPTY ∧
      (k'.thread_table d).id = (thread_fresh_tid k).1 ∧
      k'.tid_counter = (thread_fresh_tid k).1 ∧
      ∀ i, i < MAX_THREADS → i ≠ d → (k.thread_table i).state = T_EMPTY →
        (k'.thread_table i).state = T_EMPTY ∧
        (k'.thread_table i).id = (k.thread_table i).id)

/-- The invariant behind the uniqueness of ids: the current thread is a
non-EMPTY slot; no id of a non-EMPTY slot exceeds the tid counter; the tid
counter and the number of EMPTY slots add up to at most `MAX_THREADS - 1`; two
non-EMPTY slots share an id only if it is 0; an EMPTY slot has id 0; and with
`live_kill` the only non-EMPTY slot with id 0 is slot 0. -/
structure IdInv (L : Layout) (live_kill : Bool) (k : KState) : Prop where
  cur : ∃ c, c < MAX_THREADS ∧ k.thread_current = slot_addr L c ∧
    (k.thread_table c).state ≠ T_EMPTY
  bound : ∀ i, i < MAX_THREADS → (k.thread_table i).state ≠ T_EMPTY →
    (k.thread_table i).id ≤ k.tid_counter
  room : k.tid_counter + count_empty k.thread_table MAX_THREADS ≤ MAX_THREADS - 1
  uniq : ∀ i j, i < MAX_THREADS → j < MAX_THREADS → i ≠ j →
    (k.thread_table i).state ≠ T_EMPTY → (k.thread_table j).state ≠ T_EMPTY →
    (k.thread_table i).id = (k.thread_table j).id → (k.thread_table i).id = 0
  empty0 : ∀ i, i < MAX_THREADS → (k.thread_table i).state = T_EMPTY →
    (k.thread_table i).id = 0
  zero : live_kill = true → ∀ i, i < MAX_THREADS → (k.thread_table i).state ≠ T_EMPTY →
    (k.thread_table i).id = 0 → i = 0

/-- The state after `thread_kill(&thread_table[1])` right after `kernel_init`:
the EMPTY slot 1 is made ZOMBIE. -/
def kill_empty_slot : KState :=
  { init_state with
    thread_table := upd init_state.thread_table 1
      { init_state.thread_table 1 with state := T_ZOMBIE } }

/-- Every slot that is ZOMBIE in `k` is ZOMBIE in `k'`. -/
def zombies_stay (k k' : KState) : Prop :=
  ∀ i, (k.thread_table i).state = T_ZOMBIE → (k'.thread_table i).state = T_ZOMBIE

/-- Address `a` is the address of a byte of the stack region `thread_mem[s]`. -/
def in_stack_region (L : Layout) (s a : Nat) : Prop :=
  L.thread_mem_addr + s * THREAD_MEM_SIZE ≤ a ∧
  a < L.thread_mem_addr + (s + 1) * THREAD_MEM_SIZE

instance (L : Layout) (s a : Nat) : Decidable (in_stack_region L s a) := by
  unfold in_stack_region; infer_instance

/-- The table of the copy scenario: slot 0 and a worker in slot 1 whose saved
stack pointer lies in its own stack region; slot 2 is the first EMPTY slot. -/
def copy_table : Nat → thread_t := fun i =>
  if i = 0 then mk_thread 0 T_RUNNABLE SYSCALL_YIELD 0
  else if i = 1 then
    { mk_thread 1 T_RUNNABLE SYSCALL_FORK 0 with
      regs := { regs_call SYSCALL_FORK 0 with SP := 0x200017C0 } }
  else mk_thread 0 T_EMPTY 0 0

/-- The state of the copy scenario; the worker of slot 1 is current. -/
def copy_state : KState := mk_state L0 copy_table 1

/-- The number of spawns and forks that succeed in the system call the current
thread of `k` issues: 1 for a SPAWN whose `thread_spawn` returns a tid and for
a FORK whose `thread_fork2` returns true, 0 otherwise. -/
def syscall_allocs (L : Layout) (k : KState) : Nat :=
  let cur := k.thread_table (thread_pos L k.thread_current)
  if cur.regs.R0 = SYSCALL_SPAWN then
    (if (thread_spawn L k cur.regs.R1 cur.regs.R2).1 ≠ 0 then 1 else 0)
  else if cur.regs.R0 = SYSCALL_FORK then
    (if (thread_fork2 L k k.thread_current).1.isSome then 1 else 0)
  else 0

/-- One operation of the kernel, as in `KOp` with `thread_kill` unrestricted,
together with the number `m` of spawns and forks (successful calls of
`thread_spawn`, `thread_copy` or `thread_fork2`, direct or through a system
call) it contains. -/
inductive KOpCount (L : Layout) : Nat → KState → KState → Prop
  | user (k : KState) (regs : registers_t) (thread_mem : Nat → Nat → Nat) (mem : Nat → Nat)
      (cpu_sp : Nat) :
      regs_u32 regs → KOpCount L 0 k (user_run L k regs thread_mem mem cpu_sp)
  | tick (k : KState) : KOpCount L 0 k (kernel_tick_counter k)
  | preempt (k k' : KState) (fuel : Nat) :
      kernel_schedule L fuel k = some (Outcome.exit k') → KOpCount L 0 k k'
  | syscall (k k' : KState) (fuel : Nat) :
      lock_call_ok L k →
      kernel_handle_syscall L fuel k = some (Outcome.exit k') →
      KOpCount L (syscall_allocs L k) k k'
  | spawn (k : KState) (entry arg : Nat) :
      KOpCount L (if (thread_spawn L k entry arg).1 ≠ 0 then 1 else 0) k
        (thread_spawn L k entry arg).2
  | copy (k : KState) (dest src : Nat) :
      slot_ref L dest → slot_ref L src →
      KOpCount L (if (thread_copy L k dest src).1 = true then 1 else 0) k
        (thread_copy L k dest src).2
  | fork2 (k : KState) (thread : Nat) :
      slot_ref L thread →
      KOpCount L (if (thread_fork2 L k thread).1.isSome = true then 1 else 0) k
        (thread_fork2 L k thread).2
  | kill (k : KState) (thread : Nat) :
      slot_ref L thread → KOpCount L 0 k (thread_kill L k thread).2
  | kill2 (k : KState) (tid : Nat) : KOpCount L 0 k (thread_kill2 L k tid).2
  | notify (k : KState) (thread : Nat) :
      slot_ref L thread → KOpCount L 0 k (thread_notify_waiting L k thread)

/-- The states reachable from `kernel_init` by the operations of `KOpCount`,
with the number `n` of spawns and forks that succeeded on the way. -/
inductive OpsCount (L : Layout) : Nat → KState → Prop
  | init (top : Nat) (ram : Nat → Nat) (k0 k : KState) :
      boot_fits top k0 → kernel_init L top ram k0 = some (Except.ok k) → OpsCount L 0 k
  | step (n m : Nat) (k k' : KState) :
      OpsCount L n k → KOpCount L m k k' → OpsCount L (n + m) k'

/-- The worker of slot 1 is about to issue SLEEP(5) right after it was spawned,
at `systime_ms = 0`. -/
def early_sleep_call : KState :=
  user_run L0 after_spawn (regs_call SYSCALL_SLEEP 5) after_spawn.thread_mem after_spawn.mem
    after_spawn.cpu_sp

/-- The worker sleeps until `systime_ms = 5`, `next_to_run_ms` is 5 and thread
0 is the current thread. -/
def early_asleep : KState :=
  { case_SLEEP L0 early_sleep_call with thread_current := slot_addr L0 0 }

/-- Thread 0 is about to issue UNLOCK with the address of `next_to_run_ms` in
R1. -/
def unlock_next_call : KState :=
  user_run L0 early_asleep (regs_call SYSCALL_UNLOCK L0.next_to_run_ms_addr)
    early_asleep.thread_mem early_asleep.mem early_asleep.cpu_sp

/-- The UNLOCK stored 0 in `next_to_run_ms`, which now equals `systime_ms`, and
the scheduler resumed thread 0. -/
def next_cleared : KState := { unlock_next_call with next_to_run_ms := 0 }

/-- Thread 0 is about to issue a second SPAWN. -/
def second_spawn_call : KState :=
  user_run L0 next_cleared (regs_call SYSCALL_SPAWN 0x08000100) next_cleared.thread_mem
    next_cleared.mem next_cleared.cpu_sp

/-- The second worker was spawned in slot 2 and is the current thread. -/
def second_spawned : KState :=
  { case_SPAWN L0 second_spawn_call with thread_current := slot_addr L0 2 }

/-- The second worker is about to issue SLEEP(3), at `systime_ms = 0`. -/
def late_sleep_call : KState :=
  user_run L0 second_spawned (regs_call SYSCALL_SLEEP 3) second_spawned.thread_mem
    second_spawned.mem second_spawned.cpu_sp

/-- The second worker sleeps with deadline 3 and thread 0 is the current
thread; `next_to_run_ms` is still 0. -/
def late_asleep : KState :=
  { case_SLEEP L0 late_sleep_call with thread_current := slot_addr L0 0 }

/-- The worker of slot 1 is about to issue UNLOCK with the address of the field
`state` of its own table entry in R1. -/
def unlock_state_call : KState :=
  user_run L0 after_spawn (regs_call SYSCALL_UNLOCK (slot_addr L0 1 + 4)) after_spawn.thread_mem
    after_spawn.mem after_spawn.cpu_sp

/-- Thread 0 is about to issue LOCK with the address of the field `state` of
the EMPTY entry 1 in R1, right after `kernel_init`. -/
def lock_state_call : KState :=
  user_run L0 init_state (regs_call SYSCALL_LOCK (slot_addr L0 1 + 4)) init_state.thread_mem
    init_state.mem init_state.cpu_sp

/-- The UNLOCK stored 0 in the field `state` of slot 1, which is EMPTY again,
and the scheduler resumed thread 0. -/
def state_cleared : KState :=
  { unlock_state_call with
    thread_table := upd unlock_state_call.thread_table 1
      { unlock_state_call.thread_table 1 with state := T_EMPTY }
    thread_current := slot_addr L0 0 }

/-- The LOCK stored 1 in the field `state` of slot 1, which is RUNNABLE now,
and thread 0 is resumed with `R0 = 1`. -/
def state_locked : KState :=
  set_current_R0 L0
    { lock_state_call with
      thread_table := upd lock_state_call.thread_table 1
        { lock_state_call.thread_table 1 with state := T_RUNNABLE } } 1

/-- A layout in which `thread_mem` follows `thread_table` directly, as when the
linker places the two arrays of `thread.c` one after the other. -/
def L1 : Layout :=
  { thread_table_addr := 0x20000000, thread_mem_addr := 0x200003F0,
    kernel_stack_addr := 0x20003400, sizeof_thread_t := 84,
    thread_current_addr := 0x2000380C, tid_counter_addr := 0x20003810,
    kernel_stack_top_addr := 0x20003800, systime_ms_addr := 0x20003804,
    next_to_run_ms_addr := 0x20003808, sram_addr := 0x20000000, sram_size := 0x8000 }

/-- The globals before boot with a caller's stack of 1612 bytes below
`0x20008000`: 588 bytes (7 table entries) more than one stack region. -/
def deep_boot_state : KState := { boot_state with cpu_sp := 0x200079B4 }

/-- A caller's stack that is zero except for the byte 1 at offset 256. -/
def deep_ram : Nat → Nat := fun a => if a = 0x20007AB4 then 1 else 0

/-! ## Theorems -/

theorem thread_pos_slot_addr {L : Layout} (hL : L.wf) {i : Nat} (hi : i < MAX_THREADS) :
    thread_pos L (slot_addr L i) = i := by
  obtain ⟨hb, hs, hfit, -, -⟩ := hL
  have hi12 : i < 12 := hi
  have hmul : i * L.sizeof_thread_t ≤ MAX_THREADS * L.sizeof_thread_t :=
    Nat.mul_le_mul_right _ (Nat.le_of_lt hi)
  have hsub : sub32 (slot_addr L i) L.thread_table_addr = i * L.sizeof_thread_t := by
    unfold sub32 slot_addr
    generalize i * L.sizeof_thread_t = p at hmul
    omega
  have hq : sub32 (slot_addr L i) L.thread_table_addr / L.sizeof_thread_t = i := by
    rw [hsub]; exact Nat.mul_div_cancel _ hs
  have hne : slot_addr L i ≠ 0 := by unfold slot_addr; omega
  unfold thread_pos
  rw [if_neg hne, hq]
  have hint : to_intptr i = (i : Int) := by
    unfold to_intptr
    have : i % 2 ^ 32 = i := by omega
    rw [this, if_pos (by omega)]
  simp only [hint, MAX_THREADS]
  rw [if_pos (by omega)]
  simp

theorem sched_next_eq {i : Nat} (hi : i < MAX_THREADS) :
    (if i + 1 = MAX_THREADS then 0 else i + 1) = (i + 1) % MAX_THREADS := by
  unfold MAX_THREADS at *
  split <;> omega

/-- The scheduler loop dispatches the first RUNNABLE slot it meets. -/
theorem kernel_schedule_loop_run (L : Layout) (k : KState) (orig : Nat) :
    ∀ (j fuel i : Nat), i < MAX_THREADS → j < fuel →
      (∀ j', j' < j → (k.thread_table ((i + j') % MAX_THREADS)).state ≠ T_RUNNABLE) →
      (k.thread_table ((i + j) % MAX_THREADS)).state = T_RUNNABLE →
      (∀ j', 0 < j' → j' ≤ j → (i + j') % MAX_THREADS ≠ orig) →
      kernel_schedule_loop L k orig fuel i
        = some (kernel_run k (slot_addr L ((i + j) % MAX_THREADS))) := by
  intro j
  induction j with
  | zero =>
    intro fuel i hi hf _ hrun _
    obtain ⟨f, rfl⟩ : ∃ f, fuel = f + 1 := ⟨fuel - 1, by omega⟩
    have him : (i + 0) % MAX_THREADS = i := by unfold MAX_THREADS at *; omega
    rw [him] at hrun ⊢
    simp [kernel_schedule_loop, hrun]
  | succ j ih =>
    intro fuel i hi hf hno hrun hne
    obtain ⟨f, rfl⟩ : ∃ f, fuel = f + 1 := ⟨fuel - 1, by omega⟩
    have h0 : (k.thread_table i).state ≠ T_RUNNABLE := by
      have := hno 0 (by omega)
      have him : (i + 0) % MAX_THREADS = i := by unfold MAX_THREADS at *; omega
      rwa [him] at this
    have hstep : ∀ m, ((i + 1) % MAX_THREADS + m) % MAX_THREADS = (i + (m + 1)) % MAX_THREADS := by
      intro m; unfold MAX_THREADS; omega
    have h1 : (i + 1) % MAX_THREADS ≠ orig := hne 1 (by omega) (by omega)
    rw [kernel_schedule_loop, if_neg h0]
    simp only [sched_next_eq hi, if_neg h1]
    rw [ih f ((i + 1) % MAX_THREADS) (by unfold MAX_THREADS; omega) (by omega)
      (fun j' hj' => by rw [hstep]; exact hno (j' + 1) (by omega))
      (by rw [hstep]; exact hrun)
      (fun j' h0' hj' => by rw [hstep]; exact hne (j' + 1) (by omega) (by omega))]
    rw [hstep]

/-- The scheduler loop panics when it comes back to its start without having
met a RUNNABLE slot. -/
theorem kernel_schedule_loop_panic (L : Layout) (k : KState) (orig : Nat) :
    ∀ (n fuel i : Nat), i < MAX_THREADS → n < fuel →
      (∀ j', j' ≤ n → (k.thread_table ((i + j') % MAX_THREADS)).state ≠ T_RUNNABLE) →
      (∀ j', 0 < j' → j' ≤ n → (i + j') % MAX_THREADS ≠ orig) →
      (i + (n + 1)) % MAX_THREADS = orig →
      kernel_schedule_loop L k orig fuel i = some (Outcome.panic k) := by
  intro n
  induction n with
  | zero =>
    intro fuel i hi hf hno _ hback
    obtain ⟨f, rfl⟩ : ∃ f, fuel = f + 1 := ⟨fuel - 1, by omega⟩
    have h0 : (k.thread_table i).state ≠ T_RUNNABLE := by
      have := hno 0 (by omega)
      have him : (i + 0) % MAX_THREADS = i := by unfold MAX_THREADS at *; omega
      rwa [him] at this
    rw [kernel_schedule_loop, if_neg h0]
    simp only [sched_next_eq hi]
    rw [if_pos hback]
  | succ n ih =>
    intro fuel i hi hf hno hne hback
    obtain ⟨f, rfl⟩ : ∃ f, fuel = f + 1 := ⟨fuel - 1, by omega⟩
    have h0 : (k.thread_table i).state ≠ T_RUNNABLE := by
      have := hno 0 (by omega)
      have him : (i + 0) % MAX_THREADS = i := by unfold MAX_THREADS at *; omega
      rwa [him] at this
    have hstep : ∀ m, ((i + 1) % MAX_THREADS + m) % MAX_THREADS = (i + (m + 1)) % MAX_THREADS := by
      intro m; unfold MAX_THREADS; omega
    have h1 : (i + 1) % MAX_THREADS ≠ orig := hne 1 (by omega) (by omega)
    rw [kernel_schedule_loop, if_neg h0]
    simp only [sched_next_eq hi, if_neg h1]
    exact ih f ((i + 1) % MAX_THREADS) (by unfold MAX_THREADS; omega) (by omega)
      (fun j' hj' => by rw [hstep]; exact hno (j' + 1) (by omega))
      (fun j' h0' hj' => by rw [hstep]; exact hne (j' + 1) (by omega) (by omega))
      (by rw [hstep]; exact hback)

theorem thread_pos_le (L : Layout) (p : Nat) : thread_pos L p ≤ MAX_THREADS := by
  unfold thread_pos TT_IDX_INVALID
  split
  · exact Nat.le_refl _
  · simp only
    split
    · rename_i h; unfold MAX_THREADS at *; omega
    · exact Nat.le_refl _

/-- `kernel_schedule` from a current slot `c`: the first RUNNABLE slot after
`c` in circular order is dispatched. -/
theorem kernel_schedule_run (L : Layout) (k : KState) (fuel c j : Nat)
    (hfuel : MAX_THREADS ≤ fuel) (hc : c < MAX_THREADS)
    (hpos : thread_pos L k.thread_current = c) (hj : j < MAX_THREADS)
    (hrun : (k.thread_table ((c + 1 + j) % MAX_THREADS)).state = T_RUNNABLE)
    (hno : ∀ j', j' < j → (k.thread_table ((c + 1 + j') % MAX_THREADS)).state ≠ T_RUNNABLE) :
    kernel_schedule L fuel k
      = some (Outcome.exit { k with thread_current := slot_addr L ((c + 1 + j) % MAX_THREADS) }) := by
  have hmod : ∀ m, ((c + 1) % MAX_THREADS + m) % MAX_THREADS = (c + 1 + m) % MAX_THREADS := by
    intro m; unfold MAX_THREADS; omega
  unfold kernel_schedule
  simp only [hpos, ge_iff_le, if_neg (Nat.not_le.mpr hc), sched_next_eq hc]
  rw [kernel_schedule_loop_run L k _ j fuel ((c + 1) % MAX_THREADS)
    (by unfold MAX_THREADS; omega) (by omega)
    (fun j' hj' => by rw [hmod]; exact hno j' hj')
    (by rw [hmod]; exact hrun)
    (fun j' h0 hj' => by unfold MAX_THREADS at *; omega)]
  rw [hmod]; rfl

/-- `kernel_schedule` panics when no slot is RUNNABLE. -/
theorem kernel_schedule_none_runnable (L : Layout) (k : KState) (fuel : Nat)
    (hfuel : MAX_THREADS ≤ fuel)
    (hno : ∀ i, i < MAX_THREADS → (k.thread_table i).state ≠ T_RUNNABLE) :
    kernel_schedule L fuel k = some (Outcome.panic k) := by
  unfold kernel_schedule
  by_cases hc : thread_pos L k.thread_current ≥ MAX_THREADS
  · simp [hc]
  · have hc' : thread_pos L k.thread_current < MAX_THREADS := Nat.not_le.mp hc
    simp only [if_neg hc, sched_next_eq hc']
    exact kernel_schedule_loop_panic L k _ 11 fuel _ (by unfold MAX_THREADS; omega)
      (by unfold MAX_THREADS at *; omega)
      (fun j' _ => hno _ (by unfold MAX_THREADS; omega))
      (fun j' h0 hj' => by unfold MAX_THREADS at *; omega)
      (by unfold MAX_THREADS at *; omega)

/-- When some slot is RUNNABLE, there is a first one after `c` in circular
order. -/
theorem exists_first_runnable (k : KState) (c i : Nat) (hc : c < MAX_THREADS)
    (hi : i < MAX_THREADS) (hrun : (k.thread_table i).state = T_RUNNABLE) :
    ∃ j, j < MAX_THREADS ∧ (k.thread_table ((c + 1 + j) % MAX_THREADS)).state = T_RUNNABLE ∧
      ∀ j', j' < j → (k.thread_table ((c + 1 + j') % MAX_THREADS)).state ≠ T_RUNNABLE := by
  classical
  have hex : ∃ j, j < MAX_THREADS ∧
      (k.thread_table ((c + 1 + j) % MAX_THREADS)).state = T_RUNNABLE := by
    refine ⟨(i + 11 - c) % 12, by unfold MAX_THREADS; omega, ?_⟩
    have : (c + 1 + (i + 11 - c) % 12) % MAX_THREADS = i := by
      unfold MAX_THREADS at *; omega
    rw [this]; exact hrun
  refine ⟨Nat.find hex, (Nat.find_spec hex).1, (Nat.find_spec hex).2, ?_⟩
  intro j' hj' hr
  exact Nat.find_min hex hj' ⟨Nat.lt_trans hj' (Nat.find_spec hex).1, hr⟩

/-- C1: `kernel_schedule` started from the current slot `c` dispatches (through
`kernel_run`) the slot `(c+1+j) mod MAX_THREADS` for the least `j` whose slot
is RUNNABLE, setting the current-thread pointer to that slot and leaving the
table as it is; it ends in `kernel_panic` exactly when the position of the
current thread is invalid or no slot is RUNNABLE; `MAX_THREADS` units of fuel
are enough for it to end.  From slot 0 with workers A (slot 1) and B (slot 2),
all RUNNABLE, four successive YIELDs dispatch A, B, slot 0, A. -/
theorem kernel_schedule_round_robin (L : Layout) (hL : L.wf) (k : KState) (fuel : Nat)
    (hfuel : MAX_THREADS ≤ fuel) :
    (∀ c j, c < MAX_THREADS → k.thread_current = slot_addr L c → j < MAX_THREADS →
      (k.thread_table ((c + 1 + j) % MAX_THREADS)).state = T_RUNNABLE →
      (∀ j', j' < j → (k.thread_table ((c + 1 + j') % MAX_THREADS)).state ≠ T_RUNNABLE) →
      kernel_schedule L fuel k = some (Outcome.exit
        { k with thread_current := slot_addr L ((c + 1 + j) % MAX_THREADS) })) ∧
    ((∃ k', kernel_schedule L fuel k = some (Outcome.panic k')) ↔
      (thread_pos L k.thread_current = TT_IDX_INVALID ∨
        ∀ i, i < MAX_THREADS → (k.thread_table i).state ≠ T_RUNNABLE)) ∧
    (∃ o, kernel_schedule L fuel k = some o ∧
      o.state = { k with thread_current := o.state.thread_current }) ∧
    (∃ k1 k2 k3 k4,
      kernel_handle_syscall L0 MAX_THREADS (mk_state L0 rr_table 0) = some (Outcome.exit k1) ∧
      k1.thread_current = slot_addr L0 1 ∧
      kernel_handle_syscall L0 MAX_THREADS k1 = some (Outcome.exit k2) ∧
      k2.thread_current = slot_addr L0 2 ∧
      kernel_handle_syscall L0 MAX_THREADS k2 = some (Outcome.exit k3) ∧
      k3.thread_current = slot_addr L0 0 ∧
      kernel_handle_syscall L0 MAX_THREADS k3 = some (Outcome.exit k4) ∧
      k4.thread_current = slot_addr L0 1) := by
  have hcases : (thread_pos L k.thread_current = TT_IDX_INVALID ∨
        ∀ i, i < MAX_THREADS → (k.thread_table i).state ≠ T_RUNNABLE) ∨
      ∃ c j, c < MAX_THREADS ∧ thread_pos L k.thread_current = c ∧ j < MAX_THREADS ∧
        (k.thread_table ((c + 1 + j) % MAX_THREADS)).state = T_RUNNABLE ∧
        ∀ j', j' < j → (k.thread_table ((c + 1 + j') % MAX_THREADS)).state ≠ T_RUNNABLE := by
    by_cases hinv : thread_pos L k.thread_current = TT_IDX_INVALID
    · exact Or.inl (Or.inl hinv)
    · by_cases hall : ∀ i, i < MAX_THREADS → (k.thread_table i).state ≠ T_RUNNABLE
      · exact Or.inl (Or.inr hall)
      · right
        have hc : thread_pos L k.thread_current < MAX_THREADS :=
          Nat.lt_of_le_of_ne (thread_pos_le L _) hinv
        push_neg at hall
        obtain ⟨i, hi, hr⟩ := hall
        obtain ⟨j, hj, hrun, hno⟩ := exists_first_runnable k _ i hc hi hr
        exact ⟨_, j, hc, rfl, hj, hrun, hno⟩
  have hpanic : (thread_pos L k.thread_current = TT_IDX_INVALID ∨
        ∀ i, i < MAX_THREADS → (k.thread_table i).state ≠ T_RUNNABLE) →
      kernel_schedule L fuel k = some (Outcome.panic k) := by
    rintro (hinv | hall)
    · unfold kernel_schedule
      simp [hinv, TT_IDX_INVALID]
    · exact kernel_schedule_none_runnable L k fuel hfuel hall
  refine ⟨?_, ⟨?_, fun h => ⟨k, hpanic h⟩⟩, ?_,
    ⟨_, _, _, _, rfl, rfl, rfl, rfl, rfl, rfl, rfl, rfl⟩⟩
  · intro c j hc hcur hj hrun hno
    exact kernel_schedule_run L k fuel c j hfuel hc
      (by rw [hcur]; exact thread_pos_slot_addr hL hc) hj hrun hno
  · rintro ⟨k', hk'⟩
    rcases hcases with h | ⟨c, j, hc, hpos, hj, hrun, hno⟩
    · exact h
    · rw [kernel_schedule_run L k fuel c j hfuel hc hpos hj hrun hno] at hk'
      cases hk'
  · rcases hcases with h | ⟨c, j, hc, hpos, hj, hrun, hno⟩
    · exact ⟨_, hpanic h, rfl⟩
    · exact ⟨_, kernel_schedule_run L k fuel c j hfuel hc hpos hj hrun hno, rfl⟩

/-- Witness of C1: from slot 2 of the round-robin table the scheduler passes the nine
EMPTY slots and dispatches slot 0. -/
theorem kernel_schedule_round_robin_witness :
    L0.wf ∧ MAX_THREADS ≤ 12 ∧
    kernel_schedule L0 12 (mk_state L0 rr_table 2) = some (Outcome.exit
      { mk_state L0 rr_table 2 with thread_current := slot_addr L0 ((2 + 1 + 9) % MAX_THREADS) }) :=
  ⟨by decide, by decide,
    (kernel_schedule_round_robin L0 (by decide) (mk_state L0 rr_table 2) 12 (by decide)).1
      2 9 (by decide) rfl (by decide) (by decide) (by decide)⟩

@[simp] theorem upd_same {α : Type} (f : Nat → α) (i : Nat) (v : α) : upd f i v i = v := by
  simp [upd]

theorem upd_other {α : Type} (f : Nat → α) {i j : Nat} (v : α) (h : j ≠ i) :
    upd f i v j = f j := by
  simp [upd, h]

theorem dispatch_GET_TID (L : Layout) (fuel : Nat) (k : KState)
    (h : (k.thread_table (thread_pos L k.thread_current)).regs.R0 = SYSCALL_GET_TID) :
    kernel_handle_syscall L fuel k
      = some (kernel_run (case_GET_TID L k) (case_GET_TID L k).thread_current) := by
  simp [kernel_handle_syscall, h]

theorem dispatch_EXIT (L : Layout) (fuel : Nat) (k : KState)
    (h : (k.thread_table (thread_pos L k.thread_current)).regs.R0 = SYSCALL_EXIT) :
    kernel_handle_syscall L fuel k = kernel_schedule L fuel (case_EXIT L k) := by
  simp [kernel_handle_syscall, h, SYSCALL_EXIT, SYSCALL_GET_TID]

theorem dispatch_YIELD (L : Layout) (fuel : Nat) (k : KState)
    (h : (k.thread_table (thread_pos L k.thread_current)).regs.R0 = SYSCALL_YIELD) :
    kernel_handle_syscall L fuel k = kernel_schedule L fuel k := by
  simp [kernel_handle_syscall, h, SYSCALL_EXIT, SYSCALL_GET_TID, SYSCALL_YIELD]

theorem case_LOCK_eq (L : Layout) (k : KState)
    (hc : lock_cell L (k.thread_table (thread_pos L k.thread_current)).regs.R1) :
    case_LOCK L k = some (case_LOCK_data L k) := by
  unfold case_LOCK case_LOCK_data lock_load lock_store
  simp only [if_pos hc]
  by_cases hv : k.mem (k.thread_table (thread_pos L k.thread_current)).regs.R1 ≠ 0
  · simp only [if_pos hv]
  · simp only [if_neg hv, Option.map_some']

theorem case_UNLOCK_eq (L : Layout) (k : KState)
    (hc : lock_cell L (k.thread_table (thread_pos L k.thread_current)).regs.R1) :
    case_UNLOCK L k = some (case_UNLOCK_data L k) := by
  unfold case_UNLOCK case_UNLOCK_data lock_store
  simp only [if_pos hc]

theorem dispatch_LOCK_raw (L : Layout) (fuel : Nat) (k : KState)
    (h : (k.thread_table (thread_pos L k.thread_current)).regs.R0 = SYSCALL_LOCK) :
    kernel_handle_syscall L fuel k
      = (case_LOCK L k).map (fun k1 => kernel_run k1 k1.thread_current) := by
  simp [kernel_handle_syscall, h, SYSCALL_EXIT, SYSCALL_GET_TID, SYSCALL_YIELD, SYSCALL_LOCK]

theorem dispatch_UNLOCK_raw (L : Layout) (fuel : Nat) (k : KState)
    (h : (k.thread_table (thread_pos L k.thread_current)).regs.R0 = SYSCALL_UNLOCK) :
    kernel_handle_syscall L fuel k = (case_UNLOCK L k).bind (kernel_schedule L fuel) := by
  simp [kernel_handle_syscall, h, SYSCALL_EXIT, SYSCALL_GET_TID, SYSCALL_YIELD, SYSCALL_LOCK,
    SYSCALL_UNLOCK]

theorem dispatch_LOCK (L : Layout) (fuel : Nat) (k : KState)
    (h : (k.thread_table (thread_pos L k.thread_current)).regs.R0 = SYSCALL_LOCK)
    (hc : lock_cell L (k.thread_table (thread_pos L k.thread_current)).regs.R1) :
    kernel_handle_syscall L fuel k
      = some (kernel_run (case_LOCK_data L k) (case_LOCK_data L k).thread_current) := by
  rw [dispatch_LOCK_raw L fuel k h, case_LOCK_eq L k hc]
  rfl

theorem dispatch_UNLOCK (L : Layout) (fuel : Nat) (k : KState)
    (h : (k.thread_table (thread_pos L k.thread_current)).regs.R0 = SYSCALL_UNLOCK)
    (hc : lock_cell L (k.thread_table (thread_pos L k.thread_current)).regs.R1) :
    kernel_handle_syscall L fuel k = kernel_schedule L fuel (case_UNLOCK_data L k) := by
  rw [dispatch_UNLOCK_raw L fuel k h, case_UNLOCK_eq L k hc]
  rfl

theorem dispatch_FORK (L : Layout) (fuel : Nat) (k : KState)
    (h : (k.thread_table (thread_pos L k.thread_current)).regs.R0 = SYSCALL_FORK) :
    kernel_handle_syscall L fuel k
      = some (kernel_run (case_FORK L k) (case_FORK L k).thread_current) := by
  simp [kernel_handle_syscall, h, SYSCALL_EXIT, SYSCALL_GET_TID, SYSCALL_YIELD, SYSCALL_LOCK,
    SYSCALL_UNLOCK, SYSCALL_FORK]

theorem dispatch_SLEEP (L : Layout) (fuel : Nat) (k : KState)
    (h : (k.thread_table (thread_pos L k.thread_current)).regs.R0 = SYSCALL_SLEEP) :
    kernel_handle_syscall L fuel k
      = if (k.thread_table (thread_pos L k.thread_current)).regs.R1 > 0 then
          kernel_schedule L fuel (case_SLEEP L k)
        else some (kernel_run (set_current_R0 L k 0) (set_current_R0 L k 0).thread_current) := by
  simp [kernel_handle_syscall, h, SYSCALL_EXIT, SYSCALL_GET_TID, SYSCALL_YIELD, SYSCALL_LOCK,
    SYSCALL_UNLOCK, SYSCALL_FORK, SYSCALL_SLEEP]

theorem dispatch_KILL (L : Layout) (fuel : Nat) (k : KState)
    (h : (k.thread_table (thread_pos L k.thread_current)).regs.R0 = SYSCALL_KILL) :
    kernel_handle_syscall L fuel k
      = some (kernel_run (case_KILL L k) (case_KILL L k).thread_current) := by
  simp [kernel_handle_syscall, h, SYSCALL_EXIT, SYSCALL_GET_TID, SYSCALL_YIELD, SYSCALL_LOCK,
    SYSCALL_UNLOCK, SYSCALL_FORK, SYSCALL_SLEEP, SYSCALL_KILL]

theorem dispatch_RESET (L : Layout) (fuel : Nat) (k : KState)
    (h : (k.thread_table (thread_pos L k.thread_current)).regs.R0 = SYSCALL_RESET) :
    kernel_handle_syscall L fuel k = some (Outcome.panic (case_RESET k)) := by
  simp [kernel_handle_syscall, h, SYSCALL_EXIT, SYSCALL_GET_TID, SYSCALL_YIELD, SYSCALL_LOCK,
    SYSCALL_UNLOCK, SYSCALL_FORK, SYSCALL_SLEEP, SYSCALL_KILL, SYSCALL_RESET]

theorem dispatch_SPAWN (L : Layout) (fuel : Nat) (k : KState)
    (h : (k.thread_table (thread_pos L k.thread_current)).regs.R0 = SYSCALL_SPAWN) :
    kernel_handle_syscall L fuel k = kernel_schedule L fuel (case_SPAWN L k) := by
  simp [kernel_handle_syscall, h, SYSCALL_EXIT, SYSCALL_GET_TID, SYSCALL_YIELD, SYSCALL_LOCK,
    SYSCALL_UNLOCK, SYSCALL_FORK, SYSCALL_SLEEP, SYSCALL_KILL, SYSCALL_RESET, SYSCALL_SPAWN]

theorem dispatch_WAIT (L : Layout) (fuel : Nat) (k : KState)
    (h : (k.thread_table (thread_pos L k.thread_current)).regs.R0 = SYSCALL_WAIT) :
    kernel_handle_syscall L fuel k
      = if tt_entry_for_tid L k (k.thread_table (thread_pos L k.thread_current)).regs.R1 ≠ 0
        then kernel_schedule L fuel (case_WAIT L k)
        else some (kernel_run k k.thread_current) := by
  simp [kernel_handle_syscall, h, SYSCALL_EXIT, SYSCALL_GET_TID, SYSCALL_YIELD, SYSCALL_LOCK,
    SYSCALL_UNLOCK, SYSCALL_FORK, SYSCALL_SLEEP, SYSCALL_KILL, SYSCALL_RESET, SYSCALL_SPAWN,
    SYSCALL_WAIT]

theorem dispatch_unknown (L : Layout) (fuel : Nat) (k : KState)
    (h : 10 < (k.thread_table (thread_pos L k.thread_current)).regs.R0) :
    kernel_handle_syscall L fuel k = some (Outcome.panic k) := by
  have h' : ∀ n, n ≤ 10 → (k.thread_table (thread_pos L k.thread_current)).regs.R0 ≠ n := by
    intro n hn; omega
  simp [kernel_handle_syscall, SYSCALL_EXIT, SYSCALL_GET_TID, SYSCALL_YIELD, SYSCALL_LOCK,
    SYSCALL_UNLOCK, SYSCALL_FORK, SYSCALL_SLEEP, SYSCALL_KILL, SYSCALL_RESET, SYSCALL_SPAWN,
    SYSCALL_WAIT, h' 0, h' 1, h' 2, h' 3, h' 4, h' 5, h' 6, h' 7, h' 8, h' 9, h' 10]

@[simp] theorem upd_upd {α : Type} (f : Nat → α) (i : Nat) (v w : α) :
    upd (upd f i v) i w = upd f i w := by
  funext j; unfold upd; split <;> rfl

theorem case_SLEEP_table (L : Layout) (k : KState) :
    (case_SLEEP L k).thread_table
      = upd k.thread_table (thread_pos L k.thread_current)
          { k.thread_table (thread_pos L k.thread_current) with
            regs := { (k.thread_table (thread_pos L k.thread_current)).regs with
              R0 := sleep_ticks L k }
            scnt := add32 (sleep_ticks L k) k.systime_ms
            state := T_SLEEPING } := by
  unfold case_SLEEP sleep_ticks
  simp only [set_current_R0]
  split <;> simp

theorem case_SLEEP_next (L : Layout) (k : KState) :
    (case_SLEEP L k).next_to_run_ms
      = if sub32 (add32 (sleep_ticks L k) k.systime_ms) k.systime_ms
            < sub32 k.next_to_run_ms k.systime_ms
        then add32 (sleep_ticks L k) k.systime_ms else k.next_to_run_ms := by
  unfold case_SLEEP sleep_ticks
  simp only [set_current_R0, upd_same, upd_upd]
  split <;> rfl

theorem case_SLEEP_rest (L : Layout) (k : KState) :
    (case_SLEEP L k).systime_ms = k.systime_ms ∧
    (case_SLEEP L k).thread_current = k.thread_current ∧
    (case_SLEEP L k).tid_counter = k.tid_counter ∧
    (case_SLEEP L k).thread_mem = k.thread_mem ∧
    (case_SLEEP L k).mem = k.mem := by
  unfold case_SLEEP
  simp only []
  split <;> exact ⟨rfl, rfl, rfl, rfl, rfl⟩

/-- C2: SLEEP with `ms` in R1.  If `ms > 0` the scheduler is entered with the
caller SLEEPING, its deadline `(systime_ms + ms / SYSTIME_CYCLES_PER_MS) mod
2^32`, and `next_to_run_ms` set to that deadline when the deadline is closer
(in forward distance from `systime_ms`) and unchanged otherwise.  If `ms = 0`
the caller is resumed with `R0 = 0` and its state, its deadline and
`next_to_run_ms` unchanged.  SLEEP(50) at `systime_ms = 100` with no sleeper
gives state SLEEPING, deadline 150 and `next_to_run_ms = 150`. -/
theorem syscall_sleep (L : Layout) (hL : L.wf) (k : KState) (fuel c ms : Nat)
    (hc : c < MAX_THREADS) (hcur : k.thread_current = slot_addr L c)
    (hR0 : (k.thread_table c).regs.R0 = SYSCALL_SLEEP)
    (hR1 : (k.thread_table c).regs.R1 = ms) :
    (0 < ms → ∃ k', kernel_handle_syscall L fuel k = kernel_schedule L fuel k' ∧
      (k'.thread_table c).scnt = (k.systime_ms + ms / SYSTIME_CYCLES_PER_MS) % 2 ^ 32 ∧
      (k'.thread_table c).state = T_SLEEPING ∧
      k'.next_to_run_ms =
        (if sub32 (k'.thread_table c).scnt k.systime_ms
            < sub32 k.next_to_run_ms k.systime_ms
          then (k'.thread_table c).scnt else k.next_to_run_ms) ∧
      k'.systime_ms = k.systime_ms ∧ k'.thread_current = k.thread_current ∧
      (∀ i, i ≠ c → k'.thread_table i = k.thread_table i)) ∧
    (ms = 0 → ∃ k', kernel_handle_syscall L fuel k = some (Outcome.exit k') ∧
      k'.thread_current = k.thread_current ∧
      (k'.thread_table c).regs.R0 = 0 ∧
      (k'.thread_table c).state = (k.thread_table c).state ∧
      (k'.thread_table c).scnt = (k.thread_table c).scnt ∧
      k'.next_to_run_ms = k.next_to_run_ms ∧ k'.systime_ms = k.systime_ms ∧
      (∀ i, i ≠ c → k'.thread_table i = k.thread_table i)) ∧
    (∃ k', kernel_handle_syscall L0 MAX_THREADS sleep_state = some (Outcome.exit k') ∧
      (k'.thread_table 0).state = T_SLEEPING ∧ (k'.thread_table 0).scnt = 150 ∧
      k'.next_to_run_ms = 150) := by
  have hpos : thread_pos L k.thread_current = c := by
    rw [hcur]; exact thread_pos_slot_addr hL hc
  have hR0' : (k.thread_table (thread_pos L k.thread_current)).regs.R0 = SYSCALL_SLEEP := by
    rw [hpos]; exact hR0
  refine ⟨?_, ?_, ⟨_, rfl, rfl, rfl, rfl⟩⟩
  · intro hms
    have htick : add32 (sleep_ticks L k) k.systime_ms
        = (k.systime_ms + ms / SYSTIME_CYCLES_PER_MS) % 2 ^ 32 := by
      unfold sleep_ticks add32; rw [hpos, hR1]; omega
    have hscnt : ((case_SLEEP L k).thread_table c).scnt
        = (k.systime_ms + ms / SYSTIME_CYCLES_PER_MS) % 2 ^ 32 := by
      rw [case_SLEEP_table, hpos, upd_same]; exact htick
    refine ⟨case_SLEEP L k, ?_, hscnt, ?_, ?_, (case_SLEEP_rest L k).1,
      (case_SLEEP_rest L k).2.1, ?_⟩
    · rw [dispatch_SLEEP L fuel k hR0', hpos, hR1, if_pos hms]
    · rw [case_SLEEP_table, hpos, upd_same]
    · rw [hscnt, case_SLEEP_next, htick]
    · intro i hi
      rw [case_SLEEP_table, hpos, upd_other _ _ hi]
  · intro hms
    refine ⟨set_current_R0 L k 0, ?_, rfl, ?_⟩
    · rw [dispatch_SLEEP L fuel k hR0', hpos, hR1, if_neg (by omega)]; rfl
    · refine ⟨by simp [set_current_R0, hpos], by simp [set_current_R0, hpos],
        by simp [set_current_R0, hpos], rfl, rfl, ?_⟩
      intro i hi; simp [set_current_R0, hpos, upd, hi]

/-- Witness of C2: SLEEP(50) in the state of the scenario. -/
theorem syscall_sleep_witness :
    L0.wf ∧ (0 : Nat) < MAX_THREADS ∧
    ((0 : Nat) < 50 → ∃ k', kernel_handle_syscall L0 12 sleep_state = kernel_schedule L0 12 k' ∧
      (k'.thread_table 0).scnt = (sleep_state.systime_ms + 50 / SYSTIME_CYCLES_PER_MS) % 2 ^ 32 ∧
      (k'.thread_table 0).state = T_SLEEPING ∧
      k'.next_to_run_ms =
        (if sub32 (k'.thread_table 0).scnt sleep_state.systime_ms
            < sub32 sleep_state.next_to_run_ms sleep_state.systime_ms
          then (k'.thread_table 0).scnt else sleep_state.next_to_run_ms) ∧
      k'.systime_ms = sleep_state.systime_ms ∧ k'.thread_current = sleep_state.thread_current ∧
      (∀ i, i ≠ 0 → k'.thread_table i = sleep_state.thread_table i)) :=
  ⟨by decide, by decide,
    (syscall_sleep L0 (by decide) sleep_state 12 0 50 (by decide) rfl rfl rfl).1⟩

theorem slot_addr_ne_zero {L : Layout} (hL : L.wf) (i : Nat) : slot_addr L i ≠ 0 := by
  obtain ⟨hb, -, -, -, -⟩ := hL
  unfold slot_addr; omega

theorem thread_in_table_slot_addr {L : Layout} (hL : L.wf) {i : Nat} (hi : i < MAX_THREADS) :
    thread_in_table L (slot_addr L i) = true := by
  unfold thread_in_table
  rw [thread_pos_slot_addr hL hi]
  simp only [bne_iff_ne, ne_eq]
  exact Nat.ne_of_lt hi

theorem slot_addr_inj {L : Layout} (hL : L.wf) {i j : Nat} (hi : i < MAX_THREADS)
    (hj : j < MAX_THREADS) (h : slot_addr L i = slot_addr L j) : i = j := by
  have := congrArg (thread_pos L) h
  rwa [thread_pos_slot_addr hL hi, thread_pos_slot_addr hL hj] at this

theorem tt_entry_for_tid_from_spec (L : Layout) (tab : Nat → thread_t) (id : Nat) :
    ∀ n i, (tt_entry_for_tid_from L tab id n i = 0 ∧
        ∀ j, i ≤ j → j < i + n → ¬((tab j).id = id ∧ (tab j).state ≠ T_EMPTY)) ∨
      ∃ j, i ≤ j ∧ j < i + n ∧ tt_entry_for_tid_from L tab id n i = slot_addr L j ∧
        ((tab j).id = id ∧ (tab j).state ≠ T_EMPTY) ∧
        ∀ j', i ≤ j' → j' < j → ¬((tab j').id = id ∧ (tab j').state ≠ T_EMPTY) := by
  intro n
  induction n with
  | zero => intro i; left; exact ⟨rfl, fun j h1 h2 => by omega⟩
  | succ n ih =>
    intro i
    by_cases hm : (tab i).id = id ∧ (tab i).state ≠ T_EMPTY
    · right
      refine ⟨i, Nat.le_refl _, by omega, ?_, hm, fun j' h1 h2 => by omega⟩
      rw [tt_entry_for_tid_from, if_pos hm]
    · rw [tt_entry_for_tid_from, if_neg hm]
      rcases ih (i + 1) with ⟨h0, hno⟩ | ⟨j, h1, h2, h3, h4, h5⟩
      · left
        refine ⟨h0, fun j h1 h2 => ?_⟩
        by_cases hji : j = i
        · rw [hji]; exact hm
        · exact hno j (by omega) (by omega)
      · right
        refine ⟨j, by omega, by omega, h3, h4, fun j' h1' h2' => ?_⟩
        by_cases hji : j' = i
        · rw [hji]; exact hm
        · exact h5 j' (by omega) h2'

/-- `tt_entry_for_tid` returns NULL when no non-EMPTY slot has the id, and
otherwise the address of the first such slot. -/
theorem tt_entry_for_tid_spec (L : Layout) (k : KState) (id : Nat) :
    (tt_entry_for_tid L k id = 0 ∧
        ∀ j, j < MAX_THREADS → ¬((k.thread_table j).id = id ∧ (k.thread_table j).state ≠ T_EMPTY)) ∨
      ∃ j, j < MAX_THREADS ∧ tt_entry_for_tid L k id = slot_addr L j ∧
        ((k.thread_table j).id = id ∧ (k.thread_table j).state ≠ T_EMPTY) ∧
        ∀ j', j' < j → ¬((k.thread_table j').id = id ∧ (k.thread_table j').state ≠ T_EMPTY) := by
  unfold tt_entry_for_tid
  rcases tt_entry_for_tid_from_spec L k.thread_table id MAX_THREADS 0 with
    ⟨h0, hno⟩ | ⟨j, _, h2, h3, h4, h5⟩
  · left; exact ⟨h0, fun j hj => hno j (Nat.zero_le _) (by omega)⟩
  · right; exact ⟨j, by omega, h3, h4, fun j' hj' => h5 j' (Nat.zero_le _) hj'⟩

theorem thread_first_empty_from_spec (tab : Nat → thread_t) :
    ∀ n i, (thread_first_empty_from tab n i = TT_IDX_INVALID ∧
        ∀ j, i ≤ j → j < i + n → (tab j).state ≠ T_EMPTY) ∨
      ∃ j, i ≤ j ∧ j < i + n ∧ thread_first_empty_from tab n i = j ∧
        (tab j).state = T_EMPTY ∧ ∀ j', i ≤ j' → j' < j → (tab j').state ≠ T_EMPTY := by
  intro n
  induction n with
  | zero => intro i; left; exact ⟨rfl, fun j h1 h2 => by omega⟩
  | succ n ih =>
    intro i
    by_cases hm : (tab i).state = T_EMPTY
    · right
      refine ⟨i, Nat.le_refl _, by omega, ?_, hm, fun j' h1 h2 => by omega⟩
      rw [thread_first_empty_from, if_pos hm]
    · rw [thread_first_empty_from, if_neg hm]
      rcases ih (i + 1) with ⟨h0, hno⟩ | ⟨j, h1, h2, h3, h4, h5⟩
      · left
        refine ⟨h0, fun j h1 h2 => ?_⟩
        by_cases hji : j = i
        · rw [hji]; exact hm
        · exact hno j (by omega) (by omega)
      · right
        refine ⟨j, by omega, by omega, h3, h4, fun j' h1' h2' => ?_⟩
        by_cases hji : j' = i
        · rw [hji]; exact hm
        · exact h5 j' (by omega) h2'

/-- `thread_first_empty` returns the lowest index of an EMPTY slot. -/
theorem thread_first_empty_eq (k : KState) (i : Nat) (hi : i < MAX_THREADS)
    (he : (k.thread_table i).state = T_EMPTY)
    (hlow : ∀ j, j < i → (k.thread_table j).state ≠ T_EMPTY) :
    thread_first_empty k = i := by
  unfold thread_first_empty
  rcases thread_first_empty_from_spec k.thread_table MAX_THREADS 0 with
    ⟨_, hno⟩ | ⟨j, _, h2, h3, h4, h5⟩
  · exact absurd he (hno i (Nat.zero_le _) (by omega))
  · rw [h3]
    rcases Nat.lt_trichotomy j i with h | h | h
    · exact absurd h4 (hlow j h)
    · exact h
    · exact absurd he (h5 i (Nat.zero_le _) h)

/-- `thread_first_empty` returns the invalid index when no slot is EMPTY. -/
theorem thread_first_empty_none (k : KState)
    (hno : ∀ j, j < MAX_THREADS → (k.thread_table j).state ≠ T_EMPTY) :
    thread_first_empty k = MAX_THREADS := by
  unfold thread_first_empty
  rcases thread_first_empty_from_spec k.thread_table MAX_THREADS 0 with
    ⟨h0, _⟩ | ⟨j, _, h2, _, h4, _⟩
  · exact h0
  · exact absurd h4 (hno j (by omega))

theorem thread_notify_waiting_loop_spec (L : Layout) (thread : Nat) (tab0 : Nat → thread_t) :
    ∀ n i, thread_notify_waiting_loop L thread tab0 n i
      = if i < n ∧ is_waiter (tab0 i) (tab0 (thread_pos L thread)).id then
          notified (tab0 i) (tab0 (thread_pos L thread)).regs.R1
        else tab0 i := by
  intro n
  induction n with
  | zero => intro i; simp [thread_notify_waiting_loop]
  | succ n ih =>
    intro i
    have hn : thread_notify_waiting_loop L thread tab0 n n = tab0 n := by
      rw [ih n, if_neg (by omega)]
    have hid : (thread_notify_waiting_loop L thread tab0 n (thread_pos L thread)).id
        = (tab0 (thread_pos L thread)).id := by
      rw [ih]; split <;> rfl
    have hr1 : (thread_notify_waiting_loop L thread tab0 n (thread_pos L thread)).regs.R1
        = (tab0 (thread_pos L thread)).regs.R1 := by
      rw [ih]; split <;> rfl
    simp only [thread_notify_waiting_loop, hn, hid, hr1, upd_upd, upd_same]
    by_cases hw : is_waiter (tab0 n) (tab0 (thread_pos L thread)).id
    · have hw' := hw
      unfold is_waiter at hw'
      rw [if_pos hw']
      by_cases hin : i = n
      · subst hin; rw [upd_same, if_pos ⟨by omega, hw⟩]; rfl
      · rw [upd_other _ _ hin, ih]
        by_cases hlt : i < n
        · by_cases hwi : is_waiter (tab0 i) (tab0 (thread_pos L thread)).id
          · rw [if_pos ⟨hlt, hwi⟩, if_pos ⟨by omega, hwi⟩]
          · rw [if_neg (fun h => hwi h.2), if_neg (fun h => hwi h.2)]
        · rw [if_neg (fun h => hlt h.1), if_neg (fun h => by omega)]
    · have hw' := hw
      unfold is_waiter at hw'
      rw [if_neg hw', ih]
      by_cases hin : i = n
      · subst hin; rw [if_neg (fun h => hw h.2), if_neg (fun h => hw h.2)]
      · by_cases hwi : is_waiter (tab0 i) (tab0 (thread_pos L thread)).id
        · by_cases hlt : i < n
          · rw [if_pos ⟨hlt, hwi⟩, if_pos ⟨by omega, hwi⟩]
          · rw [if_neg (fun h => hlt h.1), if_neg (fun h => by omega)]
        · rw [if_neg (fun h => hwi h.2), if_neg (fun h => hwi h.2)]

/-- The table after `thread_notify_waiting(&thread_table[e])`. -/
theorem thread_notify_waiting_table {L : Layout} (hL : L.wf) (k : KState) {e : Nat}
    (he : e < MAX_THREADS) (i : Nat) :
    (thread_notify_waiting L k (slot_addr L e)).thread_table i
      = if i < MAX_THREADS ∧ is_waiter (k.thread_table i) (k.thread_table e).id then
          notified (k.thread_table i) (k.thread_table e).regs.R1
        else k.thread_table i := by
  unfold thread_notify_waiting
  rw [thread_in_table_slot_addr hL he]
  simp only [Bool.not_true, Bool.false_eq_true, if_false]
  rw [thread_notify_waiting_loop_spec, thread_pos_slot_addr hL he]

theorem thread_notify_waiting_rest (L : Layout) (k : KState) (p : Nat) :
    (thread_notify_waiting L k p).thread_current = k.thread_current ∧
    (thread_notify_waiting L k p).thread_mem = k.thread_mem ∧
    (thread_notify_waiting L k p).tid_counter = k.tid_counter ∧
    (thread_notify_waiting L k p).systime_ms = k.systime_ms ∧
    (thread_notify_waiting L k p).next_to_run_ms = k.next_to_run_ms ∧
    (thread_notify_waiting L k p).mem = k.mem := by
  unfold thread_notify_waiting
  split <;> exact ⟨rfl, rfl, rfl, rfl, rfl, rfl⟩

/-- `kernel_schedule` ends, either in `kernel_panic` with the state unchanged
or by resuming a RUNNABLE slot, with only `thread_current` changed. -/
theorem kernel_schedule_cases (L : Layout) (k : KState) (fuel : Nat)
    (hfuel : MAX_THREADS ≤ fuel) :
    kernel_schedule L fuel k = some (Outcome.panic k) ∨
    ∃ j, j < MAX_THREADS ∧ (k.thread_table j).state = T_RUNNABLE ∧
      kernel_schedule L fuel k = some (Outcome.exit { k with thread_current := slot_addr L j }) := by
  by_cases hinv : thread_pos L k.thread_current ≥ MAX_THREADS
  · left; unfold kernel_schedule; simp [hinv]
  · by_cases hall : ∀ i, i < MAX_THREADS → (k.thread_table i).state ≠ T_RUNNABLE
    · left; exact kernel_schedule_none_runnable L k fuel hfuel hall
    · right
      have hc : thread_pos L k.thread_current < MAX_THREADS := Nat.not_le.mp hinv
      push_neg at hall
      obtain ⟨i, hi, hr⟩ := hall
      obtain ⟨j, hj, hrun, hno⟩ := exists_first_runnable k _ i hc hi hr
      exact ⟨_, Nat.mod_lt _ (by decide), hrun,
        kernel_schedule_run L k fuel _ j hfuel hc rfl hj hrun hno⟩

theorem thread_kill_slot {L : Layout} (hL : L.wf) (k : KState) {e : Nat}
    (he : e < MAX_THREADS) :
    thread_kill L k (slot_addr L e)
      = (true, { k with
          thread_table := upd k.thread_table e { k.thread_table e with state := T_ZOMBIE } }) := by
  unfold thread_kill
  rw [thread_in_table_slot_addr hL he, thread_pos_slot_addr hL he]
  rfl

/-- The table with which the scheduler is entered by SYSCALL_EXIT. -/
theorem case_EXIT_table {L : Layout} (hL : L.wf) (k : KState) {c : Nat}
    (hc : c < MAX_THREADS) (hcur : k.thread_current = slot_addr L c) (i : Nat) :
    (case_EXIT L k).thread_table i
      = if i = c then
          { (thread_notify_waiting L k (slot_addr L c)).thread_table c with state := T_ZOMBIE }
        else if i < MAX_THREADS ∧ is_waiter (k.thread_table i) (k.thread_table c).id then
          notified (k.thread_table i) (k.thread_table c).regs.R1
        else k.thread_table i := by
  unfold case_EXIT
  simp only [(thread_notify_waiting_rest L k _).1, hcur, thread_kill_slot hL _ hc]
  by_cases hic : i = c
  · subst hic; simp
  · rw [upd_other _ _ hic, thread_notify_waiting_table hL k hc, if_neg hic]

theorem case_EXIT_rest {L : Layout} (hL : L.wf) (k : KState) {c : Nat}
    (hc : c < MAX_THREADS) (hcur : k.thread_current = slot_addr L c) :
    (case_EXIT L k).thread_current = k.thread_current ∧
    (case_EXIT L k).thread_mem = k.thread_mem ∧
    (case_EXIT L k).tid_counter = k.tid_counter ∧
    (case_EXIT L k).systime_ms = k.systime_ms ∧
    (case_EXIT L k).next_to_run_ms = k.next_to_run_ms ∧
    (case_EXIT L k).mem = k.mem := by
  have hk : case_EXIT L k
      = (thread_kill L (thread_notify_waiting L k (slot_addr L c)) (slot_addr L c)).2 := by
    unfold case_EXIT
    simp only [(thread_notify_waiting_rest L k _).1, hcur]
  rw [hk, thread_kill_slot hL _ hc]
  exact thread_notify_waiting_rest L k (slot_addr L c)

/-- C5: when the current thread Q (slot `c`) issues EXIT with status `v` in
R1, the scheduler is entered with every other slot that was BLOCKED with
wait status THREAD on Q's id made RUNNABLE with `R0 = v`, Q's slot ZOMBIE and
every remaining slot unchanged; the scheduler ends, and the thread it
dispatches, if any, is not Q.  In the scenario P (id 1) blocked by WAIT on 2
and Q (id 2) exiting with 42, P ends RUNNABLE with `R0 = 42` and Q ZOMBIE. -/
theorem syscall_exit_notifies (L : Layout) (hL : L.wf) (k : KState) (fuel c v : Nat)
    (hfuel : MAX_THREADS ≤ fuel)
    (hc : c < MAX_THREADS) (hcur : k.thread_current = slot_addr L c)
    (hR0 : (k.thread_table c).regs.R0 = SYSCALL_EXIT)
    (hR1 : (k.thread_table c).regs.R1 = v) :
    (∃ k', kernel_handle_syscall L fuel k = kernel_schedule L fuel k' ∧
      (∀ i, i < MAX_THREADS → i ≠ c → is_waiter (k.thread_table i) (k.thread_table c).id →
        (k'.thread_table i).state = T_RUNNABLE ∧ (k'.thread_table i).regs.R0 = v ∧
        k'.thread_table i = notified (k.thread_table i) v) ∧
      (k'.thread_table c).state = T_ZOMBIE ∧
      (∀ i, i ≠ c → ¬ is_waiter (k.thread_table i) (k.thread_table c).id →
        k'.thread_table i = k.thread_table i) ∧
      (¬ is_waiter (k.thread_table c) (k.thread_table c).id →
        k'.thread_table c = { k.thread_table c with state := T_ZOMBIE }) ∧
      k'.thread_current = k.thread_current ∧
      (∃ o, kernel_schedule L fuel k' = some o ∧ o.state.thread_table = k'.thread_table) ∧
      (∀ k'', kernel_schedule L fuel k' = some (Outcome.exit k'') →
        k''.thread_current ≠ slot_addr L c)) ∧
    (∃ k', kernel_handle_syscall L0 MAX_THREADS (mk_state L0 wait_exit_table 2)
        = kernel_schedule L0 MAX_THREADS k' ∧
      (k'.thread_table 1).state = T_RUNNABLE ∧ (k'.thread_table 1).regs.R0 = 42 ∧
      (k'.thread_table 2).state = T_ZOMBIE ∧
      kernel_schedule L0 MAX_THREADS k'
        = some (Outcome.exit { k' with thread_current := slot_addr L0 0 })) := by
  have hpos : thread_pos L k.thread_current = c := by
    rw [hcur]; exact thread_pos_slot_addr hL hc
  refine ⟨⟨case_EXIT L k, ?_, ?_, ?_, ?_, ?_, (case_EXIT_rest hL k hc hcur).1, ?_, ?_⟩,
    ?_⟩
  · exact dispatch_EXIT L fuel k (by rw [hpos]; exact hR0)
  · intro i hi hic hw
    have : (case_EXIT L k).thread_table i = notified (k.thread_table i) v := by
      rw [case_EXIT_table hL k hc hcur, if_neg hic, if_pos ⟨hi, hw⟩, hR1]
    rw [this]; exact ⟨rfl, rfl, rfl⟩
  · rw [case_EXIT_table hL k hc hcur, if_pos rfl]
  · intro i hic hw
    rw [case_EXIT_table hL k hc hcur, if_neg hic, if_neg (fun h => hw h.2)]
  · intro hw
    rw [case_EXIT_table hL k hc hcur, if_pos rfl, thread_notify_waiting_table hL k hc,
      if_neg (fun h => hw h.2)]
  · rcases kernel_schedule_cases L (case_EXIT L k) fuel hfuel with h | ⟨j, _, _, h⟩
    · exact ⟨_, h, rfl⟩
    · exact ⟨_, h, rfl⟩
  · intro k'' hk''
    rcases kernel_schedule_cases L (case_EXIT L k) fuel hfuel with h | ⟨j, hj, hrun, h⟩
    · rw [h] at hk''; cases hk''
    · rw [h] at hk''
      cases hk''
      intro heq
      have hjc : j = c := slot_addr_inj hL hj hc heq
      rw [hjc, case_EXIT_table hL k hc hcur, if_pos rfl] at hrun
      cases hrun

  · have hL0 : L0.wf := by decide
    have hc2 : (2 : Nat) < MAX_THREADS := by decide
    have htab := case_EXIT_table hL0 (mk_state L0 wait_exit_table 2) hc2 rfl
    refine ⟨case_EXIT L0 (mk_state L0 wait_exit_table 2), dispatch_EXIT _ _ _ rfl, ?_, ?_, ?_, ?_⟩
    · rw [htab]; decide
    · rw [htab]; decide
    · rw [htab]; decide
    · refine kernel_schedule_run L0 _ MAX_THREADS 2 9 (Nat.le_refl _) hc2 ?_ (by decide) ?_ ?_
      · rw [(case_EXIT_rest hL0 _ hc2 rfl).1]; rfl
      · rw [htab]; decide
      · intro j' hj'
        rw [htab]
        interval_cases j' <;> decide

/-- Witness of C5: Q (slot 2) exits in the WAIT/EXIT scenario. -/
theorem syscall_exit_notifies_witness :
    ∃ k', kernel_handle_syscall L0 12 (mk_state L0 wait_exit_table 2)
        = kernel_schedule L0 12 k' ∧
      (k'.thread_table 2).state = T_ZOMBIE ∧
      (∀ k'', kernel_schedule L0 12 k' = some (Outcome.exit k'') →
        k''.thread_current ≠ slot_addr L0 2) :=
  (syscall_exit_notifies L0 (by decide) (mk_state L0 wait_exit_table 2) 12 2 42 (by decide)
    (by decide) rfl rfl rfl).1.imp (fun _ h => ⟨h.1, h.2.2.1, h.2.2.2.2.2.2.2⟩)

/-- C6: WAIT on the id `t`.  If some non-EMPTY slot (a ZOMBIE one included)
has id `t`, the scheduler is entered with the caller BLOCKED, its wait status
THREAD and its other fields, R1 included, unchanged; otherwise the caller is
resumed with the whole state unchanged. -/
theorem syscall_wait (L : Layout) (hL : L.wf) (k : KState) (fuel c t : Nat)
    (hfuel : MAX_THREADS ≤ fuel)
    (hc : c < MAX_THREADS) (hcur : k.thread_current = slot_addr L c)
    (hR0 : (k.thread_table c).regs.R0 = SYSCALL_WAIT)
    (hR1 : (k.thread_table c).regs.R1 = t) :
    ((∃ i, i < MAX_THREADS ∧ (k.thread_table i).id = t ∧ (k.thread_table i).state ≠ T_EMPTY) →
      ∃ k', kernel_handle_syscall L fuel k = kernel_schedule L fuel k' ∧
        k'.thread_table c
          = { k.thread_table c with state := T_BLOCKED, waitstat := WAITSTATUS_THREAD } ∧
        (k'.thread_table c).state = T_BLOCKED ∧
        (k'.thread_table c).waitstat = WAITSTATUS_THREAD ∧
        (k'.thread_table c).regs.R1 = t ∧
        (∀ i, i ≠ c → k'.thread_table i = k.thread_table i) ∧
        k'.thread_current = k.thread_current ∧
        (∃ o, kernel_schedule L fuel k' = some o ∧ o.state.thread_table = k'.thread_table)) ∧
    ((¬ ∃ i, i < MAX_THREADS ∧ (k.thread_table i).id = t ∧ (k.thread_table i).state ≠ T_EMPTY) →
      kernel_handle_syscall L fuel k = some (Outcome.exit k)) ∧
    (∀ i, i < MAX_THREADS → (k.thread_table i).id = t → (k.thread_table i).state = T_ZOMBIE →
      ∃ k', kernel_handle_syscall L fuel k = kernel_schedule L fuel k' ∧
        (k'.thread_table c).state = T_BLOCKED) := by
  have hpos : thread_pos L k.thread_current = c := by
    rw [hcur]; exact thread_pos_slot_addr hL hc
  have hdisp := dispatch_WAIT L fuel k (by rw [hpos]; exact hR0)
  rw [hpos, hR1] at hdisp
  have htab : (case_WAIT L k).thread_table
      = upd k.thread_table c
          { k.thread_table c with state := T_BLOCKED, waitstat := WAITSTATUS_THREAD } := by
    unfold case_WAIT; simp [hpos]
  have hfound : (∃ i, i < MAX_THREADS ∧ (k.thread_table i).id = t ∧
      (k.thread_table i).state ≠ T_EMPTY) →
      kernel_handle_syscall L fuel k = kernel_schedule L fuel (case_WAIT L k) := by
    rintro ⟨i, hi, hid, hst⟩
    rcases tt_entry_for_tid_spec L k t with ⟨_, hno⟩ | ⟨j, _, hj, _, _⟩
    · exact absurd ⟨hid, hst⟩ (hno i hi)
    · rw [hdisp, if_pos (by rw [hj]; exact slot_addr_ne_zero hL j)]
  refine ⟨?_, ?_, ?_⟩
  · intro hex
    refine ⟨case_WAIT L k, hfound hex, ?_, ?_, ?_, ?_, ?_, rfl, ?_⟩
    · rw [htab, upd_same]
    · rw [htab, upd_same]
    · rw [htab, upd_same]
    · rw [htab, upd_same]; exact hR1
    · intro i hi; rw [htab, upd_other _ _ hi]
    · rcases kernel_schedule_cases L (case_WAIT L k) fuel hfuel with h | ⟨j, _, _, h⟩
      · exact ⟨_, h, rfl⟩
      · exact ⟨_, h, rfl⟩
  · intro hno
    rcases tt_entry_for_tid_spec L k t with ⟨h0, _⟩ | ⟨j, hj, _, hm, _⟩
    · rw [hdisp, if_neg (by rw [h0]; exact fun h => h rfl)]; rfl
    · exact absurd ⟨j, hj, hm.1, hm.2⟩ hno
  · intro i hi hid hz
    refine ⟨case_WAIT L k, hfound ⟨i, hi, hid, by rw [hz]; decide⟩, ?_⟩
    rw [htab, upd_same]

/-- Witness of C6: slot 1 of the round-robin table waits on the id 2. -/
theorem syscall_wait_witness :
    ∃ k', kernel_handle_syscall L0 12
        (set_current_regs L0 (mk_state L0 rr_table 1) { zero_regs with R0 := SYSCALL_WAIT, R1 := 2 })
        = kernel_schedule L0 12 k' ∧
      (k'.thread_table 1).state = T_BLOCKED ∧
      (k'.thread_table 1).waitstat = WAITSTATUS_THREAD ∧
      (k'.thread_table 1).regs.R1 = 2 :=
  ((syscall_wait L0 (by decide)
    (set_current_regs L0 (mk_state L0 rr_table 1) { zero_regs with R0 := SYSCALL_WAIT, R1 := 2 })
    12 1 2 (by decide) (by decide) rfl rfl rfl).1 ⟨2, by decide, rfl, by decide⟩).imp
    (fun _ h => ⟨h.1, h.2.2.1, h.2.2.2.1, h.2.2.2.2.1⟩)

theorem case_KILL_found {L : Layout} (hL : L.wf) (k : KState) {c j : Nat}
    (hc : c < MAX_THREADS) (hcur : k.thread_current = slot_addr L c) (hj : j < MAX_THREADS)
    (hent : tt_entry_for_tid L k (k.thread_table c).regs.R1 = slot_addr L j) :
    (case_KILL L k).thread_table = kill_table k c j ∧
    (case_KILL L k).thread_current = k.thread_current ∧
    (case_KILL L k).mem = k.mem ∧
    (case_KILL L k).thread_mem = k.thread_mem ∧
    (case_KILL L k).tid_counter = k.tid_counter ∧
    (case_KILL L k).systime_ms = k.systime_ms ∧
    (case_KILL L k).next_to_run_ms = k.next_to_run_ms := by
  have hpos : thread_pos L k.thread_current = c := by
    rw [hcur]; exact thread_pos_slot_addr hL hc
  obtain ⟨h1, h2, h3, h4, h5, h6⟩ := thread_notify_waiting_rest L k (slot_addr L j)
  have hk : case_KILL L k
      = set_current_R0 L (thread_kill L (thread_notify_waiting L k (slot_addr L j))
          (slot_addr L j)).2 1 := by
    unfold case_KILL
    simp only [hpos, hent, if_pos (slot_addr_ne_zero hL j)]
    rw [thread_kill_slot hL _ hj]
    rfl
  rw [hk, thread_kill_slot hL _ hj]
  refine ⟨?_, h1, h6, h2, h3, h4, h5⟩
  funext i
  have hN := thread_notify_waiting_table hL k hj
  simp only [set_current_R0, h1, hpos, kill_table]
  by_cases hic : i = c
  · by_cases hij : i = j
    · rw [hic, upd_same, if_pos rfl, ← hic, hij, upd_same, if_pos rfl, hN]
    · rw [hic, upd_same, if_pos rfl, ← hic, upd_other _ _ hij, if_neg hij, hN]
  · by_cases hij : i = j
    · rw [upd_other _ _ hic, if_neg hic, hij, upd_same, if_pos rfl, hN]
    · rw [upd_other _ _ hic, if_neg hic, upd_other _ _ hij, if_neg hij, hN]

/-- C7: KILL on the id `t`.  If no non-EMPTY slot has id `t`, the caller is
resumed with `R0 = 0` and no slot's state changes.  Otherwise, with `j` the
first such slot, the waiters of `j` are woken with its R1, slot `j` becomes
ZOMBIE and the caller is resumed with `R0 = 1`.  In both cases the dispatcher
ends in `kernel_run` on the caller with the memory outside the kernel objects,
the reset register 0xE000ED0C included, as it was. -/
theorem syscall_kill (L : Layout) (hL : L.wf) (k : KState) (fuel c t : Nat)
    (hc : c < MAX_THREADS) (hcur : k.thread_current = slot_addr L c)
    (hR0 : (k.thread_table c).regs.R0 = SYSCALL_KILL)
    (hR1 : (k.thread_table c).regs.R1 = t) :
    ((∀ i, i < MAX_THREADS → ¬((k.thread_table i).id = t ∧ (k.thread_table i).state ≠ T_EMPTY)) →
      ∃ k', kernel_handle_syscall L fuel k = some (Outcome.exit k') ∧
        k'.thread_current = k.thread_current ∧
        (k'.thread_table c).regs.R0 = 0 ∧
        (∀ i, (k'.thread_table i).state = (k.thread_table i).state) ∧
        (∀ i, i ≠ c → k'.thread_table i = k.thread_table i) ∧
        k'.mem = k.mem ∧ k'.mem 0xE000ED0C = k.mem 0xE000ED0C) ∧
    (∀ j, j < MAX_THREADS → ((k.thread_table j).id = t ∧ (k.thread_table j).state ≠ T_EMPTY) →
      (∀ j', j' < j → ¬((k.thread_table j').id = t ∧ (k.thread_table j').state ≠ T_EMPTY)) →
      ∃ k', kernel_handle_syscall L fuel k = some (Outcome.exit k') ∧
        k'.thread_current = k.thread_current ∧
        k'.thread_table = kill_table k c j ∧
        (k'.thread_table c).regs.R0 = 1 ∧
        (k'.thread_table j).state = T_ZOMBIE ∧
        (∀ i, i < MAX_THREADS → i ≠ j → is_waiter (k.thread_table i) (k.thread_table j).id →
          (k'.thread_table i).state = T_RUNNABLE ∧
          (i ≠ c → (k'.thread_table i).regs.R0 = (k.thread_table j).regs.R1)) ∧
        (∀ i, i ≠ j → i ≠ c → ¬ is_waiter (k.thread_table i) (k.thread_table j).id →
          k'.thread_table i = k.thread_table i) ∧
        k'.mem = k.mem ∧ k'.mem 0xE000ED0C = k.mem 0xE000ED0C) ∧
    (∃ k', kernel_handle_syscall L0 MAX_THREADS kill_unknown_state = some (Outcome.exit k') ∧
      k'.thread_current = kill_unknown_state.thread_current ∧
      (k'.thread_table 0).regs.R0 = 0 ∧
      (∀ i, (k'.thread_table i).state = (kill_unknown_state.thread_table i).state)) := by
  have hgen : ∀ (L : Layout) (hL : L.wf) (k : KState) (fuel c t : Nat)
      (hc : c < MAX_THREADS) (hcur : k.thread_current = slot_addr L c)
      (hR0 : (k.thread_table c).regs.R0 = SYSCALL_KILL)
      (hR1 : (k.thread_table c).regs.R1 = t),
      (∀ i, i < MAX_THREADS →
        ¬((k.thread_table i).id = t ∧ (k.thread_table i).state ≠ T_EMPTY)) →
      ∃ k', kernel_handle_syscall L fuel k = some (Outcome.exit k') ∧
        k'.thread_current = k.thread_current ∧
        (k'.thread_table c).regs.R0 = 0 ∧
        (∀ i, (k'.thread_table i).state = (k.thread_table i).state) ∧
        (∀ i, i ≠ c → k'.thread_table i = k.thread_table i) ∧
        k'.mem = k.mem ∧ k'.mem 0xE000ED0C = k.mem 0xE000ED0C := by
    intro L hL k fuel c t hc hcur hR0 hR1 hno
    have hpos : thread_pos L k.thread_current = c := by
      rw [hcur]; exact thread_pos_slot_addr hL hc
    have hdisp := dispatch_KILL L fuel k (by rw [hpos]; exact hR0)
    have hk : case_KILL L k = set_current_R0 L k 0 := by
      rcases tt_entry_for_tid_spec L k t with ⟨h0, _⟩ | ⟨j, hj, _, hm, _⟩
      · unfold case_KILL
        simp only [hpos, hR1, h0, ne_eq, not_true_eq_false, if_false]
      · exact absurd hm (hno j hj)
    refine ⟨set_current_R0 L k 0, ?_, rfl, ?_, ?_, ?_, rfl, rfl⟩
    · rw [hdisp, hk]; rfl
    · simp [set_current_R0, hpos]
    · intro i
      simp only [set_current_R0, hpos]
      by_cases hic : i = c
      · rw [hic, upd_same]
      · rw [upd_other _ _ hic]
    · intro i hic
      simp only [set_current_R0, hpos]
      rw [upd_other _ _ hic]
  have hpos : thread_pos L k.thread_current = c := by
    rw [hcur]; exact thread_pos_slot_addr hL hc
  have hdisp := dispatch_KILL L fuel k (by rw [hpos]; exact hR0)
  refine ⟨hgen L hL k fuel c t hc hcur hR0 hR1, ?_, ?_⟩
  · intro j hj hm hfirst
    have hent : tt_entry_for_tid L k (k.thread_table c).regs.R1 = slot_addr L j := by
      rw [hR1]
      rcases tt_entry_for_tid_spec L k t with ⟨_, hno⟩ | ⟨j2, hj2, he, hm2, hf2⟩
      · exact absurd hm (hno j hj)
      · rw [he]
        rcases Nat.lt_trichotomy j2 j with h | h | h
        · exact absurd hm2 (hfirst j2 h)
        · rw [h]
        · exact absurd hm (hf2 j h)
    obtain ⟨htab, hcur', hmem, -⟩ := case_KILL_found hL k hc hcur hj hent
    refine ⟨case_KILL L k, ?_, hcur', htab, ?_, ?_, ?_, ?_, hmem, by rw [hmem]⟩
    · rw [hdisp]; rfl
    · rw [htab]; simp [kill_table]
    · rw [htab]; simp only [kill_table, if_pos rfl]
      split <;> rfl
    · intro i hi hij hw
      rw [htab]
      simp only [kill_table, if_pos (And.intro hi hw), if_neg hij]
      refine ⟨by split <;> rfl, fun hic => ?_⟩
      rw [if_neg hic]; rfl
    · intro i hij hic hw
      rw [htab]
      simp only [kill_table, if_neg hij, if_neg hic]
      rw [if_neg (fun h => hw h.2)]
  · obtain ⟨k', h1, h2, h3, h4, -⟩ := hgen L0 (by decide) kill_unknown_state MAX_THREADS 0 0xDEAD
      (by decide) rfl rfl rfl (by decide)
    exact ⟨k', h1, h2, h3, h4⟩

/-- Witness of C7: slot 0 of the round-robin table kills the id 2. -/
theorem syscall_kill_witness :
    ∃ k', kernel_handle_syscall L0 12
        (set_current_regs L0 (mk_state L0 rr_table 0) { zero_regs with R0 := SYSCALL_KILL, R1 := 2 })
        = some (Outcome.exit k') ∧
      (k'.thread_table 0).regs.R0 = 1 ∧ (k'.thread_table 2).state = T_ZOMBIE ∧
      k'.mem 0xE000ED0C = 0 :=
  ((syscall_kill L0 (by decide)
    (set_current_regs L0 (mk_state L0 rr_table 0) { zero_regs with R0 := SYSCALL_KILL, R1 := 2 })
    12 0 2 (by decide) rfl rfl rfl).2.1 2 (by decide) (by decide) (by decide)).imp
    (fun _ h => ⟨h.1, h.2.2.2.1, h.2.2.2.2.1, h.2.2.2.2.2.2.2.2⟩)

theorem thread_fresh_tid_ne_zero (k : KState) : (thread_fresh_tid k).1 ≠ 0 := by
  unfold thread_fresh_tid
  simp only
  split
  · rename_i h; rw [h]; decide
  · assumption

theorem thread_fresh_tid_lt (k : KState) : (thread_fresh_tid k).1 < 2 ^ 32 := by
  unfold thread_fresh_tid
  simp only
  split
  · exact Nat.mod_lt _ (by decide)
  · exact Nat.mod_lt _ (by decide)

/-- The effect of `zero_thread(&thread_table[i])`. -/
theorem zero_thread_slot {L : Layout} (hL : L.wf) (k : KState) {i : Nat}
    (hi : i < MAX_THREADS) :
    zero_thread L k (slot_addr L i)
      = { k with
          thread_table := upd k.thread_table i
            { id := 0, state := T_EMPTY, scnt := 0, regs := zero_regs,
              waitstat := WAITSTATUS_NONE }
          thread_mem := upd k.thread_mem i
            (fun o => if o < THREAD_MEM_SIZE then 0 else k.thread_mem i o) } := by
  unfold zero_thread
  rw [thread_in_table_slot_addr hL hi, thread_pos_slot_addr hL hi]
  rfl

/-- The result of `thread_spawn` when slot `i` is the first EMPTY slot. -/
theorem thread_spawn_eq {L : Layout} (hL : L.wf) (k : KState) (entry arg : Nat) {i : Nat}
    (hi : i < MAX_THREADS) (hfe : thread_first_empty k = i) :
    thread_spawn L k entry arg
      = ((thread_fresh_tid k).1,
          { k with
            thread_table := upd k.thread_table i
              (spawned_slot L i (thread_fresh_tid k).1 entry arg)
            thread_mem := upd k.thread_mem i
              (fun o => if o < THREAD_MEM_SIZE then 0 else k.thread_mem i o)
            tid_counter := (thread_fresh_tid k).1 }) := by
  have hmem := hL.2.2.2.2
  have hsp : (L.thread_mem_addr + (i + 1) * THREAD_MEM_SIZE) % 2 ^ 32
      = L.thread_mem_addr + (i + 1) * THREAD_MEM_SIZE := by
    apply Nat.mod_eq_of_lt
    have : (i + 1) * THREAD_MEM_SIZE ≤ MAX_THREADS * THREAD_MEM_SIZE :=
      Nat.mul_le_mul_right _ hi
    omega
  unfold thread_spawn
  simp only [hfe, if_neg (Nat.ne_of_lt hi), zero_thread_slot hL k hi, thread_fresh_tid,
    upd_same, upd_upd, hsp, spawned_slot]

/-- C10: when slot `i` is the lowest-index EMPTY slot, `thread_spawn(entry,
arg)` returns a non-zero fresh tid and leaves slot `i` RUNNABLE with that id,
sleep deadline 0, wait status NONE, a register image that is 0 except for
`PC = entry`, `R0 = arg`, `SP = thread_mem + (i+1) * THREAD_MEM_SIZE` and
`PSR = 0x01000000`, and a stack region of zero bytes; every other slot and
stack region is unchanged. -/
theorem thread_spawn_first_empty (L : Layout) (hL : L.wf) (k : KState) (entry arg i : Nat)
    (hi : i < MAX_THREADS) (he : (k.thread_table i).state = T_EMPTY)
    (hlow : ∀ j, j < i → (k.thread_table j).state ≠ T_EMPTY) :
    (thread_spawn L k entry arg).1 ≠ 0 ∧
    (thread_spawn L k entry arg).1 = (thread_fresh_tid k).1 ∧
    (thread_spawn L k entry arg).2.tid_counter = (thread_spawn L k entry arg).1 ∧
    (thread_spawn L k entry arg).2.thread_table i
      = { id := (thread_spawn L k entry arg).1, state := T_RUNNABLE, scnt := 0,
          regs := { R4 := 0, R5 := 0, R6 := 0, R7 := 0, R8 := 0, R9 := 0, R10 := 0,
                    R11 := 0, SP := L.thread_mem_addr + (i + 1) * THREAD_MEM_SIZE,
                    R0 := arg, R1 := 0, R2 := 0, R3 := 0, R12 := 0, LR := 0, PC := entry,
                    PSR := 0x01000000 },
          waitstat := WAITSTATUS_NONE } ∧
    (∀ o, o < THREAD_MEM_SIZE → (thread_spawn L k entry arg).2.thread_mem i o = 0) ∧
    (∀ j, j ≠ i → (thread_spawn L k entry arg).2.thread_table j = k.thread_table j) ∧
    (∀ j, j ≠ i → (thread_spawn L k entry arg).2.thread_mem j = k.thread_mem j) := by
  rw [thread_spawn_eq hL k entry arg hi (thread_first_empty_eq k i hi he hlow)]
  refine ⟨thread_fresh_tid_ne_zero k, rfl, rfl, ?_, ?_, ?_, ?_⟩
  · simp [spawned_slot, zero_regs]
  · intro o ho; simp [ho]
  · intro j hj; simp only [upd_other _ _ hj]
  · intro j hj; simp only [upd_other _ _ hj]

/-- Witness of C10: a spawn into slot 2, the first EMPTY slot. -/
theorem thread_spawn_first_empty_witness :
    (thread_spawn L0 spawn_state 0x08000100 7).1 ≠ 0 ∧
    (thread_spawn L0 spawn_state 0x08000100 7).2.thread_table 2
      = { id := (thread_spawn L0 spawn_state 0x08000100 7).1, state := T_RUNNABLE, scnt := 0,
          regs := { R4 := 0, R5 := 0, R6 := 0, R7 := 0, R8 := 0, R9 := 0, R10 := 0,
                    R11 := 0, SP := L0.thread_mem_addr + (2 + 1) * THREAD_MEM_SIZE,
                    R0 := 7, R1 := 0, R2 := 0, R3 := 0, R12 := 0, LR := 0, PC := 0x08000100,
                    PSR := 0x01000000 },
          waitstat := WAITSTATUS_NONE } :=
  have h := thread_spawn_first_empty L0 (by decide) spawn_state 0x08000100 7 2 (by decide)
    (by decide) (by decide)
  ⟨h.1, h.2.2.2.1⟩

theorem kernel_tick_scan_table (now : Nat) (tab0 : Nat → thread_t) :
    ∀ n i, (kernel_tick_scan now tab0 n).1 i
      = if i < n ∧ (tab0 i).state = T_SLEEPING ∧ now = (tab0 i).scnt then
          { tab0 i with state := T_RUNNABLE }
        else tab0 i := by
  intro n
  induction n with
  | zero => intro i; simp [kernel_tick_scan]
  | succ n ih =>
    intro i
    have hn : (kernel_tick_scan now tab0 n).1 n = tab0 n := by
      rw [ih n, if_neg (by omega)]
    simp only [kernel_tick_scan, hn]
    by_cases hs : (tab0 n).state = T_SLEEPING
    · by_cases hw : now = (tab0 n).scnt
      · simp only [if_pos hs, if_pos hw]
        by_cases hin : i = n
        · subst hin; rw [upd_same, if_pos ⟨by omega, hs, hw⟩]
        · rw [upd_other _ _ hin, ih]
          by_cases hc : (tab0 i).state = T_SLEEPING ∧ now = (tab0 i).scnt
          · by_cases hlt : i < n
            · rw [if_pos ⟨hlt, hc⟩, if_pos ⟨by omega, hc⟩]
            · rw [if_neg (fun h => hlt h.1), if_neg (fun h => by omega)]
          · rw [if_neg (fun h => hc h.2), if_neg (fun h => hc h.2)]
      · simp only [if_pos hs, if_neg hw]
        have hgoal : (kernel_tick_scan now tab0 n).1 i
            = if i < n + 1 ∧ (tab0 i).state = T_SLEEPING ∧ now = (tab0 i).scnt then
                { tab0 i with state := T_RUNNABLE }
              else tab0 i := by
          rw [ih]
          by_cases hin : i = n
          · subst hin; rw [if_neg (fun h => hw h.2.2), if_neg (fun h => hw h.2.2)]
          · by_cases hc : (tab0 i).state = T_SLEEPING ∧ now = (tab0 i).scnt
            · by_cases hlt : i < n
              · rw [if_pos ⟨hlt, hc⟩, if_pos ⟨by omega, hc⟩]
              · rw [if_neg (fun h => hlt h.1), if_neg (fun h => by omega)]
            · rw [if_neg (fun h => hc h.2), if_neg (fun h => hc h.2)]
        split <;> exact hgoal
    · simp only [if_neg hs]
      rw [ih]
      by_cases hin : i = n
      · subst hin; rw [if_neg (fun h => hs h.2.1), if_neg (fun h => hs h.2.1)]
      · by_cases hc : (tab0 i).state = T_SLEEPING ∧ now = (tab0 i).scnt
        · by_cases hlt : i < n
          · rw [if_pos ⟨hlt, hc⟩, if_pos ⟨by omega, hc⟩]
          · rw [if_neg (fun h => hlt h.1), if_neg (fun h => by omega)]
        · rw [if_neg (fun h => hc h.2), if_neg (fun h => hc h.2)]

/-- The relative time the scan computes is the least forward distance of the
sleepers it does not wake, and `UINT32_MAX` when there is none closer. -/
theorem kernel_tick_scan_next (now : Nat) (tab0 : Nat → thread_t) :
    ∀ n, (kernel_tick_scan now tab0 n).2 ≤ UINT32_MAX ∧
      (∀ i, i < n → sleeps_on (tab0 i) now →
        (kernel_tick_scan now tab0 n).2 ≤ sub32 (tab0 i).scnt now) ∧
      ((kernel_tick_scan now tab0 n).2 = UINT32_MAX ∨
        ∃ i, i < n ∧ sleeps_on (tab0 i) now ∧
          (kernel_tick_scan now tab0 n).2 = sub32 (tab0 i).scnt now) := by
  intro n
  induction n with
  | zero =>
    exact ⟨Nat.le_refl _, fun i hi => by omega, Or.inl rfl⟩
  | succ n ih =>
    obtain ⟨h1, h2, h3⟩ := ih
    have hn : (kernel_tick_scan now tab0 n).1 n = tab0 n := by
      rw [kernel_tick_scan_table, if_neg (by omega)]
    have hlift : ((kernel_tick_scan now tab0 n).2 = UINT32_MAX ∨
        ∃ i, i < n ∧ sleeps_on (tab0 i) now ∧
          (kernel_tick_scan now tab0 n).2 = sub32 (tab0 i).scnt now) →
        ((kernel_tick_scan now tab0 n).2 = UINT32_MAX ∨
        ∃ i, i < n + 1 ∧ sleeps_on (tab0 i) now ∧
          (kernel_tick_scan now tab0 n).2 = sub32 (tab0 i).scnt now) := by
      rintro (h | ⟨i, hi, hs, he⟩)
      · exact Or.inl h
      · exact Or.inr ⟨i, by omega, hs, he⟩
    simp only [kernel_tick_scan, hn]
    by_cases hs : (tab0 n).state = T_SLEEPING
    · by_cases hw : now = (tab0 n).scnt
      · simp only [if_pos hs, if_pos hw]
        refine ⟨h1, fun i hi hsl => ?_, hlift h3⟩
        by_cases hin : i = n
        · subst hin; exact absurd hw hsl.2
        · exact h2 i (by omega) hsl
      · simp only [if_pos hs, if_neg hw]
        by_cases hlt : sub32 (tab0 n).scnt now < (kernel_tick_scan now tab0 n).2
        · simp only [if_pos hlt]
          refine ⟨by omega, fun i hi hsl => ?_, Or.inr ⟨n, by omega, ⟨hs, hw⟩, rfl⟩⟩
          by_cases hin : i = n
          · subst hin; exact Nat.le_refl _
          · have := h2 i (by omega) hsl; omega
        · simp only [if_neg hlt]
          refine ⟨h1, fun i hi hsl => ?_, hlift h3⟩
          by_cases hin : i = n
          · subst hin; omega
          · exact h2 i (by omega) hsl
    · simp only [if_neg hs]
      refine ⟨h1, fun i hi hsl => ?_, hlift h3⟩
      by_cases hin : i = n
      · subst hin; exact absurd hsl.1 hs
      · exact h2 i (by omega) hsl

/-- A tick that does not reach `next_to_run_ms` only advances the time. -/
theorem kernel_tick_counter_idle (k : KState)
    (h : add32 k.systime_ms 1 ≠ k.next_to_run_ms) :
    kernel_tick_counter k = { k with systime_ms := add32 k.systime_ms 1 } := by
  unfold kernel_tick_counter
  simp only [ne_eq, h, not_false_eq_true, if_true]

/-- A tick that reaches `next_to_run_ms` performs the scan. -/
theorem kernel_tick_counter_scan (k : KState)
    (h : add32 k.systime_ms 1 = k.next_to_run_ms) :
    kernel_tick_counter k
      = { k with
          systime_ms := add32 k.systime_ms 1
          thread_table := (kernel_tick_scan (add32 k.systime_ms 1) k.thread_table MAX_THREADS).1
          next_to_run_ms :=
            add32 (kernel_tick_scan (add32 k.systime_ms 1) k.thread_table MAX_THREADS).2
              (add32 k.systime_ms 1) } := by
  unfold kernel_tick_counter
  simp only [ne_eq, h, not_true_eq_false, if_false]

theorem benign_refl (a : thread_t) : benign a a :=
  ⟨rfl, rfl, Iff.rfl, id, id⟩

theorem benign_trans {a b c : thread_t} (h1 : benign a b) (h2 : benign b c) : benign a c :=
  ⟨h2.1.trans h1.1, h2.2.1.trans h1.2.1, h2.2.2.1.trans h1.2.2.1,
    fun h => h1.2.2.2.1 (h2.2.2.2.1 h), fun h => h2.2.2.2.2 (h1.2.2.2.2 h)⟩

/-- The part of the invariant about the current slot, the ids and R1 survives
changes of the slots that keep their id, whether they are EMPTY, and R1 a
32-bit value. -/
theorem KInv_static {L : Layout} {k k' : KState} (h : KInv L k)
    (htab : ∀ i, i < MAX_THREADS →
      (k'.thread_table i).id = (k.thread_table i).id ∧
      ((k'.thread_table i).state = T_EMPTY ↔ (k.thread_table i).state = T_EMPTY) ∧
      ((k.thread_table i).regs.R1 < 2 ^ 32 → (k'.thread_table i).regs.R1 < 2 ^ 32))
    (hcur : k'.thread_current = k.thread_current ∨
      ∃ j, j < MAX_THREADS ∧ k'.thread_current = slot_addr L j ∧
        (k'.thread_table j).state ≠ T_EMPTY)
    (htid : k'.tid_counter = k.tid_counter) :
    (∃ c, c < MAX_THREADS ∧ k'.thread_current = slot_addr L c ∧
      (k'.thread_table c).state ≠ T_EMPTY) ∧
    (∃ m, m < MAX_THREADS ∧ k'.tid_counter = m ∧
      ∀ i, i < MAX_THREADS →
        (i ≤ m → (k'.thread_table i).state ≠ T_EMPTY ∧ (k'.thread_table i).id = i) ∧
        (m < i → (k'.thread_table i).state = T_EMPTY)) ∧
    (∀ i, i < MAX_THREADS → (k'.thread_table i).regs.R1 < 2 ^ 32) := by
  refine ⟨?_, ?_, ?_⟩
  · rcases hcur with hc | hc
    · obtain ⟨c, hc1, hc2, hc3⟩ := h.cur
      exact ⟨c, hc1, hc.trans hc2, fun he => hc3 ((htab c hc1).2.1.mp he)⟩
    · exact hc
  · obtain ⟨m, hm, hcnt, hall⟩ := h.ids
    refine ⟨m, hm, htid.trans hcnt, fun i hi => ⟨fun him => ?_, fun him => ?_⟩⟩
    · obtain ⟨hb1, hb3, -⟩ := htab i hi
      exact ⟨fun he => ((hall i hi).1 him).1 (hb3.mp he), hb1.trans ((hall i hi).1 him).2⟩
    · exact (htab i hi).2.1.mpr ((hall i hi).2 him)
  · intro i hi
    exact (htab i hi).2.2 (h.r1 i hi)

/-- The part of the invariant about time survives changes that leave the two
clocks alone and make no new deadline. -/
theorem KInv_time {L : Layout} {k k' : KState} (h : KInv L k)
    (hsys : k'.systime_ms = k.systime_ms) (hnext : k'.next_to_run_ms = k.next_to_run_ms)
    (hsl : ∀ i, i < MAX_THREADS → (k'.thread_table i).state = T_SLEEPING →
      ∃ j, j < MAX_THREADS ∧ (k.thread_table j).state = T_SLEEPING ∧
        (k'.thread_table i).scnt = (k.thread_table j).scnt) :
    (k'.systime_ms < 2 ^ 32 ∧ k'.next_to_run_ms < 2 ^ 32) ∧
    k'.next_to_run_ms ≠ k'.systime_ms ∧
    (∀ i, i < MAX_THREADS → (k'.thread_table i).state = T_SLEEPING →
      (k'.thread_table i).scnt < 2 ^ 32 ∧
      sub32 k'.next_to_run_ms k'.systime_ms ≤ sub32 (k'.thread_table i).scnt k'.systime_ms) := by
  refine ⟨by rw [hsys, hnext]; exact h.time_lt, by rw [hsys, hnext]; exact h.next_ne, ?_⟩
  intro i hi hs
  obtain ⟨j, hj, hsj, he⟩ := hsl i hi hs
  rw [hsys, hnext, he]
  exact h.sleepers j hj hsj

/-- The invariant survives benign changes of the slots that leave the
counters alone and keep the current slot or replace it by a non-EMPTY one. -/
theorem KInv_of_benign {L : Layout} {k k' : KState} (h : KInv L k)
    (htab : ∀ i, i < MAX_THREADS → benign (k.thread_table i) (k'.thread_table i))
    (hcur : k'.thread_current = k.thread_current ∨
      ∃ j, j < MAX_THREADS ∧ k'.thread_current = slot_addr L j ∧
        (k'.thread_table j).state ≠ T_EMPTY)
    (htid : k'.tid_counter = k.tid_counter) (hsys : k'.systime_ms = k.systime_ms)
    (hnext : k'.next_to_run_ms = k.next_to_run_ms) : KInv L k' := by
  obtain ⟨h1, h2, h3⟩ := KInv_static h
    (fun i hi => ⟨(htab i hi).1, (htab i hi).2.2.1, (htab i hi).2.2.2.2⟩) hcur htid
  obtain ⟨h4, h5, h6⟩ := KInv_time h hsys hnext
    (fun i hi hs => ⟨i, hi, (htab i hi).2.2.2.1 hs, (htab i hi).2.1⟩)
  exact ⟨h1, h2, h4, h5, h6, h3⟩

/-- Whatever the fuel, a thread the scheduler resumes is a RUNNABLE slot of the
table, and only `thread_current` changes. -/
theorem kernel_schedule_loop_exit (L : Layout) (k k' : KState) (orig : Nat) :
    ∀ fuel i, i < MAX_THREADS →
      kernel_schedule_loop L k orig fuel i = some (Outcome.exit k') →
      ∃ j, j < MAX_THREADS ∧ (k.thread_table j).state = T_RUNNABLE ∧
        k' = { k with thread_current := slot_addr L j } := by
  intro fuel
  induction fuel with
  | zero => intro i _ h; simp [kernel_schedule_loop] at h
  | succ f ih =>
    intro i hi h
    rw [kernel_schedule_loop] at h
    by_cases hr : (k.thread_table i).state = T_RUNNABLE
    · rw [if_pos hr] at h
      simp only [kernel_run, Option.some.injEq, Outcome.exit.injEq] at h
      exact ⟨i, hi, hr, h.symm⟩
    · rw [if_neg hr] at h
      simp only [sched_next_eq hi] at h
      by_cases ho : (i + 1) % MAX_THREADS = orig
      · rw [if_pos ho] at h; cases h
      · rw [if_neg ho] at h
        exact ih _ (Nat.mod_lt _ (by decide)) h

theorem kernel_schedule_exit (L : Layout) (k k' : KState) (fuel : Nat)
    (h : kernel_schedule L fuel k = some (Outcome.exit k')) :
    ∃ j, j < MAX_THREADS ∧ (k.thread_table j).state = T_RUNNABLE ∧
      k' = { k with thread_current := slot_addr L j } := by
  unfold kernel_schedule at h
  by_cases hc : thread_pos L k.thread_current ≥ MAX_THREADS
  · simp only [if_pos hc] at h; cases h
  · simp only [if_neg hc, sched_next_eq (Nat.not_le.mp hc)] at h
    exact kernel_schedule_loop_exit L k k' _ fuel _ (Nat.mod_lt _ (by decide)) h

/-- `kernel_schedule` keeps the invariant. -/
theorem KInv_schedule {L : Layout} {k k' : KState} {fuel : Nat} (h : KInv L k)
    (hs : kernel_schedule L fuel k = some (Outcome.exit k')) : KInv L k' := by
  obtain ⟨j, hj, hrun, rfl⟩ := kernel_schedule_exit L k k' fuel hs
  exact KInv_of_benign h (fun i _ => benign_refl _)
    (Or.inr ⟨j, hj, rfl, by rw [hrun]; decide⟩) rfl rfl rfl

theorem thread_init_loop_spec {L : Layout} (hL : L.wf) (k : KState) :
    ∀ n, n ≤ MAX_THREADS →
      (∀ i, (thread_init_loop L k n).thread_table i
        = if i < n then
            { id := 0, state := T_EMPTY, scnt := 0, regs := zero_regs,
              waitstat := WAITSTATUS_NONE }
          else k.thread_table i) ∧
      (thread_init_loop L k n).tid_counter = k.tid_counter ∧
      (thread_init_loop L k n).cpu_sp = k.cpu_sp ∧
      (thread_init_loop L k n).mem = k.mem := by
  intro n
  induction n with
  | zero => intro _; exact ⟨fun i => by simp [thread_init_loop], rfl, rfl, rfl⟩
  | succ n ih =>
    intro hn
    obtain ⟨h1, h2, h3, h4⟩ := ih (by omega)
    rw [thread_init_loop, zero_thread_slot hL _ (by omega : n < MAX_THREADS)]
    refine ⟨fun i => ?_, h2, h3, h4⟩
    by_cases hin : i = n
    · subst hin; simp
    · simp only [upd_other _ _ hin, h1]
      by_cases hlt : i < n
      · rw [if_pos hlt, if_pos (by omega)]
      · rw [if_neg hlt, if_neg (by omega)]

theorem kernel_init_asserts_true {L : Layout} (hL : L.wf) :
    ∀ n, n ≤ MAX_THREADS → kernel_init_asserts L n = true := by
  intro n
  induction n with
  | zero => intro _; rfl
  | succ n ih =>
    intro hn
    have hlt : n < MAX_THREADS := by omega
    rw [kernel_init_asserts, ih (by omega), thread_pos_slot_addr hL hlt,
      thread_in_table_slot_addr hL hlt]
    simp

theorem thread_init_cpu_sp {L : Layout} (hL : L.wf) (k : KState) :
    (thread_init L k).cpu_sp = k.cpu_sp :=
  (thread_init_loop_spec hL { k with tid_counter := 0 } MAX_THREADS (Nat.le_refl _)).2.2.1

/-- The state `kernel_init` returns when the caller's stack fits the stack
region of slot 0. -/
theorem kernel_init_ok {L : Layout} (hL : L.wf) (top : Nat) (ram : Nat → Nat)
    (k0 k : KState) (hf : boot_fits top k0)
    (h : kernel_init L top ram k0 = some (Except.ok k)) :
    k.thread_table 0
      = { id := 0, state := T_RUNNABLE, scnt := 0, regs := zero_regs,
          waitstat := WAITSTATUS_NONE } ∧
    (∀ i, 0 < i → i < MAX_THREADS → k.thread_table i
      = { id := 0, state := T_EMPTY, scnt := 0, regs := zero_regs,
          waitstat := WAITSTATUS_NONE }) ∧
    k.thread_current = slot_addr L 0 ∧ k.tid_counter = 0 ∧ k.systime_ms = 0 ∧
    k.next_to_run_ms = UINT32_MAX := by
  unfold kernel_init at h
  simp only [thread_init_cpu_sp hL] at h
  have hf1 : sub32 top k0.cpu_sp ≤ THREAD_MEM_SIZE := hf
  rw [if_pos hf1] at h
  unfold kernel_init_rest at h
  simp only [kernel_init_asserts_true hL MAX_THREADS (Nat.le_refl _), if_true,
    Option.some.injEq, Except.ok.injEq] at h
  obtain ⟨h1, h2, -, -⟩ := thread_init_loop_spec hL
    { k0 with kernel_stack_top := add32 L.kernel_stack_addr KERNEL_STACKSIZE, tid_counter := 0 }
    MAX_THREADS (Nat.le_refl _)
  subst h
  refine ⟨?_, ?_, rfl, ?_, rfl, rfl⟩
  · simp only [kernel_set_scheduler_freq, thread_init, upd_same, upd_upd]
    rw [h1 0, if_pos (by decide)]
  · intro i hi0 hi
    simp only [kernel_set_scheduler_freq, thread_init, upd_upd]
    rw [upd_other _ _ (by omega), h1 i, if_pos hi]
  · simp only [kernel_set_scheduler_freq, thread_init]
    exact h2

theorem KInv_init {L : Layout} (hL : L.wf) (top : Nat) (ram : Nat → Nat)
    (k0 k : KState) (hf : boot_fits top k0)
    (h : kernel_init L top ram k0 = some (Except.ok k)) : KInv L k := by
  obtain ⟨h0, hrest, hcur, htid, hsys, hnext⟩ := kernel_init_ok hL top ram k0 k hf h
  refine ⟨⟨0, by decide, hcur, by rw [h0]; decide⟩, ⟨0, by decide, htid, fun i hi => ?_⟩,
    by rw [hsys, hnext]; decide, by rw [hsys, hnext]; decide, fun i hi hs => ?_,
    fun i hi => ?_⟩
  · refine ⟨fun hi0 => ?_, fun hi0 => ?_⟩
    · have : i = 0 := by omega
      subst this; rw [h0]; exact ⟨by decide, rfl⟩
    · rw [hrest i hi0 hi]
  · by_cases hi0 : i = 0
    · subst hi0; rw [h0] at hs; cases hs
    · rw [hrest i (by omega) hi] at hs; cases hs
  · by_cases hi0 : i = 0
    · subst hi0; rw [h0]; decide
    · rw [hrest i (by omega) hi]; decide

/-- User code keeps the invariant. -/
theorem KInv_user {L : Layout} {k : KState} (h : KInv L k) (regs : registers_t)
    (tm : Nat → Nat → Nat) (m : Nat → Nat) (sp : Nat) (hr : regs_u32 regs) :
    KInv L (user_run L k regs tm m sp) := by
  refine KInv_of_benign h (fun i _ => ?_) (Or.inl rfl) rfl rfl rfl
  simp only [user_run, set_current_regs]
  by_cases hi : i = thread_pos L k.thread_current
  · rw [hi, upd_same]
    exact ⟨rfl, rfl, Iff.rfl, id, fun _ => hr.2.2.2.2.2.2.2.2.2.2.1⟩
  · rw [upd_other _ _ hi]; exact benign_refl _

theorem SYSTIME_CYCLES_PER_MS_eq : SYSTIME_CYCLES_PER_MS = 1 := by decide

/-- The invariant after a scan, stated for any table and relative time with
the properties of the scan's result. -/
theorem KInv_scan_result {L : Layout} {k : KState} (h : KInv L k) (now nxt : Nat)
    (tab : Nat → thread_t) (hnow : now = add32 k.systime_ms 1)
    (htab : ∀ i, tab i
      = if i < MAX_THREADS ∧ (k.thread_table i).state = T_SLEEPING ∧
            now = (k.thread_table i).scnt then
          { k.thread_table i with state := T_RUNNABLE }
        else k.thread_table i)
    (hn1 : nxt ≤ UINT32_MAX)
    (hn2 : ∀ i, i < MAX_THREADS → sleeps_on (k.thread_table i) now →
      nxt ≤ sub32 (k.thread_table i).scnt now)
    (hn3 : nxt = UINT32_MAX ∨
      ∃ i, i < MAX_THREADS ∧ sleeps_on (k.thread_table i) now ∧
        nxt = sub32 (k.thread_table i).scnt now) :
    KInv L { k with systime_ms := now, thread_table := tab, next_to_run_ms := add32 nxt now } := by
  have hUM : UINT32_MAX = 4294967295 := rfl
  have hnowlt : now < 2 ^ 32 := by rw [hnow]; exact Nat.mod_lt _ (by decide)
  have hsub : sub32 (add32 nxt now) now = nxt := by
    unfold sub32 add32; omega
  obtain ⟨h1, h2, h3⟩ := @KInv_static L k
    { k with systime_ms := now, thread_table := tab, next_to_run_ms := add32 nxt now } h
    (fun i hi => by
      simp only [htab]
      split
      · rename_i hc; exact ⟨rfl, by simp [hc.2.1], id⟩
      · exact ⟨rfl, Iff.rfl, id⟩)
    (Or.inl rfl) rfl
  refine ⟨h1, h2, ⟨hnowlt, Nat.mod_lt _ (by decide)⟩, ?_, ?_, h3⟩
  · intro heq
    simp only at heq
    have hz : nxt = 0 := by
      rw [← hsub, heq]; unfold sub32; omega
    rcases hn3 with hm | ⟨i, hi, hsl, he⟩
    · omega
    · have hs := (h.sleepers i hi hsl.1).1
      have hw := hsl.2
      rw [hz] at he
      unfold sub32 at he
      omega
  · intro i hi hs
    simp only at hs ⊢
    rw [hsub]
    rw [htab] at hs ⊢
    by_cases hc : i < MAX_THREADS ∧ (k.thread_table i).state = T_SLEEPING ∧
        now = (k.thread_table i).scnt
    · rw [if_pos hc] at hs; cases hs
    · rw [if_neg hc] at hs ⊢
      exact ⟨(h.sleepers i hi hs).1, hn2 i hi ⟨hs, fun hw => hc ⟨hi, hs, hw⟩⟩⟩

/-- The tick handler keeps the invariant. -/
theorem KInv_tick {L : Layout} {k : KState} (h : KInv L k) :
    KInv L (kernel_tick_counter k) := by
  obtain ⟨hlt1, hlt2⟩ := h.time_lt
  have hne := h.next_ne
  by_cases hscan : add32 k.systime_ms 1 = k.next_to_run_ms
  · rw [kernel_tick_counter_scan k hscan]
    obtain ⟨hn1, hn2, hn3⟩ :=
      kernel_tick_scan_next (add32 k.systime_ms 1) k.thread_table MAX_THREADS
    exact KInv_scan_result h _ _ _ rfl
      (kernel_tick_scan_table (add32 k.systime_ms 1) k.thread_table MAX_THREADS) hn1 hn2 hn3
  · rw [kernel_tick_counter_idle k hscan]
    refine ⟨h.cur, h.ids, ⟨Nat.mod_lt _ (by decide), hlt2⟩, fun he => hscan he.symm, ?_, h.r1⟩
    intro i hi hs
    obtain ⟨hs1, hs2⟩ := h.sleepers i hi hs
    refine ⟨hs1, ?_⟩
    simp only at hs ⊢
    unfold sub32 add32 at *
    omega

theorem benign_set_R0 (a : thread_t) (v : Nat) :
    benign a { a with regs := { a.regs with R0 := v } } :=
  ⟨rfl, rfl, Iff.rfl, id, id⟩

theorem benign_notified (a : thread_t) (v t : Nat) (h : is_waiter a t) :
    benign a (notified a v) := by
  refine ⟨rfl, rfl, ?_, ?_, fun hr => hr⟩
  · simp [notified, h.1]
  · intro hs; simp [notified] at hs

theorem benign_zombie (a : thread_t) (h : a.state ≠ T_EMPTY) :
    benign a { a with state := T_ZOMBIE } := by
  refine ⟨rfl, rfl, ?_, ?_, id⟩
  · simp [h]
  · intro hs; simp at hs

theorem benign_blocked (a : thread_t) (h : a.state ≠ T_EMPTY) :
    benign a { a with state := T_BLOCKED, waitstat := WAITSTATUS_THREAD } := by
  refine ⟨rfl, rfl, ?_, ?_, id⟩
  · simp [h]
  · intro hs; simp at hs

theorem KInv_set_current_R0 {L : Layout} {k : KState} (h : KInv L k) (v : Nat) :
    KInv L (set_current_R0 L k v) := by
  refine KInv_of_benign h (fun i _ => ?_) (Or.inl rfl) rfl rfl rfl
  simp only [set_current_R0]
  by_cases hi : i = thread_pos L k.thread_current
  · rw [hi, upd_same]; exact benign_set_R0 _ _
  · rw [upd_other _ _ hi]; exact benign_refl _

/-- The invariant is about the table, the current thread and the counters
only. -/
theorem KInv_congr {L : Layout} {k k' : KState} (h : KInv L k)
    (h1 : k'.thread_table = k.thread_table) (h2 : k'.thread_current = k.thread_current)
    (h3 : k'.tid_counter = k.tid_counter) (h4 : k'.systime_ms = k.systime_ms)
    (h5 : k'.next_to_run_ms = k.next_to_run_ms) : KInv L k' :=
  KInv_of_benign h (fun i _ => by rw [h1]; exact benign_refl _) (Or.inl h2) h3 h4 h5

theorem KInv_case_EXIT {L : Layout} (hL : L.wf) {k : KState} (h : KInv L k) :
    KInv L (case_EXIT L k) := by
  obtain ⟨c, hc, hcur, hne⟩ := h.cur
  obtain ⟨h1, -, h3, h4, h5, -⟩ := case_EXIT_rest hL k hc hcur
  refine KInv_of_benign h (fun i hi => ?_) (Or.inl h1) h3 h4 h5
  rw [case_EXIT_table hL k hc hcur]
  by_cases hic : i = c
  · rw [if_pos hic, thread_notify_waiting_table hL k hc, hic]
    by_cases hw : c < MAX_THREADS ∧ is_waiter (k.thread_table c) (k.thread_table c).id
    · rw [if_pos hw]
      exact benign_trans (benign_notified _ _ _ hw.2) (benign_zombie _ (by simp [notified]))
    · rw [if_neg hw]; exact benign_zombie _ hne
  · rw [if_neg hic]
    by_cases hw : i < MAX_THREADS ∧ is_waiter (k.thread_table i) (k.thread_table c).id
    · rw [if_pos hw]; exact benign_notified _ _ _ hw.2
    · rw [if_neg hw]; exact benign_refl _

theorem KInv_case_KILL {L : Layout} (hL : L.wf) {k : KState} (h : KInv L k) :
    KInv L (case_KILL L k) := by
  obtain ⟨c, hc, hcur, hne⟩ := h.cur
  have hpos : thread_pos L k.thread_current = c := by
    rw [hcur]; exact thread_pos_slot_addr hL hc
  rcases tt_entry_for_tid_spec L k (k.thread_table c).regs.R1 with ⟨h0, _⟩ | ⟨j, hj, he, hm, _⟩
  · have hk : case_KILL L k = set_current_R0 L k 0 := by
      unfold case_KILL
      simp only [hpos, h0, ne_eq, not_true_eq_false, if_false]
    rw [hk]; exact KInv_set_current_R0 h 0
  · obtain ⟨htab, h1, -, -, h3, h4, h5⟩ := case_KILL_found hL k hc hcur hj he
    refine KInv_of_benign h (fun i hi => ?_) (Or.inl h1) h3 h4 h5
    rw [htab]
    simp only [kill_table]
    have hw : benign (k.thread_table i)
        (if i < MAX_THREADS ∧ is_waiter (k.thread_table i) (k.thread_table j).id then
          notified (k.thread_table i) (k.thread_table j).regs.R1
        else k.thread_table i) := by
      split
      · rename_i hw; exact benign_notified _ _ _ hw.2
      · exact benign_refl _
    have hk : benign (k.thread_table i)
        (if i = j then
          { (if i < MAX_THREADS ∧ is_waiter (k.thread_table i) (k.thread_table j).id then
              notified (k.thread_table i) (k.thread_table j).regs.R1
            else k.thread_table i) with state := T_ZOMBIE }
        else
          (if i < MAX_THREADS ∧ is_waiter (k.thread_table i) (k.thread_table j).id then
            notified (k.thread_table i) (k.thread_table j).regs.R1
          else k.thread_table i)) := by
      by_cases hij : i = j
      · rw [if_pos hij]
        refine benign_trans hw (benign_zombie _ ?_)
        intro he'
        have := hw.2.2.1.mp he'
        rw [hij] at this
        exact hm.2 this
      · rw [if_neg hij]; exact hw
    by_cases hic : i = c
    · rw [if_pos hic]; exact benign_trans hk (benign_set_R0 _ _)
    · rw [if_neg hic]; exact hk

theorem KInv_case_WAIT {L : Layout} (hL : L.wf) {k : KState} (h : KInv L k) :
    KInv L (case_WAIT L k) := by
  obtain ⟨c, hc, hcur, hne⟩ := h.cur
  have hpos : thread_pos L k.thread_current = c := by
    rw [hcur]; exact thread_pos_slot_addr hL hc
  have htab : (case_WAIT L k).thread_table
      = upd k.thread_table c
          { k.thread_table c with state := T_BLOCKED, waitstat := WAITSTATUS_THREAD } := by
    unfold case_WAIT; simp [hpos]
  refine KInv_of_benign h (fun i _ => ?_) (Or.inl rfl) rfl rfl rfl
  rw [htab]
  by_cases hi : i = c
  · rw [hi, upd_same]; exact benign_blocked _ hne
  · rw [upd_other _ _ hi]; exact benign_refl _

theorem KInv_case_LOCK {L : Layout} {k : KState} (h : KInv L k) :
    KInv L (case_LOCK_data L k) := by
  unfold case_LOCK_data
  simp only
  split
  · exact KInv_set_current_R0 h 0
  · exact @KInv_set_current_R0 L
      { k with
        mem := upd k.mem (k.thread_table (thread_pos L k.thread_current)).regs.R1 LOCK_LOCKED }
      (KInv_congr h rfl rfl rfl rfl rfl) 1

theorem KInv_case_SLEEP {L : Layout} (hL : L.wf) {k : KState} (h : KInv L k)
    (hpos1 : 0 < (k.thread_table (thread_pos L k.thread_current)).regs.R1) :
    KInv L (case_SLEEP L k) := by
  obtain ⟨c, hc, hcur, hne⟩ := h.cur
  have hpos : thread_pos L k.thread_current = c := by
    rw [hcur]; exact thread_pos_slot_addr hL hc
  obtain ⟨hsys, hcur', htid, -, -⟩ := case_SLEEP_rest L k
  obtain ⟨hlt1, hlt2⟩ := h.time_lt
  have hne' := h.next_ne
  have hr1 := h.r1 c hc
  rw [hpos] at hpos1
  have hd : sleep_ticks L k = (k.thread_table c).regs.R1 := by
    unfold sleep_ticks; rw [hpos, SYSTIME_CYCLES_PER_MS_eq]; omega
  have htab := case_SLEEP_table L k
  have hnext := case_SLEEP_next L k
  rw [hpos, hd] at htab
  rw [hd] at hnext
  have hdist : sub32 (add32 (k.thread_table c).regs.R1 k.systime_ms) k.systime_ms
      = (k.thread_table c).regs.R1 := by
    unfold sub32 add32; omega
  rw [hdist] at hnext
  obtain ⟨h1, h2, h3⟩ := @KInv_static L k (case_SLEEP L k) h
    (fun i hi => by
      rw [htab]
      by_cases hic : i = c
      · rw [hic, upd_same]; exact ⟨rfl, by simp [hne], id⟩
      · rw [upd_other _ _ hic]; exact ⟨rfl, Iff.rfl, id⟩)
    (Or.inl hcur') htid
  refine ⟨h1, h2, ?_, ?_, ?_, h3⟩
  · rw [hsys, hnext]
    refine ⟨hlt1, ?_⟩
    split
    · exact Nat.mod_lt _ (by decide)
    · exact hlt2
  · rw [hsys, hnext]
    split
    · unfold add32; omega
    · exact hne'
  · intro i hi hs
    rw [hsys, hnext]
    rw [htab] at hs ⊢
    by_cases hic : i = c
    · rw [hic, upd_same]
      simp only
      rw [hdist]
      refine ⟨Nat.mod_lt _ (by decide), ?_⟩
      split
      · rw [hdist]
      · omega
    · rw [upd_other _ _ hic] at hs ⊢
      obtain ⟨hs1, hs2⟩ := h.sleepers i hi hs
      refine ⟨hs1, ?_⟩
      split
      · rw [hdist]; omega
      · exact hs2

/-- The result of `thread_copy(&thread_table[d], &thread_table[s])` when slot
`d` is EMPTY and slot `s` is not. -/
theorem thread_copy_eq {L : Layout} (hL : L.wf) (k : KState) {d s : Nat}
    (hd : d < MAX_THREADS) (hs : s < MAX_THREADS)
    (hde : (k.thread_table d).state = T_EMPTY) (hse : (k.thread_table s).state ≠ T_EMPTY) :
    thread_copy L k (slot_addr L d) (slot_addr L s)
      = (true,
          { k with
            thread_table := upd k.thread_table d
              { k.thread_table s with id := (thread_fresh_tid k).1 }
            thread_mem := upd k.thread_mem d
              (fun o => if o < THREAD_MEM_SIZE then k.thread_mem s o else k.thread_mem d o)
            tid_counter := (thread_fresh_tid k).1 }) := by
  unfold thread_copy
  simp only [thread_in_table_slot_addr hL hd, thread_in_table_slot_addr hL hs,
    thread_pos_slot_addr hL hd, thread_pos_slot_addr hL hs, hde, hse, thread_fresh_tid,
    upd_same, upd_upd]
  simp

/-- The state with which SYSCALL_FORK resumes the caller (slot `c`) when slot
`d` is the first EMPTY slot. -/
theorem case_FORK_found {L : Layout} (hL : L.wf) (k : KState) {c d : Nat}
    (hc : c < MAX_THREADS) (hcur : k.thread_current = slot_addr L c)
    (hne : (k.thread_table c).state ≠ T_EMPTY)
    (hd : d < MAX_THREADS) (hfe : thread_first_empty k = d)
    (hde : (k.thread_table d).state = T_EMPTY) :
    case_FORK L k
      = { k with
          thread_table :=
            upd (upd k.thread_table d
              { k.thread_table c with
                id := (thread_fresh_tid k).1
                regs := { (k.thread_table c).regs with R0 := 0 } }) c
              { k.thread_table c with
                regs := { (k.thread_table c).regs with R0 := (thread_fresh_tid k).1 } }
          thread_mem := upd k.thread_mem d
            (fun o => if o < THREAD_MEM_SIZE then k.thread_mem c o else k.thread_mem d o)
          tid_counter := (thread_fresh_tid k).1 } := by
  have hpos : thread_pos L k.thread_current = c := by
    rw [hcur]; exact thread_pos_slot_addr hL hc
  have hdc : c ≠ d := by
    intro h; rw [h] at hne; exact hne hde
  have hf : thread_fork2 L k k.thread_current
      = (some (slot_addr L d),
          { k with
            thread_table := upd k.thread_table d
              { k.thread_table c with id := (thread_fresh_tid k).1 }
            thread_mem := upd k.thread_mem d
              (fun o => if o < THREAD_MEM_SIZE then k.thread_mem c o else k.thread_mem d o)
            tid_counter := (thread_fresh_tid k).1 }) := by
    have hin : thread_in_table L k.thread_current = true := by
      rw [hcur]; exact thread_in_table_slot_addr hL hc
    have hcopy := thread_copy_eq hL k hd hc hde hne
    rw [← hcur] at hcopy
    unfold thread_fork2
    simp only [hin, Bool.not_true, Bool.false_eq_true, if_false, hfe, if_neg (Nat.ne_of_lt hd),
      hcopy, if_true]
  unfold case_FORK
  rw [hf]
  simp only [set_current_R0, thread_pos_slot_addr hL hd, hpos, upd_same, upd_upd,
    upd_other _ _ hdc]

/-- The state with which SYSCALL_FORK resumes the caller when no slot is
EMPTY. -/
theorem case_FORK_full {L : Layout} (hL : L.wf) (k : KState) {c : Nat}
    (hc : c < MAX_THREADS) (hcur : k.thread_current = slot_addr L c)
    (hfe : thread_first_empty k = MAX_THREADS) :
    case_FORK L k = set_current_R0 L k 0 := by
  have hf : thread_fork2 L k k.thread_current = (none, k) := by
    have hin : thread_in_table L k.thread_current = true := by
      rw [hcur]; exact thread_in_table_slot_addr hL hc
    unfold thread_fork2
    simp only [hin, Bool.not_true, Bool.false_eq_true, if_false, hfe, if_true]
  unfold case_FORK
  rw [hf]

/-- In a state that satisfies the invariant the first EMPTY slot is the one
after the last id handed out, and the next fresh tid is its index. -/
theorem KInv_first_empty {L : Layout} {k : KState} (h : KInv L k) :
    (thread_first_empty k = MAX_THREADS ∧ k.tid_counter = MAX_THREADS - 1) ∨
    (thread_first_empty k = k.tid_counter + 1 ∧ k.tid_counter + 1 < MAX_THREADS ∧
      (k.thread_table (k.tid_counter + 1)).state = T_EMPTY ∧
      (thread_fresh_tid k).1 = k.tid_counter + 1) := by
  obtain ⟨m, hm, hcnt, hall⟩ := h.ids
  rw [hcnt]
  by_cases hlast : m + 1 < MAX_THREADS
  · right
    have he := (hall (m + 1) hlast).2 (by omega)
    refine ⟨thread_first_empty_eq k (m + 1) hlast he
      (fun j hj => ((hall j (by omega)).1 (by omega)).1), hlast, he, ?_⟩
    unfold thread_fresh_tid
    simp only [hcnt]
    unfold MAX_THREADS at hlast
    have h1 : (m + 1) % 2 ^ 32 = m + 1 := by omega
    rw [h1, if_neg (by omega)]
  · left
    refine ⟨thread_first_empty_none k (fun j hj => ((hall j hj).1 (by omega)).1), ?_⟩
    omega

theorem KInv_case_FORK {L : Layout} (hL : L.wf) {k : KState} (h : KInv L k) :
    KInv L (case_FORK L k) := by
  obtain ⟨c, hc, hcur, hne⟩ := h.cur
  obtain ⟨m, hm, hcnt, hall⟩ := h.ids
  rcases KInv_first_empty h with ⟨hfe, _⟩ | ⟨hfe, hlt, he, hfresh⟩
  · rw [case_FORK_full hL k hc hcur hfe]; exact KInv_set_current_R0 h 0
  · rw [case_FORK_found hL k hc hcur hne hlt hfe he, hfresh]
    have hcd : c ≠ k.tid_counter + 1 := by
      intro heq; rw [← heq] at he; exact hne he
    have hcm : c ≤ m := by
      by_contra hcon
      exact hne ((hall c hc).2 (by omega))
    refine ⟨⟨c, hc, hcur, by simp only [upd_same]; exact hne⟩,
      ⟨m + 1, by omega, by simp only [hcnt], fun i hi => ⟨fun him => ?_, fun him => ?_⟩⟩,
      h.time_lt, h.next_ne, fun i hi hs => ?_, fun i hi => ?_⟩
    · simp only
      by_cases hic : i = c
      · rw [hic, upd_same]; exact ⟨hne, ((hall c hc).1 hcm).2⟩
      · rw [upd_other _ _ hic]
        by_cases hid : i = k.tid_counter + 1
        · rw [hid, upd_same]; exact ⟨hne, rfl⟩
        · rw [upd_other _ _ hid]; exact (hall i hi).1 (by omega)
    · simp only
      rw [upd_other _ _ (by omega), upd_other _ _ (by omega)]
      exact (hall i hi).2 (by omega)
    · simp only at hs ⊢
      by_cases hic : i = c
      · rw [hic, upd_same] at hs ⊢; exact h.sleepers c hc hs
      · rw [upd_other _ _ hic] at hs ⊢
        by_cases hid : i = k.tid_counter + 1
        · rw [hid, upd_same] at hs ⊢; exact h.sleepers c hc hs
        · rw [upd_other _ _ hid] at hs ⊢; exact h.sleepers i hi hs
    · simp only
      by_cases hic : i = c
      · rw [hic, upd_same]; exact h.r1 c hc
      · rw [upd_other _ _ hic]
        by_cases hid : i = k.tid_counter + 1
        · rw [hid, upd_same]; exact h.r1 c hc
        · rw [upd_other _ _ hid]; exact h.r1 i hi

theorem KInv_thread_spawn {L : Layout} (hL : L.wf) {k : KState} (h : KInv L k)
    (entry arg : Nat) : KInv L (thread_spawn L k entry arg).2 := by
  obtain ⟨c, hc, hcur, hne⟩ := h.cur
  obtain ⟨m, hm, hcnt, hall⟩ := h.ids
  rcases KInv_first_empty h with ⟨hfe, _⟩ | ⟨hfe, hlt, he, hfresh⟩
  · have : thread_spawn L k entry arg = (0, k) := by
      unfold thread_spawn; simp only [hfe, if_true]
    rw [this]; exact h
  · rw [thread_spawn_eq hL k entry arg hlt hfe, hfresh]
    have hcd : c ≠ k.tid_counter + 1 := by
      intro heq; rw [← heq] at he; exact hne he
    refine ⟨⟨c, hc, hcur, by simp only [upd_other _ _ hcd]; exact hne⟩,
      ⟨m + 1, by omega, by simp only [hcnt], fun i hi => ⟨fun him => ?_, fun him => ?_⟩⟩,
      h.time_lt, h.next_ne, fun i hi hs => ?_, fun i hi => ?_⟩
    · simp only
      by_cases hid : i = k.tid_counter + 1
      · rw [hid, upd_same]; exact ⟨by simp [spawned_slot], rfl⟩
      · rw [upd_other _ _ hid]; exact (hall i hi).1 (by omega)
    · simp only
      rw [upd_other _ _ (by omega)]
      exact (hall i hi).2 (by omega)
    · simp only at hs ⊢
      by_cases hid : i = k.tid_counter + 1
      · rw [hid, upd_same] at hs; simp [spawned_slot] at hs
      · rw [upd_other _ _ hid] at hs ⊢; exact h.sleepers i hi hs
    · simp only
      by_cases hid : i = k.tid_counter + 1
      · rw [hid, upd_same]; simp [spawned_slot, zero_regs]
      · rw [upd_other _ _ hid]; exact h.r1 i hi

theorem KInv_case_SPAWN {L : Layout} (hL : L.wf) {k : KState} (h : KInv L k) :
    KInv L (case_SPAWN L k) := by
  have hcur : (thread_spawn L k
      (k.thread_table (thread_pos L k.thread_current)).regs.R1
      (k.thread_table (thread_pos L k.thread_current)).regs.R2).2.thread_current
        = k.thread_current := by
    unfold thread_spawn
    simp only
    split
    · rfl
    · simp only [zero_thread]; split <;> rfl
  unfold case_SPAWN
  exact KInv_set_current_R0 (KInv_thread_spawn hL h _ _) _

/-- A system call that resumes a thread keeps the invariant. -/
theorem KInv_syscall {L : Layout} (hL : L.wf) {k k' : KState} {fuel : Nat} (h : KInv L k)
    (hg : lock_call_ok L k)
    (hs : kernel_handle_syscall L fuel k = some (Outcome.exit k')) : KInv L k' := by
  have hrun : ∀ s : KState, kernel_run s s.thread_current = Outcome.exit s := fun _ => rfl
  by_cases h8 : (k.thread_table (thread_pos L k.thread_current)).regs.R0 = SYSCALL_GET_TID
  · rw [dispatch_GET_TID L fuel k h8, hrun] at hs
    cases hs; exact KInv_set_current_R0 h _
  by_cases h0 : (k.thread_table (thread_pos L k.thread_current)).regs.R0 = SYSCALL_EXIT
  · rw [dispatch_EXIT L fuel k h0] at hs
    exact KInv_schedule (KInv_case_EXIT hL h) hs
  by_cases h1 : (k.thread_table (thread_pos L k.thread_current)).regs.R0 = SYSCALL_YIELD
  · rw [dispatch_YIELD L fuel k h1] at hs
    exact KInv_schedule h hs
  by_cases h9 : (k.thread_table (thread_pos L k.thread_current)).regs.R0 = SYSCALL_LOCK
  · rw [dispatch_LOCK L fuel k h9 (hg (Or.inl h9)), hrun] at hs
    cases hs; exact KInv_case_LOCK h
  by_cases h10 : (k.thread_table (thread_pos L k.thread_current)).regs.R0 = SYSCALL_UNLOCK
  · rw [dispatch_UNLOCK L fuel k h10 (hg (Or.inr h10))] at hs
    exact @KInv_schedule L (case_UNLOCK_data L k) k' fuel (KInv_congr h rfl rfl rfl rfl rfl) hs
  by_cases h4 : (k.thread_table (thread_pos L k.thread_current)).regs.R0 = SYSCALL_FORK
  · rw [dispatch_FORK L fuel k h4, hrun] at hs
    cases hs; exact KInv_case_FORK hL h
  by_cases h2 : (k.thread_table (thread_pos L k.thread_current)).regs.R0 = SYSCALL_SLEEP
  · rw [dispatch_SLEEP L fuel k h2] at hs
    by_cases hp : (k.thread_table (thread_pos L k.thread_current)).regs.R1 > 0
    · rw [if_pos hp] at hs
      exact KInv_schedule (KInv_case_SLEEP hL h hp) hs
    · rw [if_neg hp, hrun] at hs
      cases hs; exact KInv_set_current_R0 h _
  by_cases h7 : (k.thread_table (thread_pos L k.thread_current)).regs.R0 = SYSCALL_KILL
  · rw [dispatch_KILL L fuel k h7, hrun] at hs
    cases hs; exact KInv_case_KILL hL h
  by_cases h5 : (k.thread_table (thread_pos L k.thread_current)).regs.R0 = SYSCALL_RESET
  · rw [dispatch_RESET L fuel k h5] at hs; cases hs
  by_cases h3 : (k.thread_table (thread_pos L k.thread_current)).regs.R0 = SYSCALL_SPAWN
  · rw [dispatch_SPAWN L fuel k h3] at hs
    exact KInv_schedule (KInv_case_SPAWN hL h) hs
  by_cases h6 : (k.thread_table (thread_pos L k.thread_current)).regs.R0 = SYSCALL_WAIT
  · rw [dispatch_WAIT L fuel k h6] at hs
    split at hs
    · exact KInv_schedule (KInv_case_WAIT hL h) hs
    · rw [hrun] at hs; cases hs; exact h
  · have hbig : 10 < (k.thread_table (thread_pos L k.thread_current)).regs.R0 := by
      unfold SYSCALL_GET_TID SYSCALL_EXIT SYSCALL_YIELD SYSCALL_LOCK SYSCALL_UNLOCK SYSCALL_FORK
        SYSCALL_SLEEP SYSCALL_KILL SYSCALL_RESET SYSCALL_SPAWN SYSCALL_WAIT at *
      omega
    rw [dispatch_unknown L fuel k hbig] at hs; cases hs

/-- Every reachable state satisfies the invariant. -/
theorem Reachable_KInv {L : Layout} (hL : L.wf) {k : KState} (h : Reachable L k) :
    KInv L k := by
  induction h with
  | init top ram k0 k hf hk => exact KInv_init hL top ram k0 k hf hk
  | user k regs tm m sp _ hr ih => exact KInv_user ih regs tm m sp hr
  | tick k _ ih => exact KInv_tick ih
  | preempt k k' fuel _ hs ih => exact KInv_schedule ih hs
  | syscall k k' fuel _ hg hs ih => exact KInv_syscall hL ih hg hs

theorem Reachable_ticks {L : Layout} {k : KState} (h : Reachable L k) :
    ∀ n, Reachable L (ticks n k) := by
  intro n
  induction n with
  | zero => exact h
  | succ n ih => exact Reachable.tick _ ih

theorem KInv_ticks {L : Layout} {k : KState} (h : KInv L k) :
    ∀ n, KInv L (ticks n k) := by
  intro n
  induction n with
  | zero => exact h
  | succ n ih => exact KInv_tick ih

theorem kernel_tick_counter_systime (k : KState) :
    (kernel_tick_counter k).systime_ms = add32 k.systime_ms 1 := by
  unfold kernel_tick_counter
  simp only
  split <;> rfl

/-- One tick seen from a sleeper: it is woken when its deadline is one tick
ahead, and otherwise it sleeps on, one tick closer to its deadline. -/
theorem kernel_tick_counter_sleeper {L : Layout} {k : KState} (h : KInv L k) {c : Nat}
    (hc : c < MAX_THREADS) (hs : (k.thread_table c).state = T_SLEEPING) :
    (sub32 (k.thread_table c).scnt k.systime_ms = 1 →
      ((kernel_tick_counter k).thread_table c).state = T_RUNNABLE) ∧
    (sub32 (k.thread_table c).scnt k.systime_ms ≠ 1 →
      (kernel_tick_counter k).thread_table c = k.thread_table c ∧
      sub32 (k.thread_table c).scnt (kernel_tick_counter k).systime_ms + 1
        = sub32 (k.thread_table c).scnt k.systime_ms) := by
  obtain ⟨hlt1, hlt2⟩ := h.time_lt
  have hne := h.next_ne
  obtain ⟨hs1, hs2⟩ := h.sleepers c hc hs
  rw [kernel_tick_counter_systime]
  by_cases hscan : add32 k.systime_ms 1 = k.next_to_run_ms
  · rw [kernel_tick_counter_scan k hscan]
    simp only [kernel_tick_scan_table]
    refine ⟨fun h1 => ?_, fun h1 => ?_⟩
    · rw [if_pos ⟨hc, hs, by unfold sub32 at h1; unfold add32; omega⟩]
    · rw [if_neg (fun hcon => h1 (by
        have := hcon.2.2
        unfold add32 at this; unfold sub32; omega))]
      refine ⟨rfl, ?_⟩
      unfold sub32 add32 at *
      omega
  · rw [kernel_tick_counter_idle k hscan]
    refine ⟨fun h1 => ?_, fun h1 => ⟨rfl, ?_⟩⟩
    · exfalso
      apply hscan
      unfold sub32 add32 at *
      omega
    · unfold sub32 add32 at *
      omega

/-- A sleeper whose deadline is `d` ticks ahead sleeps through the next `d - 1`
ticks and is RUNNABLE after the `d`-th. -/
theorem ticks_sleeper {L : Layout} {c : Nat} (hc : c < MAX_THREADS) :
    ∀ (n : Nat) (k : KState), KInv L k → (k.thread_table c).state = T_SLEEPING →
      (n < sub32 (k.thread_table c).scnt k.systime_ms →
        (ticks n k).thread_table c = k.thread_table c ∧
        sub32 (k.thread_table c).scnt (ticks n k).systime_ms + n
          = sub32 (k.thread_table c).scnt k.systime_ms) ∧
      (n = sub32 (k.thread_table c).scnt k.systime_ms →
        ((ticks n k).thread_table c).state = T_RUNNABLE) := by
  intro n
  induction n with
  | zero =>
    intro k h hs
    refine ⟨fun _ => ⟨rfl, rfl⟩, fun h0 => ?_⟩
    exfalso
    obtain ⟨hlt1, hlt2⟩ := h.time_lt
    have hne := h.next_ne
    obtain ⟨hs1, hs2⟩ := h.sleepers c hc hs
    unfold sub32 at *
    omega
  | succ n ih =>
    intro k h hs
    obtain ⟨ih1, -⟩ := ih k h hs
    refine ⟨fun hlt => ?_, fun heq => ?_⟩
    · obtain ⟨ht, hd⟩ := ih1 (by omega)
      have hs' : ((ticks n k).thread_table c).state = T_SLEEPING := by rw [ht]; exact hs
      obtain ⟨-, hstep⟩ := kernel_tick_counter_sleeper (KInv_ticks h n) hc hs'
      rw [ht] at hstep
      obtain ⟨e1, e2⟩ := hstep (by omega)
      exact ⟨by rw [ticks, e1], by rw [ticks]; omega⟩
    · obtain ⟨ht, hd⟩ := ih1 (by omega)
      have hs' : ((ticks n k).thread_table c).state = T_SLEEPING := by rw [ht]; exact hs
      obtain ⟨hstep, -⟩ := kernel_tick_counter_sleeper (KInv_ticks h n) hc hs'
      rw [ht] at hstep
      rw [ticks]
      exact hstep (by omega)

theorem thread_init_loop_eq {L : Layout} (hL : L.wf) (k : KState) :
    ∀ n, n ≤ MAX_THREADS →
      thread_init_loop L k n
        = { k with
            thread_table := fun i => if i < n then zero_slot else k.thread_table i
            thread_mem := fun s o =>
              if s < n ∧ o < THREAD_MEM_SIZE then 0 else k.thread_mem s o } := by
  intro n
  induction n with
  | zero => intro _; simp [thread_init_loop]
  | succ n ih =>
    intro hn
    rw [thread_init_loop, zero_thread_slot hL _ (by omega : n < MAX_THREADS), ih (by omega)]
    simp only [KState.mk.injEq, and_true, true_and]
    constructor
    · funext i
      unfold upd zero_slot
      by_cases h1 : i = n
      · simp [h1]
      · have : i < n + 1 ↔ i < n := by omega
        simp [h1, this]
    · funext s o
      unfold upd
      by_cases h1 : s = n
      · subst h1; by_cases h2 : o < THREAD_MEM_SIZE <;> simp [h2]
      · have : s < n + 1 ↔ s < n := by omega
        simp [h1, this]

/-- The state `kernel_init` returns when the caller's stack fits the stack
region of slot 0, in closed form. -/
theorem kernel_init_eq {L : Layout} (hL : L.wf) (top : Nat) (ram : Nat → Nat) (k : KState)
    (hf : boot_fits top k) :
    kernel_init L top ram k
      = some (Except.ok
          { thread_table := fun i =>
              if i = 0 then { zero_slot with state := T_RUNNABLE }
              else if i < MAX_THREADS then zero_slot else k.thread_table i
            thread_mem := fun s o =>
              if o < THREAD_MEM_SIZE ∧
                  sub32 (L.thread_mem_addr + THREAD_MEM_SIZE) (sub32 top k.cpu_sp)
                    ≤ L.thread_mem_addr + s * THREAD_MEM_SIZE + o ∧
                  L.thread_mem_addr + s * THREAD_MEM_SIZE + o
                    < sub32 (L.thread_mem_addr + THREAD_MEM_SIZE) (sub32 top k.cpu_sp)
                      + sub32 top k.cpu_sp then
                ram (k.cpu_sp + (L.thread_mem_addr + s * THREAD_MEM_SIZE + o
                  - sub32 (L.thread_mem_addr + THREAD_MEM_SIZE) (sub32 top k.cpu_sp)))
              else if s < MAX_THREADS ∧ o < THREAD_MEM_SIZE then 0 else k.thread_mem s o
            thread_current := slot_addr L 0
            tid_counter := 0
            systime_ms := 0
            next_to_run_ms := UINT32_MAX
            kernel_stack_top := add32 L.kernel_stack_addr KERNEL_STACKSIZE
            mem := upd (upd (upd k.mem 0xE000E018 0) 0xE000E014 79999) 0xE000E010
              (upd (upd k.mem 0xE000E018 0) 0xE000E014 79999 0xE000E010 ||| 7)
            cpu_sp := sub32 (L.thread_mem_addr + THREAD_MEM_SIZE) (sub32 top k.cpu_sp) }) := by
  unfold kernel_init
  simp only [thread_init_cpu_sp hL]
  have hf1 : sub32 top k.cpu_sp ≤ THREAD_MEM_SIZE := hf
  rw [if_pos hf1]
  unfold kernel_init_rest
  simp only
  rw [kernel_init_asserts_true hL MAX_THREADS (Nat.le_refl _), if_pos rfl]
  unfold thread_init
  rw [thread_init_loop_eq hL _ MAX_THREADS (Nat.le_refl _)]
  simp only [kernel_set_scheduler_freq, Option.some.injEq, Except.ok.injEq, KState.mk.injEq,
    and_true, true_and]
  refine ⟨?_, ?_⟩
  · funext i
    unfold upd
    by_cases h0 : i = 0
    · subst h0; simp [zero_slot, MAX_THREADS]
    · simp [h0]
  · rfl

theorem init_state_ok :
    kernel_init L0 0x20008000 (fun _ => 0) boot_state = some (Except.ok init_state) := by
  rw [kernel_init_eq (by decide : L0.wf) _ _ _ (by decide)]
  unfold init_state boot_state
  simp only [Option.some.injEq, Except.ok.injEq, KState.mk.injEq]
  refine ⟨?_, ?_, trivial, trivial, trivial, trivial, by decide, ?_, by decide⟩
  · funext i
    by_cases h0 : i = 0
    · simp [h0]
    · simp [h0, mk_thread, zero_slot, zero_regs]
  · funext s o
    simp
  · have h7 : (upd (upd (fun _ : Nat => (0 : Nat)) 3758153752 0) 3758153748 79999
        3758153744) ||| 7 = 7 := by decide
    rw [h7]

theorem Reachable_spawn_call : Reachable L0 spawn_call :=
  Reachable.user _ _ _ _ _ (Reachable.init _ _ _ _ (by decide) init_state_ok) (by decide)

/-- Ticks that do not reach `next_to_run_ms` only advance the time. -/
theorem ticks_idle : ∀ (n : Nat) (k : KState), k.systime_ms + n < k.next_to_run_ms →
    k.next_to_run_ms < 2 ^ 32 → ticks n k = { k with systime_ms := k.systime_ms + n } := by
  intro n
  induction n with
  | zero => intro k _ _; rfl
  | succ n ih =>
    intro k h1 h2
    rw [ticks, ih k (by omega) h2]
    have hadd : add32 (k.systime_ms + n) 1 = k.systime_ms + (n + 1) := by
      unfold add32; omega
    rw [kernel_tick_counter_idle _ (by simp only [hadd]; omega)]
    simp only [hadd]

theorem spawn_call_syscall :
    kernel_handle_syscall L0 MAX_THREADS spawn_call = some (Outcome.exit after_spawn) := rfl

theorem after_spawn_ticks : ticks 100 after_spawn = at_100 :=
  ticks_idle 100 after_spawn (by decide) (by decide)

theorem Reachable_sleep_call : Reachable L0 sleep_call := by
  refine Reachable.user _ _ _ _ _ ?_ (by decide)
  rw [← after_spawn_ticks]
  exact Reachable_ticks (Reachable.syscall _ _ _ Reachable_spawn_call (by decide) spawn_call_syscall) 100

theorem sleep_call_syscall :
    kernel_handle_syscall L0 MAX_THREADS sleep_call = some (Outcome.exit asleep) := rfl

theorem asleep_ticks : ticks 49 asleep = before_wake :=
  ticks_idle 49 asleep (by decide) (by decide)

theorem woken_eq : woken = kernel_tick_counter before_wake := by
  unfold woken
  rw [ticks, asleep_ticks]

/-- What a tick that performs the scan leaves: the distance of `next_to_run_ms`
is `UINT32_MAX` exactly when no remaining sleeper is closer. -/
theorem kernel_tick_counter_scan_next (k : KState)
    (hscan : add32 k.systime_ms 1 = k.next_to_run_ms) :
    (sub32 (kernel_tick_counter k).next_to_run_ms (kernel_tick_counter k).systime_ms
        = UINT32_MAX ↔
      ∀ i, i < MAX_THREADS → ((kernel_tick_counter k).thread_table i).state = T_SLEEPING →
        sub32 ((kernel_tick_counter k).thread_table i).scnt (kernel_tick_counter k).systime_ms
          = UINT32_MAX) ∧
    ((∀ i, i < MAX_THREADS → ((kernel_tick_counter k).thread_table i).state ≠ T_SLEEPING) →
      (kernel_tick_counter k).next_to_run_ms
        = add32 (kernel_tick_counter k).systime_ms UINT32_MAX) := by
  have hUM : UINT32_MAX = 4294967295 := rfl
  obtain ⟨hn1, hn2, hn3⟩ :=
    kernel_tick_scan_next (add32 k.systime_ms 1) k.thread_table MAX_THREADS
  have htab := kernel_tick_scan_table (add32 k.systime_ms 1) k.thread_table MAX_THREADS
  rw [kernel_tick_counter_scan k hscan]
  simp only
  generalize (kernel_tick_scan (add32 k.systime_ms 1) k.thread_table MAX_THREADS).2 = nxt
    at hn1 hn2 hn3
  generalize hT : (kernel_tick_scan (add32 k.systime_ms 1) k.thread_table MAX_THREADS).1 = tab
    at htab
  have hnow : add32 k.systime_ms 1 < 2 ^ 32 := Nat.mod_lt _ (by decide)
  generalize add32 k.systime_ms 1 = now at *
  have hsub : sub32 (add32 nxt now) now = nxt := by
    unfold sub32 add32; omega
  have hrem : ∀ i, i < MAX_THREADS → ((tab i).state = T_SLEEPING ↔ sleeps_on (k.thread_table i) now) := by
    intro i hi
    rw [htab]
    by_cases hc : i < MAX_THREADS ∧ (k.thread_table i).state = T_SLEEPING ∧
        now = (k.thread_table i).scnt
    · rw [if_pos hc]
      constructor
      · intro h; cases h
      · intro h; exact absurd hc.2.2 h.2
    · rw [if_neg hc]
      constructor
      · intro h; exact ⟨h, fun hw => hc ⟨hi, h, hw⟩⟩
      · intro h; exact h.1
  have hscnt : ∀ i, (tab i).scnt = (k.thread_table i).scnt := by
    intro i; rw [htab]; split <;> rfl
  have hsublt : ∀ x, sub32 x now < 2 ^ 32 := fun x => Nat.mod_lt _ (by decide)
  refine ⟨?_, ?_⟩
  · rw [hsub]
    constructor
    · intro hmax i hi hs
      have h1 := hn2 i hi ((hrem i hi).mp hs)
      have h2 := hsublt (k.thread_table i).scnt
      rw [hscnt]; omega
    · intro hall
      rcases hn3 with h | ⟨i, hi, hsl, he⟩
      · exact h
      · rw [he, ← hscnt]; exact hall i hi ((hrem i hi).mpr hsl)
  · intro hnone
    rcases hn3 with h | ⟨i, hi, hsl, he⟩
    · rw [h]; unfold add32; rw [Nat.add_comm]
    · exact absurd ((hrem i hi).mpr hsl) (hnone i hi)

/-- The state 50 ticks after SLEEP(50) at `systime_ms = 100`: reachable, with
no sleeper, and with `next_to_run_ms = 149`. -/
theorem woken_facts :
    Reachable L0 woken ∧
    (∀ i, i < MAX_THREADS → (woken.thread_table i).state ≠ T_SLEEPING) ∧
    woken.systime_ms = 150 ∧ woken.next_to_run_ms = 149 := by
  have hreach : Reachable L0 woken :=
    Reachable_ticks (Reachable.syscall _ _ _ Reachable_sleep_call (by decide) sleep_call_syscall) 50
  have hscan : add32 before_wake.systime_ms 1 = before_wake.next_to_run_ms := by decide
  have hsys : woken.systime_ms = 150 := by
    rw [woken_eq, kernel_tick_counter_systime]; decide
  have hnone : ∀ i, i < MAX_THREADS → (woken.thread_table i).state ≠ T_SLEEPING := by
    intro i hi
    rw [woken_eq, kernel_tick_counter_scan _ hscan]
    simp only [kernel_tick_scan_table]
    have hdec : ∀ j, j < MAX_THREADS → (before_wake.thread_table j).state = T_SLEEPING →
        add32 before_wake.systime_ms 1 = (before_wake.thread_table j).scnt := by decide
    by_cases hc : i < MAX_THREADS ∧ (before_wake.thread_table i).state = T_SLEEPING ∧
        add32 before_wake.systime_ms 1 = (before_wake.thread_table i).scnt
    · rw [if_pos hc]; intro hs; cases hs
    · rw [if_neg hc]
      intro hs
      exact hc ⟨hi, hs, hdec i hi hs⟩
  refine ⟨hreach, hnone, hsys, ?_⟩
  have h := (kernel_tick_counter_scan_next before_wake hscan).2
  rw [← woken_eq] at h
  rw [h hnone, hsys]
  decide

theorem Reachable_fork_call : Reachable L0 fork_call :=
  Reachable.user _ _ _ _ _ (Reachable.init _ _ _ _ (by decide) init_state_ok) (by decide)

/-- Whatever the fuel, `kernel_schedule` changes `thread_current` only. -/
theorem kernel_schedule_loop_state (L : Layout) (k : KState) (orig : Nat) (o : Outcome) :
    ∀ fuel i, kernel_schedule_loop L k orig fuel i = some o →
      o.state = { k with thread_current := o.state.thread_current } := by
  intro fuel
  induction fuel with
  | zero => intro i h; simp [kernel_schedule_loop] at h
  | succ f ih =>
    intro i h
    rw [kernel_schedule_loop] at h
    by_cases hr : (k.thread_table i).state = T_RUNNABLE
    · rw [if_pos hr] at h; cases h; rfl
    · rw [if_neg hr] at h
      simp only at h
      by_cases ho : (if i + 1 = MAX_THREADS then 0 else i + 1) = orig
      · rw [if_pos ho] at h; cases h; rfl
      · rw [if_neg ho] at h; exact ih _ h

theorem kernel_schedule_state (L : Layout) (k : KState) (fuel : Nat) (o : Outcome)
    (h : kernel_schedule L fuel k = some o) :
    o.state = { k with thread_current := o.state.thread_current } := by
  unfold kernel_schedule at h
  simp only at h
  split at h
  · cases h; rfl
  · exact kernel_schedule_loop_state L k _ o fuel _ h

theorem kernel_schedule_mem (L : Layout) (k : KState) (fuel : Nat) (o : Outcome)
    (h : kernel_schedule L fuel k = some o) : o.state.mem = k.mem := by
  rw [kernel_schedule_state L k fuel o h]

theorem thread_kill_mem (L : Layout) (k : KState) (p : Nat) :
    (thread_kill L k p).2.mem = k.mem := by
  unfold thread_kill; split <;> rfl

theorem thread_spawn_mem (L : Layout) (k : KState) (entry arg : Nat) :
    (thread_spawn L k entry arg).2.mem = k.mem := by
  unfold thread_spawn
  simp only
  split
  · rfl
  · simp only [zero_thread]; split <;> rfl

theorem thread_copy_mem (L : Layout) (k : KState) (d s : Nat) :
    (thread_copy L k d s).2.mem = k.mem := by
  unfold thread_copy; split <;> rfl

theorem thread_fork2_mem (L : Layout) (k : KState) (p : Nat) :
    (thread_fork2 L k p).2.mem = k.mem := by
  unfold thread_fork2
  split
  · rfl
  · simp only
    split
    · rfl
    · have := thread_copy_mem L k (slot_addr L (thread_first_empty k)) p
      split <;> exact this

theorem case_FORK_mem (L : Layout) (k : KState) : (case_FORK L k).mem = k.mem := by
  have h := thread_fork2_mem L k k.thread_current
  unfold case_FORK
  split
  · rename_i child k1 heq
    rw [heq] at h; exact h
  · rename_i k1 heq
    rw [heq] at h; exact h

/-- A store through `lock_store` leaves `mem` as it is or updates the entry of
the address stored to. -/
theorem lock_store_mem (L : Layout) (k : KState) (a v : Nat) (k1 : KState)
    (h : lock_store L k a v = some k1) : k1.mem = k.mem ∨ k1.mem = upd k.mem a v := by
  unfold lock_store at h
  split at h
  · cases h; exact Or.inr rfl
  · split at h
    · split at h
      · cases hc : tstate_of_code v with
        | none => rw [hc] at h; cases h
        | some st => rw [hc] at h; cases h; exact Or.inl rfl
      · cases h
    · split at h
      · cases h; exact Or.inl rfl
      · cases h

/-- A cell that does not hold 0 is not set to 0 by a system call other than
UNLOCK on that cell, nor by a tick. -/
theorem syscall_keeps_locked (L : Layout) (k : KState) (fuel a : Nat) (o : Outcome)
    (hcell : k.mem a ≠ 0)
    (hnot : ¬((k.thread_table (thread_pos L k.thread_current)).regs.R0 = SYSCALL_UNLOCK ∧
      (k.thread_table (thread_pos L k.thread_current)).regs.R1 = a))
    (ho : kernel_handle_syscall L fuel k = some o) : o.state.mem a ≠ 0 := by
  have hrun : ∀ s : KState, kernel_run s s.thread_current = Outcome.exit s := fun _ => rfl
  by_cases h8 : (k.thread_table (thread_pos L k.thread_current)).regs.R0 = SYSCALL_GET_TID
  · rw [dispatch_GET_TID L fuel k h8, hrun] at ho
    cases ho; exact hcell
  by_cases h0 : (k.thread_table (thread_pos L k.thread_current)).regs.R0 = SYSCALL_EXIT
  · rw [dispatch_EXIT L fuel k h0] at ho
    rw [kernel_schedule_mem L _ fuel o ho]
    unfold case_EXIT
    simp only
    rw [thread_kill_mem, (thread_notify_waiting_rest L k _).2.2.2.2.2]
    exact hcell
  by_cases h1 : (k.thread_table (thread_pos L k.thread_current)).regs.R0 = SYSCALL_YIELD
  · rw [dispatch_YIELD L fuel k h1] at ho
    rw [kernel_schedule_mem L _ fuel o ho]; exact hcell
  by_cases h9 : (k.thread_table (thread_pos L k.thread_current)).regs.R0 = SYSCALL_LOCK
  · rw [dispatch_LOCK_raw L fuel k h9] at ho
    unfold case_LOCK at ho
    simp only at ho
    cases hl : lock_load L k (k.thread_table (thread_pos L k.thread_current)).regs.R1 with
    | none => rw [hl] at ho; cases ho
    | some v =>
      rw [hl] at ho
      simp only at ho
      by_cases hv : v ≠ 0
      · rw [if_pos hv] at ho
        cases ho; exact hcell
      · rw [if_neg hv] at ho
        cases hst : lock_store L k (k.thread_table (thread_pos L k.thread_current)).regs.R1
            LOCK_LOCKED with
        | none => rw [hst] at ho; cases ho
        | some k1 =>
          rw [hst] at ho
          cases ho
          simp only [Outcome.state, kernel_run, set_current_R0]
          rcases lock_store_mem L k _ _ k1 hst with hm | hm
          · rw [hm]; exact hcell
          · rw [hm]
            unfold upd LOCK_LOCKED
            split
            · decide
            · exact hcell
  by_cases h10 : (k.thread_table (thread_pos L k.thread_current)).regs.R0 = SYSCALL_UNLOCK
  · rw [dispatch_UNLOCK_raw L fuel k h10] at ho
    unfold case_UNLOCK at ho
    simp only at ho
    cases hst : lock_store L k (k.thread_table (thread_pos L k.thread_current)).regs.R1
        LOCK_UNLOCKED with
    | none => rw [hst] at ho; cases ho
    | some k1 =>
      rw [hst] at ho
      simp only [Option.some_bind] at ho
      rw [kernel_schedule_mem L _ fuel o ho]
      rcases lock_store_mem L k _ _ k1 hst with hm | hm
      · rw [hm]; exact hcell
      · rw [hm, upd_other _ _ (fun h => hnot ⟨h10, h.symm⟩)]
        exact hcell
  by_cases h4 : (k.thread_table (thread_pos L k.thread_current)).regs.R0 = SYSCALL_FORK
  · rw [dispatch_FORK L fuel k h4, hrun] at ho
    cases ho
    simp only [Outcome.state]
    rw [case_FORK_mem]; exact hcell
  by_cases h2 : (k.thread_table (thread_pos L k.thread_current)).regs.R0 = SYSCALL_SLEEP
  · rw [dispatch_SLEEP L fuel k h2] at ho
    split at ho
    · rw [kernel_schedule_mem L _ fuel o ho, (case_SLEEP_rest L k).2.2.2.2]; exact hcell
    · rw [hrun] at ho; cases ho; exact hcell
  by_cases h7 : (k.thread_table (thread_pos L k.thread_current)).regs.R0 = SYSCALL_KILL
  · rw [dispatch_KILL L fuel k h7, hrun] at ho
    cases ho
    unfold case_KILL
    simp only
    split
    · simp only [Outcome.state, set_current_R0]
      rw [thread_kill_mem, (thread_notify_waiting_rest L k _).2.2.2.2.2]
      exact hcell
    · exact hcell
  by_cases h5 : (k.thread_table (thread_pos L k.thread_current)).regs.R0 = SYSCALL_RESET
  · rw [dispatch_RESET L fuel k h5] at ho
    cases ho
    simp only [Outcome.state, case_RESET, upd]
    split
    · decide
    · exact hcell
  by_cases h3 : (k.thread_table (thread_pos L k.thread_current)).regs.R0 = SYSCALL_SPAWN
  · rw [dispatch_SPAWN L fuel k h3] at ho
    rw [kernel_schedule_mem L _ fuel o ho]
    unfold case_SPAWN
    simp only [set_current_R0]
    rw [thread_spawn_mem]; exact hcell
  by_cases h6 : (k.thread_table (thread_pos L k.thread_current)).regs.R0 = SYSCALL_WAIT
  · rw [dispatch_WAIT L fuel k h6] at ho
    split at ho
    · rw [kernel_schedule_mem L _ fuel o ho]; exact hcell
    · rw [hrun] at ho; cases ho; exact hcell
  · have hbig : 10 < (k.thread_table (thread_pos L k.thread_current)).regs.R0 := by
      unfold SYSCALL_GET_TID SYSCALL_EXIT SYSCALL_YIELD SYSCALL_LOCK SYSCALL_UNLOCK SYSCALL_FORK
        SYSCALL_SLEEP SYSCALL_KILL SYSCALL_RESET SYSCALL_SPAWN SYSCALL_WAIT at *
      omega
    rw [dispatch_unknown L fuel k hbig] at ho; cases ho; exact hcell

theorem kernel_tick_counter_mem (k : KState) : (kernel_tick_counter k).mem = k.mem := by
  unfold kernel_tick_counter
  simp only
  split <;> rfl

/-- C11: when all `MAX_THREADS` slots are non-EMPTY, `thread_spawn` returns 0
and leaves the state (every slot, every stack region, the tid counter) as it
is. -/
theorem thread_spawn_table_full (L : Layout) (k : KState) (entry arg : Nat)
    (hfull : ∀ i, i < MAX_THREADS → (k.thread_table i).state ≠ T_EMPTY) :
    thread_spawn L k entry arg = (0, k) := by
  unfold thread_spawn
  simp only [thread_first_empty_none k hfull, if_true]

/-- Witness of C11: a spawn in the full table. -/
theorem thread_spawn_table_full_witness :
    thread_spawn L0 full_state 0x08000100 7 = (0, full_state) :=
  thread_spawn_table_full L0 full_state 0x08000100 7 (by decide)

/-- C15: for every value `c` of the 32-bit tid counter, `thread_fresh_tid`
returns a non-zero id and stores it as the new counter; the id is `c + 1` when
`c` is not `UINT32_MAX` and 1 when it is. -/
theorem thread_fresh_tid_spec (k : KState) (hc : k.tid_counter < 2 ^ 32) :
    (thread_fresh_tid k).1 ≠ 0 ∧
    (thread_fresh_tid k).2 = { k with tid_counter := (thread_fresh_tid k).1 } ∧
    (k.tid_counter ≠ UINT32_MAX → (thread_fresh_tid k).1 = k.tid_counter + 1) ∧
    (k.tid_counter = UINT32_MAX → (thread_fresh_tid k).1 = 1) := by
  have hUM : UINT32_MAX = 4294967295 := rfl
  refine ⟨thread_fresh_tid_ne_zero k, rfl, fun hne => ?_, fun heq => ?_⟩
  · unfold thread_fresh_tid
    simp only
    have h1 : (k.tid_counter + 1) % 2 ^ 32 = k.tid_counter + 1 := by omega
    rw [h1, if_neg (by omega)]
  · unfold thread_fresh_tid
    simp only
    rw [heq]
    decide

/-- Witness of C15: the counter at `UINT32_MAX` rolls over to 1. -/
theorem thread_fresh_tid_spec_witness :
    (thread_fresh_tid { full_state with tid_counter := UINT32_MAX }).1 = 1 :=
  (thread_fresh_tid_spec { full_state with tid_counter := UINT32_MAX } (by decide)).2.2.2 rfl

/-- C16: for every value of the current thread's R0 outside 0..10,
`kernel_handle_syscall` ends in `kernel_panic` with the state it was entered
with: no slot, nor the system time, nor `next_to_run_ms` is modified. -/
theorem syscall_unknown_panics (L : Layout) (fuel : Nat) (k : KState)
    (h : ¬ (k.thread_table (thread_pos L k.thread_current)).regs.R0 ≤ 10) :
    kernel_handle_syscall L fuel k = some (Outcome.panic k) ∧
    (∀ o, kernel_handle_syscall L fuel k = some o →
      o.state.thread_table = k.thread_table ∧ o.state.systime_ms = k.systime_ms ∧
      o.state.next_to_run_ms = k.next_to_run_ms) := by
  have hp := dispatch_unknown L fuel k (by omega)
  refine ⟨hp, fun o ho => ?_⟩
  rw [hp] at ho
  cases ho
  exact ⟨rfl, rfl, rfl⟩

/-- Witness of C16: the system call number 11. -/
theorem syscall_unknown_panics_witness :
    kernel_handle_syscall L0 0
        (set_current_regs L0 (mk_state L0 rr_table 0) (regs_call 11 0))
      = some (Outcome.panic (set_current_regs L0 (mk_state L0 rr_table 0) (regs_call 11 0))) :=
  (syscall_unknown_panics L0 0 (set_current_regs L0 (mk_state L0 rr_table 0) (regs_call 11 0))
    (by decide)).1

/-- The position of the null pointer is invalid. -/
theorem thread_pos_null (L : Layout) : thread_pos L 0 = TT_IDX_INVALID := by
  unfold thread_pos; rw [if_pos rfl]; rfl

/-- C17: for every reference `p` that is not in the table (the null reference
included), `thread_kill`, `thread_copy` with `p` as destination or as source
and `thread_fork2` return false and `thread_notify_waiting` returns, each
leaving the state (every slot, every stack region, the tid counter) as it is;
none of them reaches `kernel_panic`. -/
theorem lifecycle_out_of_table (L : Layout) (k : KState) (p q : Nat)
    (hp : thread_in_table L p = false) :
    thread_kill L k p = (false, k) ∧
    thread_copy L k p q = (false, k) ∧
    thread_copy L k q p = (false, k) ∧
    thread_fork2 L k p = (none, k) ∧
    thread_fork L k p = (false, k) ∧
    thread_notify_waiting L k p = k ∧
    zero_thread L k p = k ∧
    thread_in_table L 0 = false := by
  refine ⟨?_, ?_, ?_, ?_, ?_, ?_, ?_, ?_⟩
  · unfold thread_kill; simp [hp]
  · unfold thread_copy; simp [hp]
  · unfold thread_copy; simp [hp]
  · unfold thread_fork2; simp [hp]
  · unfold thread_fork thread_fork2; simp [hp]
  · unfold thread_notify_waiting; simp [hp]
  · unfold zero_thread; simp [hp]
  · unfold thread_in_table; rw [thread_pos_null]; rfl

/-- Witness of C17: the null reference and the address one past the table. -/
theorem lifecycle_out_of_table_witness :
    thread_kill L0 full_state 0 = (false, full_state) ∧
    thread_copy L0 full_state (slot_addr L0 12) (slot_addr L0 0) = (false, full_state) :=
  ⟨(lifecycle_out_of_table L0 full_state 0 0 (by decide)).1,
    (lifecycle_out_of_table L0 full_state (slot_addr L0 12) (slot_addr L0 0) (by decide)).2.1⟩

/-- C20: after `thread_notify_waiting(&thread_table[e])` no slot is BLOCKED with
wait status THREAD and `R1 = e.id`; every slot that was is RUNNABLE with `R0`
equal to `e.regs.R1`, its other fields unchanged, and every slot that was not
is unchanged in all fields; nothing but the table changes. -/
theorem thread_notify_waiting_spec (L : Layout) (hL : L.wf) (k : KState) (e : Nat)
    (he : e < MAX_THREADS) :
    (∀ i, i < MAX_THREADS →
      ¬ is_waiter ((thread_notify_waiting L k (slot_addr L e)).thread_table i)
        ((thread_notify_waiting L k (slot_addr L e)).thread_table e).id) ∧
    (∀ i, i < MAX_THREADS → is_waiter (k.thread_table i) (k.thread_table e).id →
      ((thread_notify_waiting L k (slot_addr L e)).thread_table i).state = T_RUNNABLE ∧
      ((thread_notify_waiting L k (slot_addr L e)).thread_table i).regs.R0
        = (k.thread_table e).regs.R1 ∧
      ((thread_notify_waiting L k (slot_addr L e)).thread_table i).regs.R0
        = ((thread_notify_waiting L k (slot_addr L e)).thread_table e).regs.R1 ∧
      (thread_notify_waiting L k (slot_addr L e)).thread_table i
        = notified (k.thread_table i) (k.thread_table e).regs.R1) ∧
    (∀ i, ¬ is_waiter (k.thread_table i) (k.thread_table e).id →
      (thread_notify_waiting L k (slot_addr L e)).thread_table i = k.thread_table i) ∧
    (thread_notify_waiting L k (slot_addr L e)).thread_mem = k.thread_mem ∧
    (thread_notify_waiting L k (slot_addr L e)).tid_counter = k.tid_counter ∧
    (thread_notify_waiting L k (slot_addr L e)).thread_current = k.thread_current := by
  have htab := thread_notify_waiting_table hL k he
  have hid : ((thread_notify_waiting L k (slot_addr L e)).thread_table e).id
      = (k.thread_table e).id := by
    rw [htab]; split <;> rfl
  have hr1 : ((thread_notify_waiting L k (slot_addr L e)).thread_table e).regs.R1
      = (k.thread_table e).regs.R1 := by
    rw [htab]; split <;> rfl
  obtain ⟨h1, h2, h3, -, -, -⟩ := thread_notify_waiting_rest L k (slot_addr L e)
  refine ⟨fun i hi => ?_, fun i hi hw => ?_, fun i hw => ?_, h2, h3, h1⟩
  · rw [hid, htab]
    by_cases hw : is_waiter (k.thread_table i) (k.thread_table e).id
    · rw [if_pos ⟨hi, hw⟩]
      intro hcon
      have := hcon.1
      simp [notified] at this
    · rw [if_neg (fun h => hw h.2)]; exact hw
  · rw [hr1, htab, if_pos ⟨hi, hw⟩]
    exact ⟨rfl, rfl, rfl, rfl⟩
  · rw [htab, if_neg (fun h => hw h.2)]

/-- Witness of C20: the waiter P of the WAIT/EXIT scenario is woken by a
notification for Q. -/
theorem thread_notify_waiting_spec_witness :
    ((thread_notify_waiting L0 (mk_state L0 wait_exit_table 2) (slot_addr L0 2)).thread_table 1).state
        = T_RUNNABLE ∧
    ((thread_notify_waiting L0 (mk_state L0 wait_exit_table 2) (slot_addr L0 2)).thread_table 1).regs.R0
        = 42 :=
  have h := (thread_notify_waiting_spec L0 (by decide) (mk_state L0 wait_exit_table 2) 2
    (by decide)).2.1 1 (by decide) (by decide)
  ⟨h.1, h.2.1⟩

theorem THREAD_MEM_SIZE_eq : THREAD_MEM_SIZE = 1024 := by decide

/-- C18, amended: `kernel_init(top)` entered with stack pointer `sp ≤ top`, the
caller's stack `[sp, top)` being no larger than one stack region
(`top - sp ≤ THREAD_MEM_SIZE`), returns (no assertion
fails) with the bytes `[sp, top)` copied to the last `top - sp` bytes of slot
0's stack region and the rest of `thread_mem` zero; the new stack pointer is
`base0 + THREAD_MEM_SIZE - (top - sp)`, slot 0 is RUNNABLE with id 0, every
other slot is EMPTY, the current thread is slot 0, `systime_ms = 0` and
`next_to_run_ms = UINT32_MAX`.  For `top = 0x20008000` and `sp = 0x20007F00`
the new stack pointer is `base0 + 1024 - 0x100`. -/
theorem kernel_init_bootstrap (L : Layout) (hL : L.wf) (top : Nat) (ram : Nat → Nat)
    (k : KState) (hsp : k.cpu_sp ≤ top) (htop : top < 2 ^ 32)
    (hfit : top - k.cpu_sp ≤ THREAD_MEM_SIZE) :
    (∃ k', kernel_init L top ram k = some (Except.ok k') ∧
      k'.cpu_sp = L.thread_mem_addr + THREAD_MEM_SIZE - (top - k.cpu_sp) ∧
      (∀ j, j < top - k.cpu_sp →
        k'.thread_mem 0 (THREAD_MEM_SIZE - (top - k.cpu_sp) + j) = ram (k.cpu_sp + j)) ∧
      (∀ o, o < THREAD_MEM_SIZE - (top - k.cpu_sp) → k'.thread_mem 0 o = 0) ∧
      (∀ s o, 0 < s → s < MAX_THREADS → o < THREAD_MEM_SIZE → k'.thread_mem s o = 0) ∧
      (k'.thread_table 0).state = T_RUNNABLE ∧ (k'.thread_table 0).id = 0 ∧
      k'.thread_table 0 = { zero_slot with state := T_RUNNABLE } ∧
      (∀ i, 0 < i → i < MAX_THREADS →
        (k'.thread_table i).state = T_EMPTY ∧ k'.thread_table i = zero_slot) ∧
      k'.thread_current = slot_addr L 0 ∧ k'.systime_ms = 0 ∧
      k'.next_to_run_ms = UINT32_MAX ∧ k'.tid_counter = 0) ∧
    (∀ i, i < MAX_THREADS →
      thread_pos L (slot_addr L i) = i ∧ thread_in_table L (slot_addr L i) = true) ∧
    (∃ k', kernel_init L0 0x20008000 (fun _ => 0) boot_state = some (Except.ok k') ∧
      boot_state.cpu_sp = 0x20007F00 ∧
      k'.cpu_sp = L0.thread_mem_addr + 1024 - 0x100 ∧
      (k'.thread_table 0).state = T_RUNNABLE ∧ k'.systime_ms = 0 ∧
      k'.next_to_run_ms = UINT32_MAX) := by
  have hm0 : 0 < L.thread_mem_addr := hL.2.2.2.1
  have hmfit : L.thread_mem_addr + 12 * 1024 < 2 ^ 32 := hL.2.2.2.2
  have hS := THREAD_MEM_SIZE_eq
  have hM : MAX_THREADS = 12 := rfl
  have hn : sub32 top k.cpu_sp = top - k.cpu_sp := by
    unfold sub32; omega
  have hr0 : sub32 (L.thread_mem_addr + THREAD_MEM_SIZE) (top - k.cpu_sp)
      = L.thread_mem_addr + THREAD_MEM_SIZE - (top - k.cpu_sp) := by
    unfold sub32; omega
  refine ⟨⟨_, kernel_init_eq hL top ram k (by unfold boot_fits; rw [hn]; exact hfit), ?_, ?_, ?_, ?_, rfl, rfl, rfl, ?_, rfl, rfl, rfl, rfl⟩,
    fun i hi => ⟨thread_pos_slot_addr hL hi, thread_in_table_slot_addr hL hi⟩,
    ⟨_, init_state_ok, rfl, by decide, by decide, rfl, rfl⟩⟩
  · simp only [hn, hr0]
  · intro j hj
    simp only [hn, hr0]
    rw [if_pos ⟨by omega, by omega, by omega⟩]
    congr 1
    omega
  · intro o ho
    simp only [hn, hr0]
    rw [if_neg (by omega), if_pos ⟨by omega, by omega⟩]
  · intro s o hs0 hs ho
    simp only [hn, hr0]
    have hmul : 1 * THREAD_MEM_SIZE ≤ s * THREAD_MEM_SIZE := Nat.mul_le_mul_right _ hs0
    rw [if_neg (by omega), if_pos ⟨hs, ho⟩]
  · intro i hi0 hi
    refine ⟨?_, ?_⟩ <;> (simp only; rw [if_neg (Nat.ne_of_gt hi0), if_pos hi]; try rfl)

/-- Witness of the amended C18: the bootstrap of the scenario. -/
theorem kernel_init_bootstrap_witness :
    ∃ k', kernel_init L0 0x20008000 (fun _ => 0) boot_state = some (Except.ok k') ∧
      k'.cpu_sp = L0.thread_mem_addr + THREAD_MEM_SIZE - (0x20008000 - boot_state.cpu_sp) :=
  (kernel_init_bootstrap L0 (by decide) 0x20008000 (fun _ => 0) boot_state (by decide)
    (by decide) (by decide)).1.imp (fun _ h => ⟨h.1, h.2.1⟩)

theorem Reachable_asleep : Reachable L0 asleep :=
  Reachable.syscall _ _ _ Reachable_sleep_call (by decide) sleep_call_syscall

theorem spawn_then_kill_eq {L : Layout} (hL : L.wf) (k : KState) (entry arg : Nat) {i : Nat}
    (hi : i < MAX_THREADS) (hfe : thread_first_empty k = i) :
    spawn_then_kill L k entry arg i
      = { k with
          thread_table := upd k.thread_table i
            { spawned_slot L i (thread_fresh_tid k).1 entry arg with state := T_ZOMBIE }
          thread_mem := upd k.thread_mem i
            (fun o => if o < THREAD_MEM_SIZE then 0 else k.thread_mem i o)
          tid_counter := (thread_fresh_tid k).1 } := by
  unfold spawn_then_kill
  rw [thread_spawn_eq hL k entry arg hi hfe, thread_kill_slot hL _ hi]
  simp only [upd_same, upd_upd]

theorem one_free_first_empty : thread_first_empty one_free_state = 11 :=
  thread_first_empty_eq one_free_state 11 (by decide) (by decide) (by decide)

/-- C14 as stated fails: in a table whose only EMPTY slot is slot 11, spawn
followed by kill of the new slot leaves slot 11 ZOMBIE, not EMPTY; the table is
not the table before the spawn, whatever the tid counter, and a further spawn,
which succeeds before, returns 0 after. -/
theorem spawn_kill_restores_table_fails :
    (∃ i, i < MAX_THREADS ∧ (one_free_state.thread_table i).state = T_EMPTY) ∧
    thread_first_empty one_free_state = 11 ∧
    (one_free_state.thread_table 11).state = T_EMPTY ∧
    ((spawn_then_kill L0 one_free_state 0x08000100 7 11).thread_table 11).state = T_ZOMBIE ∧
    (∀ c, spawn_then_kill L0 one_free_state 0x08000100 7 11
      ≠ { one_free_state with tid_counter := c }) ∧
    (∀ c, (thread_spawn L0 { one_free_state with tid_counter := c } 0x08000100 7).1 ≠ 0) ∧
    (thread_spawn L0 (spawn_then_kill L0 one_free_state 0x08000100 7 11) 0x08000100 7).1 = 0 := by
  have hL : L0.wf := by decide
  have hpost := spawn_then_kill_eq hL one_free_state 0x08000100 7 (by decide)
    one_free_first_empty
  have hz : ((spawn_then_kill L0 one_free_state 0x08000100 7 11).thread_table 11).state
      = T_ZOMBIE := by
    rw [hpost]; simp only [upd_same]
  refine ⟨⟨11, by decide, by decide⟩, one_free_first_empty, by decide, hz, fun c hc => ?_,
    fun c => ?_, ?_⟩
  · rw [hc] at hz
    have hz' : (one_free_state.thread_table 11).state = T_ZOMBIE := hz
    revert hz'
    decide
  · have hfe : thread_first_empty { one_free_state with tid_counter := c } = 11 :=
      thread_first_empty_eq _ 11 (by decide)
        (show (one_free_state.thread_table 11).state = T_EMPTY by decide)
        (show ∀ j, j < 11 → (one_free_state.thread_table j).state ≠ T_EMPTY by decide)
    rw [thread_spawn_eq hL _ _ _ (by decide) hfe]
    exact thread_fresh_tid_ne_zero _
  · have hfull : ∀ i, i < MAX_THREADS →
        ((spawn_then_kill L0 one_free_state 0x08000100 7 11).thread_table i).state ≠ T_EMPTY := by
      intro i hi
      rw [hpost]
      simp only
      by_cases h11 : i = 11
      · rw [h11, upd_same]; decide
      · rw [upd_other _ _ h11]
        have : i < 11 := by unfold MAX_THREADS at hi; omega
        simp [one_free_state, mk_state, one_free_table, this, mk_thread]
    unfold thread_spawn
    simp only [thread_first_empty_none _ hfull, if_true]

/-- C14, amended: when slot `i` is the lowest-index EMPTY slot, `thread_spawn`
followed by `thread_kill` on slot `i` succeeds and leaves slot `i` ZOMBIE with
the fresh id and the register image of the spawn, its stack region zeroed, the
tid counter at the fresh id, and every other slot and stack region, the current
thread and the clocks unchanged.  The same slots are RUNNABLE, SLEEPING and
BLOCKED as before the spawn, but slot `i` is no longer EMPTY: it is not found
by `thread_first_empty` again, and if it was the only EMPTY slot a further
spawn returns 0. -/
theorem spawn_then_kill_leaves_zombie (L : Layout) (hL : L.wf) (k : KState)
    (entry arg i : Nat) (hi : i < MAX_THREADS) (he : (k.thread_table i).state = T_EMPTY)
    (hlow : ∀ j, j < i → (k.thread_table j).state ≠ T_EMPTY) :
    (thread_spawn L k entry arg).1 = (thread_fresh_tid k).1 ∧
    (thread_spawn L k entry arg).1 ≠ 0 ∧
    ((thread_spawn L k entry arg).2.thread_table i).state = T_RUNNABLE ∧
    (thread_kill L (thread_spawn L k entry arg).2 (slot_addr L i)).1 = true ∧
    (spawn_then_kill L k entry arg i).thread_table i
      = { spawned_slot L i (thread_fresh_tid k).1 entry arg with state := T_ZOMBIE } ∧
    ((spawn_then_kill L k entry arg i).thread_table i).state = T_ZOMBIE ∧
    ((spawn_then_kill L k entry arg i).thread_table i).id = (thread_fresh_tid k).1 ∧
    (∀ j, j ≠ i → (spawn_then_kill L k entry arg i).thread_table j = k.thread_table j) ∧
    (∀ j, j ≠ i → (spawn_then_kill L k entry arg i).thread_mem j = k.thread_mem j) ∧
    (∀ o, o < THREAD_MEM_SIZE → (spawn_then_kill L k entry arg i).thread_mem i o = 0) ∧
    (spawn_then_kill L k entry arg i).tid_counter = (thread_fresh_tid k).1 ∧
    (spawn_then_kill L k entry arg i).thread_current = k.thread_current ∧
    (spawn_then_kill L k entry arg i).systime_ms = k.systime_ms ∧
    (spawn_then_kill L k entry arg i).next_to_run_ms = k.next_to_run_ms ∧
    (spawn_then_kill L k entry arg i).mem = k.mem ∧
    (∀ j, (((spawn_then_kill L k entry arg i).thread_table j).state = T_RUNNABLE
        ↔ (k.thread_table j).state = T_RUNNABLE) ∧
      (((spawn_then_kill L k entry arg i).thread_table j).state = T_SLEEPING
        ↔ (k.thread_table j).state = T_SLEEPING) ∧
      (((spawn_then_kill L k entry arg i).thread_table j).state = T_BLOCKED
        ↔ (k.thread_table j).state = T_BLOCKED)) ∧
    thread_first_empty (spawn_then_kill L k entry arg i) ≠ i ∧
    ((∀ j, j < MAX_THREADS → j ≠ i → (k.thread_table j).state ≠ T_EMPTY) →
      thread_spawn L (spawn_then_kill L k entry arg i) entry arg
        = (0, spawn_then_kill L k entry arg i)) := by
  have hfe := thread_first_empty_eq k i hi he hlow
  have hpost := spawn_then_kill_eq hL k entry arg hi hfe
  have hsp := thread_spawn_eq hL k entry arg hi hfe
  have hz : ((spawn_then_kill L k entry arg i).thread_table i).state = T_ZOMBIE := by
    rw [hpost]; simp only [upd_same]
  have hoth : ∀ j, j ≠ i →
      (spawn_then_kill L k entry arg i).thread_table j = k.thread_table j := by
    intro j hj; rw [hpost]; simp only [upd_other _ _ hj]
  refine ⟨by rw [hsp], by rw [hsp]; exact thread_fresh_tid_ne_zero k, ?_, ?_, ?_, hz, ?_, hoth,
    ?_, ?_, by rw [hpost], by rw [hpost], by rw [hpost], by rw [hpost], by rw [hpost], ?_, ?_, ?_⟩
  · rw [hsp]; simp only [upd_same]; rfl
  · rw [thread_kill_slot hL _ hi]
  · rw [hpost]; simp only [upd_same]
  · rw [hpost]; simp only [upd_same]; rfl
  · intro j hj; rw [hpost]; simp only [upd_other _ _ hj]
  · intro o ho; rw [hpost]; simp only [upd_same, if_pos ho]
  · intro j
    by_cases hj : j = i
    · rw [hj, hz, he]
      exact ⟨by decide, by decide, by decide⟩
    · rw [hoth j hj]
      exact ⟨Iff.rfl, Iff.rfl, Iff.rfl⟩
  · intro hcon
    rcases thread_first_empty_from_spec (spawn_then_kill L k entry arg i).thread_table
      MAX_THREADS 0 with ⟨h0, _⟩ | ⟨j, _, _, h3, h4, _⟩
    · unfold thread_first_empty at hcon
      rw [h0] at hcon
      unfold TT_IDX_INVALID at hcon
      omega
    · unfold thread_first_empty at hcon
      rw [h3] at hcon
      rw [hcon, hz] at h4
      cases h4
  · intro hall
    have hfull : ∀ j, j < MAX_THREADS →
        ((spawn_then_kill L k entry arg i).thread_table j).state ≠ T_EMPTY := by
      intro j hj
      by_cases hji : j = i
      · rw [hji, hz]; decide
      · rw [hoth j hji]; exact hall j hj hji
    unfold thread_spawn
    simp only [thread_first_empty_none _ hfull, if_true]

/-- Witness of the amended C14: the table whose only EMPTY slot is slot 11. -/
theorem spawn_then_kill_leaves_zombie_witness :
    ((spawn_then_kill L0 one_free_state 0x08000100 7 11).thread_table 11).state = T_ZOMBIE ∧
    ((spawn_then_kill L0 one_free_state 0x08000100 7 11).thread_table 11).id
      = (thread_fresh_tid one_free_state).1 :=
  have h := spawn_then_kill_leaves_zombie L0 (by decide) one_free_state 0x08000100 7 11
    (by decide) (by decide) (by decide)
  ⟨h.2.2.2.2.2.1, h.2.2.2.2.2.2.1⟩

theorem case_KILL_frame (L : Layout) (k : KState) :
    (case_KILL L k).kernel_stack_top = k.kernel_stack_top ∧
    (case_KILL L k).cpu_sp = k.cpu_sp := by
  unfold case_KILL
  simp only [set_current_R0, thread_kill, thread_notify_waiting]
  split
  · split <;> split <;> exact ⟨rfl, rfl⟩
  · exact ⟨rfl, rfl⟩

theorem Reachable_after_spawn : Reachable L0 after_spawn :=
  Reachable.syscall _ _ _ Reachable_spawn_call (by decide) spawn_call_syscall

theorem Reachable_kill_self_call : Reachable L0 kill_self_call :=
  Reachable.user _ _ _ _ _ Reachable_after_spawn (by decide)

theorem kill_self_call_syscall (fuel : Nat) :
    kernel_handle_syscall L0 fuel kill_self_call = some (Outcome.exit killed_self) := by
  have hL : L0.wf := by decide
  have hk : case_KILL L0 kill_self_call = killed_self := by
    obtain ⟨h1, h2, h3, h4, h5, h6, h7⟩ :=
      @case_KILL_found L0 hL kill_self_call 1 1 (by decide) rfl (by decide) (by decide)
    obtain ⟨h8, h9⟩ := case_KILL_frame L0 kill_self_call
    unfold killed_self
    generalize case_KILL L0 kill_self_call = s at *
    cases s
    simp only at h1 h2 h3 h4 h5 h6 h7 h8 h9
    subst h1 h2 h3 h4 h5 h6 h7 h8 h9
    rfl
  rw [dispatch_KILL L0 fuel kill_self_call (by decide), hk]
  rfl

theorem Reachable_killed_self : Reachable L0 killed_self :=
  Reachable.syscall _ _ 0 Reachable_kill_self_call (by decide) (kill_self_call_syscall 0)

theorem Reachable_zombie_sleep_call : Reachable L0 zombie_sleep_call :=
  Reachable.user _ _ _ _ _ Reachable_killed_self (by decide)

theorem zombie_sleep_call_syscall :
    kernel_handle_syscall L0 MAX_THREADS zombie_sleep_call
      = some (Outcome.exit zombie_asleep) := rfl

/-- C13 fails in the code: the worker of slot 1 issues KILL on its own id and is
resumed by `kernel_run(thread_current)` although its slot is now ZOMBIE; it then
issues SLEEP(5), which makes the ZOMBIE slot SLEEPING, and the fifth tick makes
it RUNNABLE.  Every state of the run is reachable from `kernel_init` by user
code, ticks and system calls. -/
theorem zombie_resumed_by_kill_sleeps :
    Reachable L0 kill_self_call ∧
    (kill_self_call.thread_table 1).state = T_RUNNABLE ∧
    (kill_self_call.thread_table 1).id = 1 ∧
    kill_self_call.thread_current = slot_addr L0 1 ∧
    (kill_self_call.thread_table 1).regs.R0 = SYSCALL_KILL ∧
    (kill_self_call.thread_table 1).regs.R1 = 1 ∧
    kernel_handle_syscall L0 MAX_THREADS kill_self_call = some (Outcome.exit killed_self) ∧
    (killed_self.thread_table 1).state = T_ZOMBIE ∧
    killed_self.thread_current = slot_addr L0 1 ∧
    Reachable L0 zombie_sleep_call ∧
    (zombie_sleep_call.thread_table 1).state = T_ZOMBIE ∧
    (zombie_sleep_call.thread_table 1).regs.R0 = SYSCALL_SLEEP ∧
    (zombie_sleep_call.thread_table 1).regs.R1 = 5 ∧
    kernel_handle_syscall L0 MAX_THREADS zombie_sleep_call
      = some (Outcome.exit zombie_asleep) ∧
    Reachable L0 zombie_asleep ∧
    (zombie_asleep.thread_table 1).state = T_SLEEPING ∧
    (zombie_asleep.thread_table 1).id = 1 ∧
    ((ticks 5 zombie_asleep).thread_table 1).state = T_RUNNABLE := by
  have hr : Reachable L0 zombie_asleep :=
    Reachable.syscall _ _ _ Reachable_zombie_sleep_call (by decide) zombie_sleep_call_syscall
  refine ⟨Reachable_kill_self_call, by decide, by decide, rfl, by decide, by decide,
    kill_self_call_syscall _, by decide, rfl, Reachable_zombie_sleep_call, by decide,
    by decide, by decide, zombie_sleep_call_syscall, hr, by decide, by decide, ?_⟩
  exact (@ticks_sleeper L0 1 (by decide) 5 zombie_asleep (Reachable_KInv (by decide) hr)
    (by decide)).2 (by decide)

theorem count_empty_mono (t t' : Nat → thread_t) :
    ∀ n, (∀ i, i < n → (t' i).state = T_EMPTY → (t i).state = T_EMPTY) →
      count_empty t' n ≤ count_empty t n := by
  intro n
  induction n with
  | zero => intro _; exact Nat.le_refl _
  | succ n ih =>
    intro h
    have h1 := ih (fun i hi => h i (by omega))
    simp only [count_empty]
    by_cases he : (t' n).state = T_EMPTY
    · rw [if_pos he, if_pos (h n (by omega) he)]; omega
    · rw [if_neg he]; omega

theorem count_empty_fill (t t' : Nat → thread_t) (d : Nat) :
    ∀ n, d < n → (t d).state = T_EMPTY → (t' d).state ≠ T_EMPTY →
      (∀ i, i < n → (t' i).state = T_EMPTY → (t i).state = T_EMPTY) →
      count_empty t' n + 1 ≤ count_empty t n := by
  intro n
  induction n with
  | zero => intro hd; omega
  | succ n ih =>
    intro hd he hne h
    simp only [count_empty]
    by_cases hdn : d = n
    · subst hdn
      have h1 := count_empty_mono t t' d (fun i hi => h i (by omega))
      rw [if_neg hne, if_pos he]; omega
    · have h1 := ih (by omega) he hne (fun i hi => h i (by omega))
      by_cases he' : (t' n).state = T_EMPTY
      · rw [if_pos he', if_pos (h n (by omega) he')]; omega
      · rw [if_neg he']; omega

theorem count_empty_le (t : Nat → thread_t) (d : Nat) :
    ∀ n, d < n → (t d).state ≠ T_EMPTY → count_empty t n + 1 ≤ n := by
  have hle : ∀ n, count_empty t n ≤ n := by
    intro n
    induction n with
    | zero => exact Nat.le_refl _
    | succ n ih => simp only [count_empty]; split <;> omega
  intro n
  induction n with
  | zero => intro hd; omega
  | succ n ih =>
    intro hd hne
    simp only [count_empty]
    by_cases hdn : d = n
    · rw [← hdn, if_neg hne]; have := hle d; omega
    · have := ih (by omega) hne
      split <;> omega

theorem count_empty_pos (t : Nat → thread_t) (d : Nat) :
    ∀ n, d < n → (t d).state = T_EMPTY → 1 ≤ count_empty t n := by
  intro n
  induction n with
  | zero => intro hd; omega
  | succ n ih =>
    intro hd he
    simp only [count_empty]
    by_cases hdn : d = n
    · rw [← hdn, if_pos he]; omega
    · have := ih (by omega) he; omega

theorem thread_fresh_tid_succ (k : KState) (h : k.tid_counter + 1 < 2 ^ 32) :
    (thread_fresh_tid k).1 = k.tid_counter + 1 := by
  unfold thread_fresh_tid
  simp only
  have h1 : (k.tid_counter + 1) % 2 ^ 32 = k.tid_counter + 1 := Nat.mod_eq_of_lt h
  rw [h1, if_neg (by omega)]

/-- An operation with the effect `IdStep` keeps the invariant `IdInv`. -/
theorem IdInv_step {L : Layout} {b : Bool} {k k' : KState} (h : IdInv L b k)
    (s : IdStep L b k k') : IdInv L b k' := by
  have hM : MAX_THREADS = 12 := rfl
  have hback : ∀ i, i < MAX_THREADS → (k'.thread_table i).state = T_EMPTY →
      (k.thread_table i).state = T_EMPTY := by
    intro i hi he
    by_contra hne
    exact (s.keep i hi hne).1 he
  have hcur : ∃ c, c < MAX_THREADS ∧ k'.thread_current = slot_addr L c ∧
      (k'.thread_table c).state ≠ T_EMPTY := by
    rcases s.cur with hc | hc
    · obtain ⟨c, hc1, hc2, hc3⟩ := h.cur
      exact ⟨c, hc1, hc.trans hc2, (s.keep c hc1 hc3).1⟩
    · exact hc
  rcases s.alloc with ⟨htid, hE⟩ | ⟨d, hd, hde, hdne, hdid, htid, hE⟩
  · have hid : ∀ i, i < MAX_THREADS → (k'.thread_table i).id = (k.thread_table i).id := by
      intro i hi
      by_cases he : (k.thread_table i).state = T_EMPTY
      · exact (hE i hi he).1
      · exact (s.keep i hi he).2
    refine ⟨hcur, fun i hi hne => ?_, ?_, fun i j hi hj hij hni hnj heq => ?_,
      fun i hi he => ?_, fun hb i hi hne h0 => ?_⟩
    · rw [hid i hi, htid]
      by_cases he : (k.thread_table i).state = T_EMPTY
      · rw [h.empty0 i hi he]; exact Nat.zero_le _
      · exact h.bound i hi he
    · have := count_empty_mono k.thread_table k'.thread_table MAX_THREADS hback
      have := h.room
      omega
    · rw [hid i hi, hid j hj] at heq
      rw [hid i hi]
      by_cases hei : (k.thread_table i).state = T_EMPTY
      · exact h.empty0 i hi hei
      · by_cases hej : (k.thread_table j).state = T_EMPTY
        · rw [heq]; exact h.empty0 j hj hej
        · exact h.uniq i j hi hj hij hei hej heq
    · rw [hid i hi]; exact h.empty0 i hi (hback i hi he)
    · rw [hid i hi] at h0
      by_cases he : (k.thread_table i).state = T_EMPTY
      · rcases (hE i hi he).2 with h1 | h1
        · exact absurd h1 hne
        · rw [hb] at h1; cases h1
      · exact h.zero hb i hi he h0
  · have hroom := h.room
    have hpos := count_empty_pos k.thread_table d MAX_THREADS hd hde
    have hfresh : (thread_fresh_tid k).1 = k.tid_counter + 1 :=
      thread_fresh_tid_succ k (by omega)
    rw [hfresh] at hdid htid
    have hold : ∀ i, i < MAX_THREADS → i ≠ d → (k'.thread_table i).state ≠ T_EMPTY →
        (k.thread_table i).state ≠ T_EMPTY ∧ (k'.thread_table i).id = (k.thread_table i).id := by
      intro i hi hid hne
      have hne' : (k.thread_table i).state ≠ T_EMPTY := fun he => hne (hE i hi hid he).1
      exact ⟨hne', (s.keep i hi hne').2⟩
    refine ⟨hcur, fun i hi hne => ?_, ?_, fun i j hi hj hij hni hnj heq => ?_,
      fun i hi he => ?_, fun hb i hi hne h0 => ?_⟩
    · by_cases hid : i = d
      · rw [hid, hdid, htid]
      · obtain ⟨h1, h2⟩ := hold i hi hid hne
        have := h.bound i hi h1
        rw [h2, htid]; omega
    · have := count_empty_fill k.thread_table k'.thread_table d MAX_THREADS hd hde hdne hback
      omega
    · by_cases hid : i = d
      · have hjd : j ≠ d := fun hjd => hij (hid.trans hjd.symm)
        obtain ⟨h1, h2⟩ := hold j hj hjd hnj
        have := h.bound j hj h1
        rw [hid, hdid, h2] at heq
        omega
      · obtain ⟨h1, h2⟩ := hold i hi hid hni
        by_cases hjd : j = d
        · have := h.bound i hi h1
          rw [hjd, hdid, h2] at heq
          omega
        · obtain ⟨h3, h4⟩ := hold j hj hjd hnj
          rw [h2, h4] at heq
          rw [h2]
          exact h.uniq i j hi hj hij h1 h3 heq
    · by_cases hid : i = d
      · rw [hid] at he; exact absurd he hdne
      · have he' := hback i hi he
        rw [(hE i hi hid he').2]
        exact h.empty0 i hi he'
    · by_cases hid : i = d
      · rw [hid, hdid] at h0; omega
      · obtain ⟨h1, h2⟩ := hold i hi hid hne
        rw [h2] at h0
        exact h.zero hb i hi h1 h0

theorem keeps_ids_refl (L : Layout) (k : KState) : keeps_ids L k k :=
  ⟨rfl, Or.inl rfl, fun _ _ => ⟨rfl, Iff.rfl⟩⟩

theorem keeps_ids_trans {L : Layout} {k k1 k2 : KState} (h1 : keeps_ids L k k1)
    (h2 : keeps_ids L k1 k2) : keeps_ids L k k2 := by
  obtain ⟨a1, a2, a3⟩ := h1
  obtain ⟨b1, b2, b3⟩ := h2
  refine ⟨b1.trans a1, ?_, fun i hi => ⟨(b3 i hi).1.trans (a3 i hi).1,
    (b3 i hi).2.trans (a3 i hi).2⟩⟩
  rcases b2 with hb | hb
  · rcases a2 with ha | ⟨j, hj, hc, hne⟩
    · exact Or.inl (hb.trans ha)
    · exact Or.inr ⟨j, hj, hb.trans hc, fun he => hne ((b3 j hj).2.mp he)⟩
  · exact Or.inr hb

theorem IdStep_of_keeps {L : Layout} (b : Bool) {k k' : KState} (h : keeps_ids L k k') :
    IdStep L b k k' := by
  obtain ⟨a1, a2, a3⟩ := h
  exact ⟨fun i hi hne => ⟨fun he => hne ((a3 i hi).2.mp he), (a3 i hi).1⟩, a2,
    Or.inl ⟨a1, fun i hi he => ⟨(a3 i hi).1, Or.inl ((a3 i hi).2.mpr he)⟩⟩⟩

theorem IdStep_keeps {L : Layout} {b : Bool} {k k1 k2 : KState} (s : IdStep L b k k1)
    (h : keeps_ids L k1 k2) : IdStep L b k k2 := by
  obtain ⟨b1, b2, b3⟩ := h
  have hne : ∀ i, i < MAX_THREADS → (k1.thread_table i).state ≠ T_EMPTY →
      (k2.thread_table i).state ≠ T_EMPTY := fun i hi hn he => hn ((b3 i hi).2.mp he)
  refine ⟨fun i hi hn => ⟨hne i hi (s.keep i hi hn).1, (b3 i hi).1.trans (s.keep i hi hn).2⟩,
    ?_, ?_⟩
  · rcases b2 with hb | hb
    · rcases s.cur with ha | ⟨j, hj, hc, hn⟩
      · exact Or.inl (hb.trans ha)
      · exact Or.inr ⟨j, hj, hb.trans hc, hne j hj hn⟩
    · exact Or.inr hb
  · rcases s.alloc with ⟨htid, hE⟩ | ⟨d, hd, hde, hdne, hdid, htid, hE⟩
    · left
      refine ⟨b1.trans htid, fun i hi he => ⟨(b3 i hi).1.trans (hE i hi he).1, ?_⟩⟩
      rcases (hE i hi he).2 with h1 | h1
      · exact Or.inl ((b3 i hi).2.mpr h1)
      · exact Or.inr h1
    · right
      exact ⟨d, hd, hde, hne d hd hdne, (b3 d hd).1.trans hdid, b1.trans htid,
        fun i hi hid he => ⟨(b3 i hi).2.mpr (hE i hi hid he).1,
          (b3 i hi).1.trans (hE i hi hid he).2⟩⟩

theorem keeps_ids_regs (L : Layout) (k : KState) (i : Nat) (r : registers_t) :
    keeps_ids L k
      { k with thread_table := upd k.thread_table i { k.thread_table i with regs := r } } := by
  refine ⟨rfl, Or.inl rfl, fun j _ => ?_⟩
  simp only
  by_cases hj : j = i
  · rw [hj, upd_same]; exact ⟨rfl, Iff.rfl⟩
  · rw [upd_other _ _ hj]; exact ⟨rfl, Iff.rfl⟩

theorem keeps_ids_set_current_R0 (L : Layout) (k : KState) (v : Nat) :
    keeps_ids L k (set_current_R0 L k v) :=
  keeps_ids_regs L k _ _

theorem keeps_ids_user (L : Layout) (k : KState) (regs : registers_t)
    (tm : Nat → Nat → Nat) (m : Nat → Nat) (sp : Nat) :
    keeps_ids L k (user_run L k regs tm m sp) := by
  obtain ⟨h1, h2, h3⟩ := keeps_ids_regs L k (thread_pos L k.thread_current) regs
  exact ⟨h1, h2, h3⟩

theorem keeps_ids_tick (L : Layout) (k : KState) : keeps_ids L k (kernel_tick_counter k) := by
  by_cases hscan : add32 k.systime_ms 1 = k.next_to_run_ms
  · rw [kernel_tick_counter_scan k hscan]
    refine ⟨rfl, Or.inl rfl, fun i _ => ?_⟩
    simp only [kernel_tick_scan_table]
    split
    · rename_i hc; exact ⟨rfl, by simp [hc.2.1]⟩
    · exact ⟨rfl, Iff.rfl⟩
  · rw [kernel_tick_counter_idle k hscan]
    exact ⟨rfl, Or.inl rfl, fun _ _ => ⟨rfl, Iff.rfl⟩⟩

theorem keeps_ids_schedule {L : Layout} {k k' : KState} {fuel : Nat}
    (hs : kernel_schedule L fuel k = some (Outcome.exit k')) : keeps_ids L k k' := by
  obtain ⟨j, hj, hrun, rfl⟩ := kernel_schedule_exit L k k' fuel hs
  exact ⟨rfl, Or.inr ⟨j, hj, rfl, by rw [hrun]; decide⟩, fun _ _ => ⟨rfl, Iff.rfl⟩⟩

theorem keeps_ids_notify (L : Layout) (k : KState) (p : Nat) :
    keeps_ids L k (thread_notify_waiting L k p) := by
  unfold thread_notify_waiting
  split
  · exact keeps_ids_refl L k
  · refine ⟨rfl, Or.inl rfl, fun i _ => ?_⟩
    simp only [thread_notify_waiting_loop_spec]
    split
    · rename_i hc
      refine ⟨rfl, ?_⟩
      simp [notified, hc.2.1]
    · exact ⟨rfl, Iff.rfl⟩

/-- In-table references have a position below `MAX_THREADS`. -/
theorem thread_pos_lt_of_in_table {L : Layout} {p : Nat} (h : thread_in_table L p = true) :
    thread_pos L p < MAX_THREADS := by
  have h1 := thread_pos_le L p
  unfold thread_in_table at h
  simp only [bne_iff_ne, ne_eq] at h
  omega

theorem keeps_ids_kill (L : Layout) (k : KState) (p : Nat)
    (hlive : thread_in_table L p = true → (k.thread_table (thread_pos L p)).state ≠ T_EMPTY) :
    keeps_ids L k (thread_kill L k p).2 := by
  unfold thread_kill
  by_cases hin : thread_in_table L p = true
  · simp only [hin, Bool.not_true, Bool.false_eq_true, if_false]
    refine ⟨rfl, Or.inl rfl, fun i _ => ?_⟩
    simp only
    by_cases hi : i = thread_pos L p
    · rw [hi, upd_same]
      refine ⟨rfl, ?_⟩
      simp [hlive hin]
    · rw [upd_other _ _ hi]; exact ⟨rfl, Iff.rfl⟩
  · simp only [Bool.not_eq_true] at hin
    simp only [hin, Bool.not_false, if_true]
    exact keeps_ids_refl L k

theorem IdStep_kill (L : Layout) (b : Bool) (k : KState) (p : Nat)
    (hguard : b = true → thread_in_table L p = true →
      (k.thread_table (thread_pos L p)).state ≠ T_EMPTY) :
    IdStep L b k (thread_kill L k p).2 := by
  by_cases hlive : thread_in_table L p = true →
      (k.thread_table (thread_pos L p)).state ≠ T_EMPTY
  · exact IdStep_of_keeps b (keeps_ids_kill L k p hlive)
  · have hin : thread_in_table L p = true := by
      by_contra hc; exact hlive (fun h => absurd h hc)
    have he : (k.thread_table (thread_pos L p)).state = T_EMPTY := by
      by_contra hc; exact hlive (fun _ => hc)
    have hb : b = false := by
      cases b
      · rfl
      · exact absurd he (hguard rfl hin)
    unfold thread_kill
    simp only [hin, Bool.not_true, Bool.false_eq_true, if_false]
    refine ⟨fun i hi hne => ?_, Or.inl rfl, Or.inl ⟨rfl, fun i hi hie => ?_⟩⟩
    · have hip : i ≠ thread_pos L p := fun h => hne (by rw [h]; exact he)
      simp only [upd_other _ _ hip]
      exact ⟨hne, trivial⟩
    · simp only
      by_cases hip : i = thread_pos L p
      · rw [hip, upd_same]; exact ⟨rfl, Or.inr hb⟩
      · rw [upd_other _ _ hip]; exact ⟨rfl, Or.inl hie⟩

theorem keeps_ids_kill2 {L : Layout} (hL : L.wf) (k : KState) (tid : Nat) :
    keeps_ids L k (thread_kill2 L k tid).2 := by
  unfold thread_kill2
  rcases tt_entry_for_tid_spec L k tid with ⟨h0, _⟩ | ⟨j, hj, he, hm, _⟩
  · simp only [h0, if_true]
    exact keeps_ids_refl L k
  · simp only [he, if_neg (slot_addr_ne_zero hL j), thread_pos_slot_addr hL hj]
    refine ⟨rfl, Or.inl rfl, fun i _ => ?_⟩
    simp only
    by_cases hi : i = j
    · rw [hi, upd_same]
      refine ⟨rfl, ?_⟩
      simp [hm.2]
    · rw [upd_other _ _ hi]; exact ⟨rfl, Iff.rfl⟩

/-- The two ways `thread_copy` ends: it fails and leaves the state alone, or
the destination is an EMPTY slot `d`, the source a non-EMPTY slot `s`, and slot
`d` and its stack become copies of those of `s` with a fresh id. -/
theorem thread_copy_cases (L : Layout) (k : KState) (dest src : Nat) :
    thread_copy L k dest src = (false, k) ∨
    (thread_pos L dest < MAX_THREADS ∧ thread_pos L src < MAX_THREADS ∧
      (k.thread_table (thread_pos L dest)).state = T_EMPTY ∧
      (k.thread_table (thread_pos L src)).state ≠ T_EMPTY ∧
      thread_copy L k dest src
        = (true,
            { k with
              thread_table := upd k.thread_table (thread_pos L dest)
                { k.thread_table (thread_pos L src) with id := (thread_fresh_tid k).1 }
              thread_mem := upd k.thread_mem (thread_pos L dest)
                (fun o => if o < THREAD_MEM_SIZE then k.thread_mem (thread_pos L src) o
                  else k.thread_mem (thread_pos L dest) o)
              tid_counter := (thread_fresh_tid k).1 })) := by
  by_cases hd : thread_in_table L dest = true
  · by_cases hs : thread_in_table L src = true
    · by_cases hde : (k.thread_table (thread_pos L dest)).state = T_EMPTY
      · by_cases hse : (k.thread_table (thread_pos L src)).state = T_EMPTY
        · left; unfold thread_copy; simp [hse]
        · right
          refine ⟨thread_pos_lt_of_in_table hd, thread_pos_lt_of_in_table hs, hde, hse, ?_⟩
          unfold thread_copy
          simp only [hd, hs, hde, hse, thread_fresh_tid, upd_same, upd_upd]
          simp
      · left; unfold thread_copy; simp [hde]
    · left; unfold thread_copy; simp [hs]
  · left; unfold thread_copy; simp [hd]

theorem IdStep_copy (L : Layout) (b : Bool) (k : KState) (dest src : Nat) :
    IdStep L b k (thread_copy L k dest src).2 := by
  rcases thread_copy_cases L k dest src with h | ⟨hd, hs, hde, hse, h⟩
  · rw [h]; exact IdStep_of_keeps b (keeps_ids_refl L k)
  · rw [h]
    refine ⟨fun i hi hne => ?_, Or.inl rfl, Or.inr ⟨thread_pos L dest, hd, hde, ?_, ?_, rfl,
      fun i hi hid _ => ?_⟩⟩
    · have hip : i ≠ thread_pos L dest := fun hh => hne (by rw [hh]; exact hde)
      simp only [upd_other _ _ hip]
      exact ⟨hne, trivial⟩
    · simp only [upd_same]; exact hse
    · simp only [upd_same]
    · simp only [upd_other _ _ hid]
      exact ⟨by assumption, trivial⟩

theorem thread_fork2_state (L : Layout) (k : KState) (thread : Nat) :
    (thread_fork2 L k thread).2 = k ∨
    (thread_fork2 L k thread).2
      = (thread_copy L k (slot_addr L (thread_first_empty k)) thread).2 := by
  unfold thread_fork2
  split
  · left; rfl
  · simp only
    split
    · left; rfl
    · right
      generalize thread_copy L k (slot_addr L (thread_first_empty k)) thread = r
      obtain ⟨ok, k1⟩ := r
      cases ok <;> rfl

theorem IdStep_fork2 (L : Layout) (b : Bool) (k : KState) (thread : Nat) :
    IdStep L b k (thread_fork2 L k thread).2 := by
  rcases thread_fork2_state L k thread with h | h
  · rw [h]; exact IdStep_of_keeps b (keeps_ids_refl L k)
  · rw [h]; exact IdStep_copy L b k _ _

theorem thread_first_empty_cases (k : KState) :
    (thread_first_empty k = MAX_THREADS ∧
      ∀ j, j < MAX_THREADS → (k.thread_table j).state ≠ T_EMPTY) ∨
    ∃ d, d < MAX_THREADS ∧ thread_first_empty k = d ∧ (k.thread_table d).state = T_EMPTY ∧
      ∀ j, j < d → (k.thread_table j).state ≠ T_EMPTY := by
  unfold thread_first_empty
  rcases thread_first_empty_from_spec k.thread_table MAX_THREADS 0 with
    ⟨h0, hno⟩ | ⟨j, _, h2, h3, h4, h5⟩
  · left; exact ⟨h0, fun j hj => hno j (Nat.zero_le _) (by omega)⟩
  · right; exact ⟨j, by omega, h3, h4, fun j' hj' => h5 j' (Nat.zero_le _) hj'⟩

theorem IdStep_spawn {L : Layout} (hL : L.wf) (b : Bool) (k : KState) (entry arg : Nat) :
    IdStep L b k (thread_spawn L k entry arg).2 := by
  rcases thread_first_empty_cases k with ⟨hfe, _⟩ | ⟨d, hd, hfe, hde, _⟩
  · have : thread_spawn L k entry arg = (0, k) := by
      unfold thread_spawn; simp only [hfe, if_true]
    rw [this]; exact IdStep_of_keeps b (keeps_ids_refl L k)
  · rw [thread_spawn_eq hL k entry arg hd hfe]
    refine ⟨fun i hi hne => ?_, Or.inl rfl, Or.inr ⟨d, hd, hde, ?_, ?_, rfl,
      fun i hi hid hie => ?_⟩⟩
    · have hip : i ≠ d := fun hh => hne (by rw [hh]; exact hde)
      simp only [upd_other _ _ hip]
      exact ⟨hne, trivial⟩
    · simp only [upd_same, spawned_slot]; decide
    · simp only [upd_same, spawned_slot]
    · simp only [upd_other _ _ hid]
      exact ⟨hie, trivial⟩

theorem IdStep_case_SPAWN {L : Layout} (hL : L.wf) (b : Bool) (k : KState) :
    IdStep L b k (case_SPAWN L k) := by
  unfold case_SPAWN
  exact IdStep_keeps (IdStep_spawn hL b k _ _) (keeps_ids_set_current_R0 L _ _)

theorem IdStep_case_FORK (L : Layout) (b : Bool) (k : KState) :
    IdStep L b k (case_FORK L k) := by
  have hs := IdStep_fork2 L b k k.thread_current
  unfold case_FORK
  generalize thread_fork2 L k k.thread_current = r at hs
  obtain ⟨o, k1⟩ := r
  cases o with
  | none => exact IdStep_keeps hs (keeps_ids_set_current_R0 L k1 0)
  | some child =>
    exact IdStep_keeps (IdStep_keeps hs (keeps_ids_regs L k1 (thread_pos L child) _))
      (keeps_ids_set_current_R0 L _ _)

theorem keeps_ids_case_EXIT {L : Layout} (hL : L.wf) (k : KState)
    (hcur : ∃ c, c < MAX_THREADS ∧ k.thread_current = slot_addr L c ∧
      (k.thread_table c).state ≠ T_EMPTY) :
    keeps_ids L k (case_EXIT L k) := by
  obtain ⟨c, hc, hcur, hne⟩ := hcur
  have hn := keeps_ids_notify L k k.thread_current
  refine keeps_ids_trans hn ?_
  unfold case_EXIT
  refine keeps_ids_kill L _ _ (fun _ => ?_)
  rw [(thread_notify_waiting_rest L k _).1, hcur, thread_pos_slot_addr hL hc]
  intro he
  rw [hcur] at hn
  exact hne ((hn.2.2 c hc).2.mp he)

theorem keeps_ids_case_KILL {L : Layout} (hL : L.wf) (k : KState) :
    keeps_ids L k (case_KILL L k) := by
  unfold case_KILL
  rcases tt_entry_for_tid_spec L k
      (k.thread_table (thread_pos L k.thread_current)).regs.R1 with
    ⟨h0, _⟩ | ⟨j, hj, he, hm, _⟩
  · simp only [h0, ne_eq, not_true_eq_false, if_false]
    exact keeps_ids_set_current_R0 L k 0
  · simp only [he, ne_eq, slot_addr_ne_zero hL j, not_false_eq_true, if_true]
    have hn := keeps_ids_notify L k (slot_addr L j)
    refine keeps_ids_trans (keeps_ids_trans hn (keeps_ids_kill L _ _ (fun _ => ?_)))
      (keeps_ids_set_current_R0 L _ _)
    rw [thread_pos_slot_addr hL hj]
    intro hem
    exact hm.2 ((hn.2.2 j hj).2.mp hem)

theorem keeps_ids_case_WAIT {L : Layout} (hL : L.wf) (k : KState)
    (hcur : ∃ c, c < MAX_THREADS ∧ k.thread_current = slot_addr L c ∧
      (k.thread_table c).state ≠ T_EMPTY) :
    keeps_ids L k (case_WAIT L k) := by
  obtain ⟨c, hc, hcur, hne⟩ := hcur
  have hpos : thread_pos L k.thread_current = c := by
    rw [hcur]; exact thread_pos_slot_addr hL hc
  unfold case_WAIT
  simp only [hpos, upd_same, upd_upd]
  refine ⟨rfl, Or.inl rfl, fun i _ => ?_⟩
  simp only
  by_cases hi : i = c
  · rw [hi, upd_same]
    refine ⟨rfl, ?_⟩
    simp [hne]
  · rw [upd_other _ _ hi]; exact ⟨rfl, Iff.rfl⟩

theorem keeps_ids_case_SLEEP {L : Layout} (hL : L.wf) (k : KState)
    (hcur : ∃ c, c < MAX_THREADS ∧ k.thread_current = slot_addr L c ∧
      (k.thread_table c).state ≠ T_EMPTY) :
    keeps_ids L k (case_SLEEP L k) := by
  obtain ⟨c, hc, hcur, hne⟩ := hcur
  have hpos : thread_pos L k.thread_current = c := by
    rw [hcur]; exact thread_pos_slot_addr hL hc
  obtain ⟨-, h2, h3, -, -⟩ := case_SLEEP_rest L k
  refine ⟨h3, Or.inl h2, fun i _ => ?_⟩
  rw [case_SLEEP_table, hpos]
  by_cases hi : i = c
  · rw [hi, upd_same]
    refine ⟨rfl, ?_⟩
    simp [hne]
  · rw [upd_other _ _ hi]; exact ⟨rfl, Iff.rfl⟩

theorem keeps_ids_case_LOCK (L : Layout) (k : KState) : keeps_ids L k (case_LOCK_data L k) := by
  unfold case_LOCK_data
  simp only
  split
  · exact keeps_ids_set_current_R0 L k 0
  · exact @keeps_ids_trans L k
      { k with
        mem := upd k.mem (k.thread_table (thread_pos L k.thread_current)).regs.R1 LOCK_LOCKED }
      _ ⟨rfl, Or.inl rfl, fun _ _ => ⟨rfl, Iff.rfl⟩⟩ (keeps_ids_set_current_R0 L _ 1)

/-- A system call that resumes a thread has the effect `IdStep`. -/
theorem IdStep_syscall {L : Layout} (hL : L.wf) (b : Bool) {k k' : KState} {fuel : Nat}
    (hcur : ∃ c, c < MAX_THREADS ∧ k.thread_current = slot_addr L c ∧
      (k.thread_table c).state ≠ T_EMPTY)
    (hg : lock_call_ok L k)
    (hs : kernel_handle_syscall L fuel k = some (Outcome.exit k')) : IdStep L b k k' := by
  have hrun : ∀ s : KState, kernel_run s s.thread_current = Outcome.exit s := fun _ => rfl
  by_cases h8 : (k.thread_table (thread_pos L k.thread_current)).regs.R0 = SYSCALL_GET_TID
  · rw [dispatch_GET_TID L fuel k h8, hrun] at hs
    cases hs; exact IdStep_of_keeps b (keeps_ids_set_current_R0 L k _)
  by_cases h0 : (k.thread_table (thread_pos L k.thread_current)).regs.R0 = SYSCALL_EXIT
  · rw [dispatch_EXIT L fuel k h0] at hs
    exact IdStep_of_keeps b (keeps_ids_trans (keeps_ids_case_EXIT hL k hcur)
      (keeps_ids_schedule hs))
  by_cases h1 : (k.thread_table (thread_pos L k.thread_current)).regs.R0 = SYSCALL_YIELD
  · rw [dispatch_YIELD L fuel k h1] at hs
    exact IdStep_of_keeps b (keeps_ids_schedule hs)
  by_cases h9 : (k.thread_table (thread_pos L k.thread_current)).regs.R0 = SYSCALL_LOCK
  · rw [dispatch_LOCK L fuel k h9 (hg (Or.inl h9)), hrun] at hs
    cases hs; exact IdStep_of_keeps b (keeps_ids_case_LOCK L k)
  by_cases h10 : (k.thread_table (thread_pos L k.thread_current)).regs.R0 = SYSCALL_UNLOCK
  · rw [dispatch_UNLOCK L fuel k h10 (hg (Or.inr h10))] at hs
    exact IdStep_of_keeps b (@keeps_ids_trans L k (case_UNLOCK_data L k) k'
      ⟨rfl, Or.inl rfl, fun _ _ => ⟨rfl, Iff.rfl⟩⟩ (keeps_ids_schedule hs))
  by_cases h4 : (k.thread_table (thread_pos L k.thread_current)).regs.R0 = SYSCALL_FORK
  · rw [dispatch_FORK L fuel k h4, hrun] at hs
    cases hs; exact IdStep_case_FORK L b k
  by_cases h2 : (k.thread_table (thread_pos L k.thread_current)).regs.R0 = SYSCALL_SLEEP
  · rw [dispatch_SLEEP L fuel k h2] at hs
    by_cases hp : (k.thread_table (thread_pos L k.thread_current)).regs.R1 > 0
    · rw [if_pos hp] at hs
      exact IdStep_of_keeps b (keeps_ids_trans (keeps_ids_case_SLEEP hL k hcur)
        (keeps_ids_schedule hs))
    · rw [if_neg hp, hrun] at hs
      cases hs; exact IdStep_of_keeps b (keeps_ids_set_current_R0 L k _)
  by_cases h7 : (k.thread_table (thread_pos L k.thread_current)).regs.R0 = SYSCALL_KILL
  · rw [dispatch_KILL L fuel k h7, hrun] at hs
    cases hs; exact IdStep_of_keeps b (keeps_ids_case_KILL hL k)
  by_cases h5 : (k.thread_table (thread_pos L k.thread_current)).regs.R0 = SYSCALL_RESET
  · rw [dispatch_RESET L fuel k h5] at hs; cases hs
  by_cases h3 : (k.thread_table (thread_pos L k.thread_current)).regs.R0 = SYSCALL_SPAWN
  · rw [dispatch_SPAWN L fuel k h3] at hs
    exact IdStep_keeps (IdStep_case_SPAWN hL b k) (keeps_ids_schedule hs)
  by_cases h6 : (k.thread_table (thread_pos L k.thread_current)).regs.R0 = SYSCALL_WAIT
  · rw [dispatch_WAIT L fuel k h6] at hs
    split at hs
    · exact IdStep_of_keeps b (keeps_ids_trans (keeps_ids_case_WAIT hL k hcur)
        (keeps_ids_schedule hs))
    · rw [hrun] at hs; cases hs; exact IdStep_of_keeps b (keeps_ids_refl L k)
  · have hbig : 10 < (k.thread_table (thread_pos L k.thread_current)).regs.R0 := by
      unfold SYSCALL_GET_TID SYSCALL_EXIT SYSCALL_YIELD SYSCALL_LOCK SYSCALL_UNLOCK SYSCALL_FORK
        SYSCALL_SLEEP SYSCALL_KILL SYSCALL_RESET SYSCALL_SPAWN SYSCALL_WAIT at *
      omega
    rw [dispatch_unknown L fuel k hbig] at hs; cases hs

/-- Every operation of `KOp` has the effect `IdStep`. -/
theorem KOp_IdStep {L : Layout} (hL : L.wf) {b : Bool} {k k' : KState}
    (hcur : ∃ c, c < MAX_THREADS ∧ k.thread_current = slot_addr L c ∧
      (k.thread_table c).state ≠ T_EMPTY)
    (h : KOp L b k k') : IdStep L b k k' := by
  cases h with
  | user regs tm m sp _ => exact IdStep_of_keeps b (keeps_ids_user L k regs tm m sp)
  | tick => exact IdStep_of_keeps b (keeps_ids_tick L k)
  | preempt _ fuel hs => exact IdStep_of_keeps b (keeps_ids_schedule hs)
  | syscall _ fuel hg hs => exact IdStep_syscall hL b hcur hg hs
  | spawn entry arg => exact IdStep_spawn hL b k entry arg
  | copy dest src _ _ => exact IdStep_copy L b k dest src
  | fork2 thread _ => exact IdStep_fork2 L b k thread
  | kill thread _ hg => exact IdStep_kill L b k thread hg
  | kill2 tid => exact IdStep_of_keeps b (keeps_ids_kill2 hL k tid)
  | notify thread _ => exact IdStep_of_keeps b (keeps_ids_notify L k thread)

theorem IdInv_init {L : Layout} (hL : L.wf) (b : Bool) (top : Nat) (ram : Nat → Nat)
    (k0 k : KState) (hf : boot_fits top k0)
    (h : kernel_init L top ram k0 = some (Except.ok k)) : IdInv L b k := by
  obtain ⟨h0, hrest, hcur, htid, -, -⟩ := kernel_init_ok hL top ram k0 k hf h
  have hs0 : (k.thread_table 0).state ≠ T_EMPTY := by rw [h0]; decide
  have hid : ∀ i, i < MAX_THREADS → (k.thread_table i).id = 0 := by
    intro i hi
    by_cases hi0 : i = 0
    · rw [hi0, h0]
    · rw [hrest i (by omega) hi]
  refine ⟨⟨0, by decide, hcur, hs0⟩, fun i hi _ => by rw [hid i hi]; exact Nat.zero_le _, ?_,
    fun i j hi _ _ _ _ _ => hid i hi, fun i hi _ => hid i hi, fun _ i hi hne _ => ?_⟩
  · have := count_empty_le k.thread_table 0 MAX_THREADS (by decide) hs0
    rw [htid]
    have hM : MAX_THREADS = 12 := rfl
    omega
  · by_contra hi0
    rw [hrest i (by omega) hi] at hne
    exact hne rfl

/-- Every state reachable by the operations of `KOp` satisfies `IdInv`. -/
theorem OpsReachable_IdInv {L : Layout} (hL : L.wf) {b : Bool} {k : KState}
    (h : OpsReachable L b k) : IdInv L b k := by
  induction h with
  | init top ram k0 k hf hk => exact IdInv_init hL b top ram k0 k hf hk
  | step k k' _ hop ih => exact IdInv_step ih (KOp_IdStep hL ih.cur hop)

/-- The states reachable by user code, ticks and system calls are reachable by
the operations of `KOp`. -/
theorem Reachable_OpsReachable {L : Layout} (b : Bool) {k : KState} (h : Reachable L k) :
    OpsReachable L b k := by
  induction h with
  | init top ram k0 k hf hk => exact OpsReachable.init top ram k0 k hf hk
  | user k regs tm m sp _ hr ih => exact OpsReachable.step _ _ ih (KOp.user k regs tm m sp hr)
  | tick k _ ih => exact OpsReachable.step _ _ ih (KOp.tick k)
  | preempt k k' fuel _ hs ih => exact OpsReachable.step _ _ ih (KOp.preempt k k' fuel hs)
  | syscall k k' fuel _ hg hs ih => exact OpsReachable.step _ _ ih (KOp.syscall k k' fuel hg hs)

theorem zombies_stay_refl (k : KState) : zombies_stay k k := fun _ h => h

theorem zombies_stay_trans {k k1 k2 : KState} (h1 : zombies_stay k k1)
    (h2 : zombies_stay k1 k2) : zombies_stay k k2 := fun i h => h2 i (h1 i h)

theorem zombies_stay_regs (k : KState) (i : Nat) (r : registers_t) :
    zombies_stay k
      { k with thread_table := upd k.thread_table i { k.thread_table i with regs := r } } := by
  intro j hz
  simp only
  by_cases hj : j = i
  · rw [hj, upd_same]; rw [hj] at hz; exact hz
  · rw [upd_other _ _ hj]; exact hz

theorem zombies_stay_tick (k : KState) : zombies_stay k (kernel_tick_counter k) := by
  intro i hz
  by_cases hscan : add32 k.systime_ms 1 = k.next_to_run_ms
  · rw [kernel_tick_counter_scan k hscan]
    simp only [kernel_tick_scan_table]
    split
    · rename_i hc; rw [hc.2.1] at hz; cases hz
    · exact hz
  · rw [kernel_tick_counter_idle k hscan]; exact hz

theorem zombies_stay_schedule {L : Layout} {k k' : KState} {fuel : Nat}
    (hs : kernel_schedule L fuel k = some (Outcome.exit k')) : zombies_stay k k' := by
  obtain ⟨j, _, _, rfl⟩ := kernel_schedule_exit L k k' fuel hs
  exact fun _ h => h

theorem zombies_stay_notify (L : Layout) (k : KState) (p : Nat) :
    zombies_stay k (thread_notify_waiting L k p) := by
  intro i hz
  unfold thread_notify_waiting
  split
  · exact hz
  · simp only [thread_notify_waiting_loop_spec]
    split
    · rename_i hc; rw [hc.2.1] at hz; cases hz
    · exact hz

theorem zombies_stay_kill (L : Layout) (k : KState) (p : Nat) :
    zombies_stay k (thread_kill L k p).2 := by
  intro i hz
  unfold thread_kill
  split
  · exact hz
  · simp only
    by_cases hi : i = thread_pos L p
    · rw [hi, upd_same]
    · rw [upd_other _ _ hi]; exact hz

theorem zombies_stay_kill2 (L : Layout) (k : KState) (tid : Nat) :
    zombies_stay k (thread_kill2 L k tid).2 := by
  intro i hz
  unfold thread_kill2
  simp only
  split
  · exact hz
  · simp only
    by_cases hi : i = thread_pos L (tt_entry_for_tid L k tid)
    · rw [hi, upd_same]
    · rw [upd_other _ _ hi]; exact hz

theorem zombies_stay_copy (L : Layout) (k : KState) (dest src : Nat) :
    zombies_stay k (thread_copy L k dest src).2 := by
  intro i hz
  rcases thread_copy_cases L k dest src with h | ⟨_, _, hde, _, h⟩
  · rw [h]; exact hz
  · rw [h]
    have hi : i ≠ thread_pos L dest := by
      intro hh; rw [hh, hde] at hz; cases hz
    simp only [upd_other _ _ hi]
    exact hz

theorem zombies_stay_fork2 (L : Layout) (k : KState) (thread : Nat) :
    zombies_stay k (thread_fork2 L k thread).2 := by
  rcases thread_fork2_state L k thread with h | h
  · rw [h]; exact zombies_stay_refl k
  · rw [h]; exact zombies_stay_copy L k _ _

theorem zombies_stay_spawn {L : Layout} (hL : L.wf) (k : KState) (entry arg : Nat) :
    zombies_stay k (thread_spawn L k entry arg).2 := by
  intro i hz
  rcases thread_first_empty_cases k with ⟨hfe, _⟩ | ⟨d, hd, hfe, hde, _⟩
  · have : thread_spawn L k entry arg = (0, k) := by
      unfold thread_spawn; simp only [hfe, if_true]
    rw [this]; exact hz
  · rw [thread_spawn_eq hL k entry arg hd hfe]
    have hi : i ≠ d := by
      intro hh; rw [hh, hde] at hz; cases hz
    simp only [upd_other _ _ hi]
    exact hz

theorem zombies_stay_case_FORK (L : Layout) (k : KState) :
    zombies_stay k (case_FORK L k) := by
  have hs := zombies_stay_fork2 L k k.thread_current
  unfold case_FORK
  generalize thread_fork2 L k k.thread_current = r at hs
  obtain ⟨o, k1⟩ := r
  cases o with
  | none => exact zombies_stay_trans hs (zombies_stay_regs k1 _ _)
  | some child =>
    exact zombies_stay_trans (zombies_stay_trans hs (zombies_stay_regs k1 (thread_pos L child) _))
      (zombies_stay_regs _ _ _)

theorem zombies_stay_case_KILL (L : Layout) (k : KState) :
    zombies_stay k (case_KILL L k) := by
  unfold case_KILL
  simp only
  split
  · exact zombies_stay_trans
      (zombies_stay_trans (zombies_stay_notify L k _) (zombies_stay_kill L _ _))
      (zombies_stay_regs _ _ _)
  · exact zombies_stay_regs _ _ _

theorem zombies_stay_case_LOCK (L : Layout) (k : KState) :
    zombies_stay k (case_LOCK_data L k) := by
  unfold case_LOCK_data
  simp only
  split
  · exact zombies_stay_regs _ _ _
  · exact @zombies_stay_trans k
      { k with
        mem := upd k.mem (k.thread_table (thread_pos L k.thread_current)).regs.R1 LOCK_LOCKED }
      _ (fun _ h => h) (zombies_stay_regs _ _ _)

/-- No operation of `KOp` changes the state of a ZOMBIE slot other than the
slot of the current thread: a ZOMBIE stops being one only when it is the
current thread and issues SLEEP or WAIT. -/
theorem zombie_stays_unless_current {L : Layout} (hL : L.wf) {b : Bool} {k k' : KState}
    (h : KOp L b k k') (i : Nat) (hz : (k.thread_table i).state = T_ZOMBIE)
    (hi : i ≠ thread_pos L k.thread_current) : (k'.thread_table i).state = T_ZOMBIE := by
  have hrun : ∀ s : KState, kernel_run s s.thread_current = Outcome.exit s := fun _ => rfl
  cases h with
  | user regs tm m sp _ => exact zombies_stay_regs k _ regs i hz
  | tick => exact zombies_stay_tick k i hz
  | preempt _ fuel hs => exact zombies_stay_schedule hs i hz
  | spawn entry arg => exact zombies_stay_spawn hL k entry arg i hz
  | copy dest src _ _ => exact zombies_stay_copy L k dest src i hz
  | fork2 thread _ => exact zombies_stay_fork2 L k thread i hz
  | kill thread _ _ => exact zombies_stay_kill L k thread i hz
  | kill2 tid => exact zombies_stay_kill2 L k tid i hz
  | notify thread _ => exact zombies_stay_notify L k thread i hz
  | syscall _ fuel hg hs =>
    by_cases h8 : (k.thread_table (thread_pos L k.thread_current)).regs.R0 = SYSCALL_GET_TID
    · rw [dispatch_GET_TID L fuel k h8, hrun] at hs
      cases hs; exact zombies_stay_regs k _ _ i hz
    by_cases h0 : (k.thread_table (thread_pos L k.thread_current)).regs.R0 = SYSCALL_EXIT
    · rw [dispatch_EXIT L fuel k h0] at hs
      refine zombies_stay_schedule hs i ?_
      unfold case_EXIT
      exact zombies_stay_kill L _ _ i (zombies_stay_notify L k _ i hz)
    by_cases h1 : (k.thread_table (thread_pos L k.thread_current)).regs.R0 = SYSCALL_YIELD
    · rw [dispatch_YIELD L fuel k h1] at hs
      exact zombies_stay_schedule hs i hz
    by_cases h9 : (k.thread_table (thread_pos L k.thread_current)).regs.R0 = SYSCALL_LOCK
    · rw [dispatch_LOCK L fuel k h9 (hg (Or.inl h9)), hrun] at hs
      cases hs; exact zombies_stay_case_LOCK L k i hz
    by_cases h10 : (k.thread_table (thread_pos L k.thread_current)).regs.R0 = SYSCALL_UNLOCK
    · rw [dispatch_UNLOCK L fuel k h10 (hg (Or.inr h10))] at hs
      exact zombies_stay_schedule hs i hz
    by_cases h4 : (k.thread_table (thread_pos L k.thread_current)).regs.R0 = SYSCALL_FORK
    · rw [dispatch_FORK L fuel k h4, hrun] at hs
      cases hs; exact zombies_stay_case_FORK L k i hz
    by_cases h2 : (k.thread_table (thread_pos L k.thread_current)).regs.R0 = SYSCALL_SLEEP
    · rw [dispatch_SLEEP L fuel k h2] at hs
      by_cases hp : (k.thread_table (thread_pos L k.thread_current)).regs.R1 > 0
      · rw [if_pos hp] at hs
        refine zombies_stay_schedule hs i ?_
        rw [case_SLEEP_table, upd_other _ _ hi]
        exact hz
      · rw [if_neg hp, hrun] at hs
        cases hs; exact zombies_stay_regs k _ _ i hz
    by_cases h7 : (k.thread_table (thread_pos L k.thread_current)).regs.R0 = SYSCALL_KILL
    · rw [dispatch_KILL L fuel k h7, hrun] at hs
      cases hs; exact zombies_stay_case_KILL L k i hz
    by_cases h5 : (k.thread_table (thread_pos L k.thread_current)).regs.R0 = SYSCALL_RESET
    · rw [dispatch_RESET L fuel k h5] at hs; cases hs
    by_cases h3 : (k.thread_table (thread_pos L k.thread_current)).regs.R0 = SYSCALL_SPAWN
    · rw [dispatch_SPAWN L fuel k h3] at hs
      refine zombies_stay_schedule hs i ?_
      unfold case_SPAWN
      exact zombies_stay_regs _ _ _ i (zombies_stay_spawn hL k _ _ i hz)
    by_cases h6 : (k.thread_table (thread_pos L k.thread_current)).regs.R0 = SYSCALL_WAIT
    · rw [dispatch_WAIT L fuel k h6] at hs
      split at hs
      · refine zombies_stay_schedule hs i ?_
        unfold case_WAIT
        simp only [upd_same, upd_upd, upd_other _ _ hi]
        exact hz
      · rw [hrun] at hs; cases hs; exact hz
    · have hbig : 10 < (k.thread_table (thread_pos L k.thread_current)).regs.R0 := by
        unfold SYSCALL_GET_TID SYSCALL_EXIT SYSCALL_YIELD SYSCALL_LOCK SYSCALL_UNLOCK
          SYSCALL_FORK SYSCALL_SLEEP SYSCALL_KILL SYSCALL_RESET SYSCALL_SPAWN SYSCALL_WAIT at *
        omega
      rw [dispatch_unknown L fuel k hbig] at hs; cases hs

/-- The position of an address outside the byte range of the table is
invalid. -/
theorem thread_pos_outside {L : Layout} (hL : L.wf) {p : Nat} (hp : p < 2 ^ 32)
    (hout : p < L.thread_table_addr ∨
      L.thread_table_addr + MAX_THREADS * L.sizeof_thread_t ≤ p) :
    thread_pos L p = MAX_THREADS := by
  obtain ⟨hb, hs, hfit, -, -⟩ := hL
  have hfit' : L.thread_table_addr + 12 * L.sizeof_thread_t < 2 ^ 32 := hfit
  have hout' : p < L.thread_table_addr ∨ L.thread_table_addr + 12 * L.sizeof_thread_t ≤ p :=
    hout
  by_cases h0 : p = 0
  · rw [h0]; unfold thread_pos; rw [if_pos rfl]
  · have hx : 12 * L.sizeof_thread_t ≤ sub32 p L.thread_table_addr := by
      unfold sub32; omega
    have hxlt : sub32 p L.thread_table_addr < 2 ^ 32 := Nat.mod_lt _ (by decide)
    have hq : 12 ≤ sub32 p L.thread_table_addr / L.sizeof_thread_t :=
      (Nat.le_div_iff_mul_le hs).mpr hx
    have hqlt : sub32 p L.thread_table_addr / L.sizeof_thread_t < 2 ^ 32 :=
      Nat.lt_of_le_of_lt (Nat.div_le_self _ _) hxlt
    unfold thread_pos
    rw [if_neg h0]
    generalize sub32 p L.thread_table_addr / L.sizeof_thread_t = q at hq hqlt
    have hmod : q % 2 ^ 32 = q := Nat.mod_eq_of_lt hqlt
    simp only [to_intptr, hmod, MAX_THREADS, TT_IDX_INVALID]
    by_cases hlt : q < 2 ^ 31
    · rw [if_pos hlt, if_neg (by omega)]
    · rw [if_neg hlt, if_neg (by omega)]

/-- The position of an address inside the byte range of the table is the index
of the slot the byte belongs to. -/
theorem thread_pos_inside {L : Layout} (hL : L.wf) {p : Nat}
    (hlo : L.thread_table_addr ≤ p)
    (hhi : p < L.thread_table_addr + MAX_THREADS * L.sizeof_thread_t) :
    thread_pos L p = (p - L.thread_table_addr) / L.sizeof_thread_t ∧
    (p - L.thread_table_addr) / L.sizeof_thread_t < MAX_THREADS := by
  obtain ⟨hb, hs, hfit, -, -⟩ := hL
  have hfit' : L.thread_table_addr + 12 * L.sizeof_thread_t < 2 ^ 32 := hfit
  have hhi' : p < L.thread_table_addr + 12 * L.sizeof_thread_t := hhi
  have h0 : p ≠ 0 := by omega
  have hx : sub32 p L.thread_table_addr = p - L.thread_table_addr := by
    unfold sub32; omega
  have hq : (p - L.thread_table_addr) / L.sizeof_thread_t < 12 :=
    (Nat.div_lt_iff_lt_mul hs).mpr (by omega)
  refine ⟨?_, hq⟩
  unfold thread_pos
  rw [if_neg h0, hx]
  generalize (p - L.thread_table_addr) / L.sizeof_thread_t = q at hq
  have hmod : q % 2 ^ 32 = q := Nat.mod_eq_of_lt (by omega)
  simp only [to_intptr, hmod, MAX_THREADS]
  rw [if_pos (by omega), if_pos (by omega)]
  simp

/-- C22: for every index `i < MAX_THREADS`, `thread_pos(&thread_table[i])` is
`i` and `thread_in_table` is true; for the null reference and for every 32-bit
address outside the byte range of the table, `thread_pos` is the invalid index
`MAX_THREADS` and `thread_in_table` is false.  (Inside the byte range the
position is the index of the slot the byte lies in.) -/
theorem thread_pos_in_and_out_of_table (L : Layout) (hL : L.wf) :
    (∀ i, i < MAX_THREADS →
      thread_pos L (slot_addr L i) = i ∧ thread_in_table L (slot_addr L i) = true) ∧
    (thread_pos L 0 = MAX_THREADS ∧ thread_pos L 0 = TT_IDX_INVALID ∧
      thread_in_table L 0 = false) ∧
    (∀ p, p < 2 ^ 32 →
      (p < L.thread_table_addr ∨ L.thread_table_addr + MAX_THREADS * L.sizeof_thread_t ≤ p) →
      thread_pos L p = MAX_THREADS ∧ thread_in_table L p = false) ∧
    (∀ p, L.thread_table_addr ≤ p →
      p < L.thread_table_addr + MAX_THREADS * L.sizeof_thread_t →
      thread_pos L p = (p - L.thread_table_addr) / L.sizeof_thread_t ∧
      thread_pos L p < MAX_THREADS ∧ thread_in_table L p = true) := by
  have hnull : thread_pos L 0 = MAX_THREADS := by
    unfold thread_pos; rw [if_pos rfl]
  refine ⟨fun i hi => ⟨thread_pos_slot_addr hL hi, thread_in_table_slot_addr hL hi⟩,
    ⟨hnull, hnull, ?_⟩, fun p hp hout => ?_, fun p hlo hhi => ?_⟩
  · unfold thread_in_table; rw [hnull]; rfl
  · have h := thread_pos_outside hL hp hout
    refine ⟨h, ?_⟩
    unfold thread_in_table; rw [h]; rfl
  · obtain ⟨h1, h2⟩ := thread_pos_inside hL hlo hhi
    refine ⟨h1, by rw [h1]; exact h2, ?_⟩
    unfold thread_in_table
    rw [h1]
    simp only [bne_iff_ne, ne_eq]
    exact Nat.ne_of_lt h2

/-- Witness of C22: slot 3 of the layout `L0`, the address one past the table
and the address just below it. -/
theorem thread_pos_in_and_out_of_table_witness :
    thread_pos L0 (slot_addr L0 3) = 3 ∧
    thread_pos L0 (slot_addr L0 12) = MAX_THREADS ∧
    thread_in_table L0 (L0.thread_table_addr - 1) = false :=
  ⟨((thread_pos_in_and_out_of_table L0 (by decide)).1 3 (by decide)).1,
    ((thread_pos_in_and_out_of_table L0 (by decide)).2.2.1 (slot_addr L0 12) (by decide)
      (Or.inr (by decide))).1,
    ((thread_pos_in_and_out_of_table L0 (by decide)).2.2.1 (L0.thread_table_addr - 1)
      (by decide) (Or.inl (by decide))).2⟩

/-- When `thread_fork2` succeeds it returns the first EMPTY slot, and its
effect is that of a successful `thread_copy` into that slot. -/
theorem thread_fork2_some (L : Layout) (k : KState) (p c : Nat)
    (h : (thread_fork2 L k p).1 = some c) :
    c = slot_addr L (thread_first_empty k) ∧ thread_first_empty k ≠ MAX_THREADS ∧
    (thread_copy L k c p).1 = true ∧
    (thread_fork2 L k p).2 = (thread_copy L k c p).2 := by
  unfold thread_fork2 at h ⊢
  by_cases hin : (!thread_in_table L p) = true
  · rw [if_pos hin] at h; cases h
  · rw [if_neg hin] at h ⊢
    simp only at h ⊢
    by_cases hfe : thread_first_empty k = MAX_THREADS
    · rw [if_pos hfe] at h; cases h
    · rw [if_neg hfe] at h ⊢
      generalize hr : thread_copy L k (slot_addr L (thread_first_empty k)) p = r at h ⊢
      obtain ⟨ok, k1⟩ := r
      cases ok
      · simp at h
      · simp only [if_true, Option.some.injEq] at h
        subst h
        rw [hr]
        exact ⟨rfl, hfe, rfl, rfl⟩

/-- The slot a successful `thread_copy` fills: the register image and the stack
of the source, in a slot other than the source's. -/
theorem thread_copy_child (L : Layout) (k : KState) (dest src : Nat)
    (hok : (thread_copy L k dest src).1 = true) :
    thread_pos L dest < MAX_THREADS ∧ thread_pos L src < MAX_THREADS ∧
    thread_pos L dest ≠ thread_pos L src ∧
    (thread_copy L k dest src).2.thread_table (thread_pos L dest)
      = { k.thread_table (thread_pos L src) with id := (thread_fresh_tid k).1 } ∧
    (thread_copy L k dest src).2.thread_table (thread_pos L src)
      = k.thread_table (thread_pos L src) ∧
    (∀ o, o < THREAD_MEM_SIZE →
      (thread_copy L k dest src).2.thread_mem (thread_pos L dest) o
        = k.thread_mem (thread_pos L src) o) ∧
    (thread_copy L k dest src).2.thread_current = k.thread_current := by
  rcases thread_copy_cases L k dest src with h | ⟨hd, hs, hde, hse, h⟩
  · rw [h] at hok; cases hok
  · have hds : thread_pos L dest ≠ thread_pos L src := by
      intro heq; rw [heq] at hde; exact hse hde
    refine ⟨hd, hs, hds, ?_, ?_, ?_, ?_⟩
    · rw [h]; simp only [upd_same]
    · rw [h]; simp only [upd_other _ _ (Ne.symm hds)]
    · intro o ho
      rw [h]; simp only [upd_same, if_pos ho]
    · rw [h]

/-- Two different stack regions share no address, whether a region is taken as
its bytes or as the values a stack pointer of the region can have. -/
theorem stack_regions_disjoint (L : Layout) {d s a : Nat} (hds : d ≠ s) :
    (in_stack_region L s a → ¬ in_stack_region L d a) ∧
    (L.thread_mem_addr + s * THREAD_MEM_SIZE < a ∧
        a ≤ L.thread_mem_addr + (s + 1) * THREAD_MEM_SIZE →
      ¬ (L.thread_mem_addr + d * THREAD_MEM_SIZE < a ∧
        a ≤ L.thread_mem_addr + (d + 1) * THREAD_MEM_SIZE)) := by
  have hS : THREAD_MEM_SIZE = 1024 := by decide
  unfold in_stack_region
  rw [hS]
  constructor
  · intro h1 h2; omega
  · intro h1 h2; omega

/-- The child of SYSCALL_FORK keeps the stack pointer of the caller. -/
theorem case_FORK_child_sp (L : Layout) (k : KState) (c : Nat)
    (h : (thread_fork2 L k k.thread_current).1 = some c) :
    ((case_FORK L k).thread_table (thread_pos L c)).regs.SP
      = (k.thread_table (thread_pos L k.thread_current)).regs.SP ∧
    ((case_FORK L k).thread_table (thread_pos L k.thread_current)).regs.SP
      = (k.thread_table (thread_pos L k.thread_current)).regs.SP := by
  obtain ⟨-, -, hok, h4⟩ := thread_fork2_some L k k.thread_current c h
  obtain ⟨-, -, hds, hd, hs, -, hcur⟩ := thread_copy_child L k c k.thread_current hok
  have hf : thread_fork2 L k k.thread_current
      = (some c, (thread_copy L k c k.thread_current).2) := by
    rw [← h, ← h4]
  unfold case_FORK
  rw [hf]
  simp only [set_current_R0, hcur, upd_same, upd_other _ _ hds, upd_other _ _ (Ne.symm hds),
    hd, hs]
  exact ⟨trivial, trivial⟩

theorem KOpCount_KOp {L : Layout} {m : Nat} {k k' : KState} (h : KOpCount L m k k') :
    KOp L false k k' := by
  cases h with
  | user _ regs tm mm sp hr => exact KOp.user k regs tm mm sp hr
  | tick _ => exact KOp.tick k
  | preempt _ _ fuel hs => exact KOp.preempt k k' fuel hs
  | syscall _ _ fuel hg hs => exact KOp.syscall k k' fuel hg hs
  | spawn _ entry arg => exact KOp.spawn k entry arg
  | copy _ dest src hd hsr => exact KOp.copy k dest src hd hsr
  | fork2 _ thread ht => exact KOp.fork2 k thread ht
  | kill _ thread ht => exact KOp.kill k thread ht (fun hb => by cases hb)
  | kill2 _ tid => exact KOp.kill2 k tid
  | notify _ thread ht => exact KOp.notify k thread ht

theorem KOp_KOpCount {L : Layout} {k k' : KState} (h : KOp L false k k') :
    ∃ m, KOpCount L m k k' := by
  cases h with
  | user regs tm mm sp hr => exact ⟨_, KOpCount.user k regs tm mm sp hr⟩
  | tick => exact ⟨_, KOpCount.tick k⟩
  | preempt _ fuel hs => exact ⟨_, KOpCount.preempt k k' fuel hs⟩
  | syscall _ fuel hg hs => exact ⟨_, KOpCount.syscall k k' fuel hg hs⟩
  | spawn entry arg => exact ⟨_, KOpCount.spawn k entry arg⟩
  | copy dest src hd hsr => exact ⟨_, KOpCount.copy k dest src hd hsr⟩
  | fork2 thread ht => exact ⟨_, KOpCount.fork2 k thread ht⟩
  | kill thread ht _ => exact ⟨_, KOpCount.kill k thread ht⟩
  | kill2 tid => exact ⟨_, KOpCount.kill2 k tid⟩
  | notify thread ht => exact ⟨_, KOpCount.notify k thread ht⟩

theorem OpsCount_OpsReachable {L : Layout} {n : Nat} {k : KState} (h : OpsCount L n k) :
    OpsReachable L false k := by
  induction h with
  | init top ram k0 k hf hk => exact OpsReachable.init top ram k0 k hf hk
  | step n m k k' _ hop ih => exact OpsReachable.step k k' ih (KOpCount_KOp hop)

/-- Every state reachable by the operations of `KOp` is reached with some
count. -/
theorem OpsReachable_OpsCount {L : Layout} {k : KState} (h : OpsReachable L false k) :
    ∃ n, OpsCount L n k := by
  induction h with
  | init top ram k0 k hf hk => exact ⟨0, OpsCount.init top ram k0 k hf hk⟩
  | step k k' _ hop ih =>
    obtain ⟨n, hn⟩ := ih
    obtain ⟨m, hm⟩ := KOp_KOpCount hop
    exact ⟨n + m, OpsCount.step n m k k' hn hm⟩

/-- No operation makes a slot EMPTY, so the number of EMPTY slots does not
grow. -/
theorem count_empty_IdStep {L : Layout} {b : Bool} {k k' : KState} (s : IdStep L b k k') :
    count_empty k'.thread_table MAX_THREADS ≤ count_empty k.thread_table MAX_THREADS := by
  refine count_empty_mono k.thread_table k'.thread_table MAX_THREADS (fun i hi he => ?_)
  by_contra hne
  exact (s.keep i hi hne).1 he

/-- An operation that fills an EMPTY slot lowers the number of EMPTY slots. -/
theorem count_empty_IdStep_fill {L : Layout} {b : Bool} {k k' : KState}
    (s : IdStep L b k k')
    (hfill : ∃ d, d < MAX_THREADS ∧ (k.thread_table d).state = T_EMPTY ∧
      (k'.thread_table d).state ≠ T_EMPTY) :
    count_empty k'.thread_table MAX_THREADS + 1 ≤ count_empty k.thread_table MAX_THREADS := by
  obtain ⟨d, hd, hde, hdne⟩ := hfill
  refine count_empty_fill k.thread_table k'.thread_table d MAX_THREADS hd hde hdne
    (fun i hi he => ?_)
  by_contra hne
  exact (s.keep i hi hne).1 he

/-- A `thread_spawn` that returns a tid fills an EMPTY slot. -/
theorem thread_spawn_fills {L : Layout} (hL : L.wf) (k : KState) (entry arg : Nat)
    (h : (thread_spawn L k entry arg).1 ≠ 0) :
    ∃ d, d < MAX_THREADS ∧ (k.thread_table d).state = T_EMPTY ∧
      ((thread_spawn L k entry arg).2.thread_table d).state ≠ T_EMPTY := by
  rcases thread_first_empty_cases k with ⟨hfe, _⟩ | ⟨d, hd, hfe, hde, _⟩
  · exfalso
    apply h
    unfold thread_spawn
    simp only [hfe, if_true]
  · refine ⟨d, hd, hde, ?_⟩
    rw [thread_spawn_eq hL k entry arg hd hfe]
    simp only [upd_same, spawned_slot]
    decide

/-- A `thread_copy` that returns true fills an EMPTY slot. -/
theorem thread_copy_fills (L : Layout) (k : KState) (dest src : Nat)
    (h : (thread_copy L k dest src).1 = true) :
    ∃ d, d < MAX_THREADS ∧ (k.thread_table d).state = T_EMPTY ∧
      ((thread_copy L k dest src).2.thread_table d).state ≠ T_EMPTY := by
  rcases thread_copy_cases L k dest src with hc | ⟨hd, _, hde, hse, hc⟩
  · rw [hc] at h; cases h
  · refine ⟨thread_pos L dest, hd, hde, ?_⟩
    rw [hc]
    simp only [upd_same]
    exact hse

/-- A `thread_fork2` that returns true fills an EMPTY slot. -/
theorem thread_fork2_fills (L : Layout) (k : KState) (p : Nat)
    (h : (thread_fork2 L k p).1.isSome = true) :
    ∃ d, d < MAX_THREADS ∧ (k.thread_table d).state = T_EMPTY ∧
      ((thread_fork2 L k p).2.thread_table d).state ≠ T_EMPTY := by
  obtain ⟨c, hc⟩ := Option.isSome_iff_exists.mp h
  obtain ⟨-, -, hok, h4⟩ := thread_fork2_some L k p c hc
  rw [h4]
  exact thread_copy_fills L k c p hok

theorem fills_keeps {L : Layout} {k k1 k2 : KState}
    (hfill : ∃ d, d < MAX_THREADS ∧ (k.thread_table d).state = T_EMPTY ∧
      (k1.thread_table d).state ≠ T_EMPTY)
    (h : keeps_ids L k1 k2) :
    ∃ d, d < MAX_THREADS ∧ (k.thread_table d).state = T_EMPTY ∧
      (k2.thread_table d).state ≠ T_EMPTY := by
  obtain ⟨d, hd, hde, hdne⟩ := hfill
  exact ⟨d, hd, hde, fun he => hdne ((h.2.2 d hd).2.mp he)⟩

theorem keeps_ids_case_FORK (L : Layout) (k : KState) :
    keeps_ids L (thread_fork2 L k k.thread_current).2 (case_FORK L k) := by
  unfold case_FORK
  generalize thread_fork2 L k k.thread_current = r
  obtain ⟨o, k1⟩ := r
  cases o with
  | none => exact keeps_ids_set_current_R0 L k1 0
  | some child =>
    exact keeps_ids_trans (keeps_ids_regs L k1 (thread_pos L child) _)
      (keeps_ids_set_current_R0 L _ _)

/-- An operation in which `m` spawns and forks succeed lowers the number of
EMPTY slots by at least `m`. -/
theorem KOpCount_room {L : Layout} (hL : L.wf) {m : Nat} {k k' : KState}
    (hcur : ∃ c, c < MAX_THREADS ∧ k.thread_current = slot_addr L c ∧
      (k.thread_table c).state ≠ T_EMPTY)
    (h : KOpCount L m k k') :
    count_empty k'.thread_table MAX_THREADS + m ≤ count_empty k.thread_table MAX_THREADS := by
  have hstep : IdStep L false k k' := KOp_IdStep hL hcur (KOpCount_KOp h)
  have h0 := count_empty_IdStep hstep
  cases h with
  | user _ regs tm mm sp hr => exact h0
  | tick _ => exact h0
  | preempt _ _ fuel hs => exact h0
  | kill _ thread _ => exact h0
  | kill2 _ tid => exact h0
  | notify _ thread _ => exact h0
  | spawn _ entry arg =>
    by_cases hs : (thread_spawn L k entry arg).1 ≠ 0
    · rw [if_pos hs]
      exact count_empty_IdStep_fill hstep (thread_spawn_fills hL k entry arg hs)
    · rw [if_neg hs]; exact h0
  | copy _ dest src _ _ =>
    by_cases hs : (thread_copy L k dest src).1 = true
    · rw [if_pos hs]
      exact count_empty_IdStep_fill hstep (thread_copy_fills L k dest src hs)
    · rw [if_neg hs]; exact h0
  | fork2 _ thread _ =>
    by_cases hs : (thread_fork2 L k thread).1.isSome = true
    · rw [if_pos hs]
      exact count_empty_IdStep_fill hstep (thread_fork2_fills L k thread hs)
    · rw [if_neg hs]; exact h0
  | syscall _ _ fuel hg hs =>
    have hrun : ∀ s : KState, kernel_run s s.thread_current = Outcome.exit s := fun _ => rfl
    unfold syscall_allocs
    simp only
    by_cases h3 : (k.thread_table (thread_pos L k.thread_current)).regs.R0 = SYSCALL_SPAWN
    · rw [if_pos h3]
      by_cases hok : (thread_spawn L k
          (k.thread_table (thread_pos L k.thread_current)).regs.R1
          (k.thread_table (thread_pos L k.thread_current)).regs.R2).1 ≠ 0
      · rw [if_pos hok]
        rw [dispatch_SPAWN L fuel k h3] at hs
        have hk : keeps_ids L
            (thread_spawn L k (k.thread_table (thread_pos L k.thread_current)).regs.R1
              (k.thread_table (thread_pos L k.thread_current)).regs.R2).2 k' :=
          keeps_ids_trans (keeps_ids_set_current_R0 L _ _) (keeps_ids_schedule hs)
        exact count_empty_IdStep_fill hstep
          (fills_keeps (thread_spawn_fills hL k _ _ hok) hk)
      · rw [if_neg hok]; exact h0
    · rw [if_neg h3]
      by_cases h4 : (k.thread_table (thread_pos L k.thread_current)).regs.R0 = SYSCALL_FORK
      · rw [if_pos h4]
        by_cases hok : (thread_fork2 L k k.thread_current).1.isSome = true
        · rw [if_pos hok]
          rw [dispatch_FORK L fuel k h4, hrun] at hs
          cases hs
          exact count_empty_IdStep_fill hstep
            (fills_keeps (thread_fork2_fills L k _ hok) (keeps_ids_case_FORK L k))
        · rw [if_neg hok]; exact h0
      · rw [if_neg h4]; exact h0

/-- The spawns and forks that succeeded and the EMPTY slots that remain add up
to at most `MAX_THREADS - 1`. -/
theorem OpsCount_room {L : Layout} (hL : L.wf) {n : Nat} {k : KState} (h : OpsCount L n k) :
    n + count_empty k.thread_table MAX_THREADS ≤ MAX_THREADS - 1 := by
  induction h with
  | init top ram k0 k hf hk =>
    have h := (IdInv_init hL false top ram k0 k hf hk).room
    have h0 := (kernel_init_ok hL top ram k0 k hf hk).2.2.2.1
    rw [h0] at h
    omega
  | step n m k k' hprev hop ih =>
    have hcur := (OpsReachable_IdInv hL (OpsCount_OpsReachable hprev)).cur
    have := KOpCount_room hL hcur hop
    omega

/-- Slot 0 is not EMPTY in any reachable state. -/
theorem OpsReachable_slot0 {L : Layout} (hL : L.wf) {b : Bool} {k : KState}
    (h : OpsReachable L b k) : (k.thread_table 0).state ≠ T_EMPTY := by
  induction h with
  | init top ram k0 k hf hk =>
    rw [(kernel_init_ok hL top ram k0 k hf hk).1]; decide
  | step k k' hprev hop ih =>
    exact ((KOp_IdStep hL (OpsReachable_IdInv hL hprev).cur hop).keep 0 (by decide) ih).1

/-- `thread_spawn` leaves every slot that is not EMPTY as it is. -/
theorem thread_spawn_keeps_slot {L : Layout} (hL : L.wf) (k : KState) (entry arg i : Nat)
    (hne : (k.thread_table i).state ≠ T_EMPTY) :
    (thread_spawn L k entry arg).2.thread_table i = k.thread_table i := by
  rcases thread_first_empty_cases k with ⟨hfe, _⟩ | ⟨d, hd, hfe, hde, _⟩
  · have : thread_spawn L k entry arg = (0, k) := by
      unfold thread_spawn; simp only [hfe, if_true]
    rw [this]
  · rw [thread_spawn_eq hL k entry arg hd hfe]
    have hi : i ≠ d := fun hh => hne (by rw [hh]; exact hde)
    simp only [upd_other _ _ hi]

/-- `thread_copy` leaves every slot that is not EMPTY as it is. -/
theorem thread_copy_keeps_slot (L : Layout) (k : KState) (dest src i : Nat)
    (hne : (k.thread_table i).state ≠ T_EMPTY) :
    (thread_copy L k dest src).2.thread_table i = k.thread_table i := by
  rcases thread_copy_cases L k dest src with hc | ⟨_, _, hde, _, hc⟩
  · rw [hc]
  · rw [hc]
    have hi : i ≠ thread_pos L dest := fun hh => hne (by rw [hh]; exact hde)
    simp only [upd_other _ _ hi]

/-- `thread_fork2` leaves every slot that is not EMPTY as it is. -/
theorem thread_fork2_keeps_slot (L : Layout) (k : KState) (p i : Nat)
    (hne : (k.thread_table i).state ≠ T_EMPTY) :
    (thread_fork2 L k p).2.thread_table i = k.thread_table i := by
  rcases thread_fork2_state L k p with h | h
  · rw [h]
  · rw [h]; exact thread_copy_keeps_slot L k _ _ i hne

theorem Reachable_RawReachable {L : Layout} {k : KState} (h : Reachable L k) :
    RawReachable L k := by
  induction h with
  | init top ram k0 k _ hk => exact RawReachable.init top ram k0 k hk
  | user k regs tm m sp _ hr ih => exact RawReachable.user k regs tm m sp ih hr
  | tick k _ ih => exact RawReachable.tick k ih
  | preempt k k' fuel _ hs ih => exact RawReachable.preempt k k' fuel ih hs
  | syscall k k' fuel _ _ hs ih => exact RawReachable.syscall k k' fuel ih hs

theorem RawReachable_ticks {L : Layout} {k : KState} (h : RawReachable L k) :
    ∀ n, RawReachable L (ticks n k) := by
  intro n
  induction n with
  | zero => exact h
  | succ n ih => exact RawReachable.tick _ ih

/-- Ticks after which `systime_ms` does not wrap never reach a
`next_to_run_ms` that is not ahead of `systime_ms`: they only advance the
time. -/
theorem ticks_missed : ∀ (n : Nat) (k : KState), k.next_to_run_ms ≤ k.systime_ms →
    k.systime_ms + n < 2 ^ 32 → ticks n k = { k with systime_ms := k.systime_ms + n } := by
  intro n
  induction n with
  | zero => intro k _ _; rfl
  | succ n ih =>
    intro k h1 h2
    rw [ticks, ih k h1 (by omega)]
    have hadd : add32 (k.systime_ms + n) 1 = k.systime_ms + (n + 1) := by
      unfold add32; omega
    rw [kernel_tick_counter_idle _ (by simp only [hadd]; omega)]
    simp only [hadd]

theorem early_sleep_call_syscall :
    kernel_handle_syscall L0 MAX_THREADS early_sleep_call = some (Outcome.exit early_asleep) :=
  rfl

theorem unlock_next_call_syscall :
    kernel_handle_syscall L0 MAX_THREADS unlock_next_call = some (Outcome.exit next_cleared) :=
  rfl

theorem second_spawn_call_syscall :
    kernel_handle_syscall L0 MAX_THREADS second_spawn_call
      = some (Outcome.exit second_spawned) := rfl

theorem late_sleep_call_syscall :
    kernel_handle_syscall L0 MAX_THREADS late_sleep_call = some (Outcome.exit late_asleep) :=
  rfl

theorem RawReachable_next_cleared : RawReachable L0 next_cleared :=
  RawReachable.syscall _ _ _
    (RawReachable.user _ _ _ _ _
      (RawReachable.syscall _ _ _
        (RawReachable.user _ _ _ _ _ (Reachable_RawReachable Reachable_after_spawn) (by decide))
        early_sleep_call_syscall)
      (by decide))
    unlock_next_call_syscall

theorem RawReachable_late_sleep_call : RawReachable L0 late_sleep_call :=
  RawReachable.user _ _ _ _ _
    (RawReachable.syscall _ _ _
      (RawReachable.user _ _ _ _ _ RawReachable_next_cleared (by decide))
      second_spawn_call_syscall)
    (by decide)

theorem unlock_state_call_syscall :
    kernel_handle_syscall L0 MAX_THREADS unlock_state_call
      = some (Outcome.exit state_cleared) := rfl

theorem lock_state_call_syscall :
    kernel_handle_syscall L0 MAX_THREADS lock_state_call = some (Outcome.exit state_locked) :=
  rfl

theorem tick_sleeping_was_sleeping (k : KState) (i : Nat)
    (h : ((kernel_tick_counter k).thread_table i).state = T_SLEEPING) :
    (k.thread_table i).state = T_SLEEPING := by
  by_cases hscan : add32 k.systime_ms 1 = k.next_to_run_ms
  · have ht : (kernel_tick_counter k).thread_table i
        = if i < MAX_THREADS ∧ (k.thread_table i).state = T_SLEEPING ∧
              add32 k.systime_ms 1 = (k.thread_table i).scnt then
            { k.thread_table i with state := T_RUNNABLE }
          else k.thread_table i := by
      rw [kernel_tick_counter_scan k hscan]
      simp only [kernel_tick_scan_table]
    rw [ht] at h
    by_cases hc : i < MAX_THREADS ∧ (k.thread_table i).state = T_SLEEPING ∧
        add32 k.systime_ms 1 = (k.thread_table i).scnt
    · exact hc.2.1
    · rw [if_neg hc] at h; exact h
  · rw [kernel_tick_counter_idle k hscan] at h
    exact h

/-- In a reachable state, a tick that performs the wake scan leaves
`next_to_run_ms` exactly `UINT32_MAX` ticks ahead if and only if it leaves no
slot SLEEPING. -/
theorem scan_max_iff_no_sleeper {L : Layout} (hL : L.wf) {k : KState} (hreach : Reachable L k)
    (hscan : add32 k.systime_ms 1 = k.next_to_run_ms) :
    sub32 (kernel_tick_counter k).next_to_run_ms (kernel_tick_counter k).systime_ms
        = UINT32_MAX ↔
      ∀ i, i < MAX_THREADS → ((kernel_tick_counter k).thread_table i).state ≠ T_SLEEPING := by
  have hUM : UINT32_MAX = 4294967295 := rfl
  constructor
  · intro hmax i hi hs
    have hs0 := tick_sleeping_was_sleeping k i hs
    obtain ⟨h1, h2⟩ := kernel_tick_counter_sleeper (Reachable_KInv hL hreach) hi hs0
    by_cases hd : sub32 (k.thread_table i).scnt k.systime_ms = 1
    · rw [h1 hd] at hs; cases hs
    · obtain ⟨htab, hdist⟩ := h2 hd
      have hm := (kernel_tick_counter_scan_next k hscan).1.mp hmax i hi hs
      rw [htab] at hm
      rw [hm] at hdist
      have hlt : sub32 (k.thread_table i).scnt k.systime_ms < 2 ^ 32 := by
        unfold sub32; omega
      omega
  · intro hnone
    exact (kernel_tick_counter_scan_next k hscan).1.mpr
      (fun i hi hs => absurd hs (hnone i hi))

/-- What `kernel_init` returns when the caller's stack is larger than one
stack region and the case is covered: the new stack pointer is the address
`r0` of a table entry, and every entry from that one on, slot 0 apart, is what
the memcpy wrote. -/
theorem kernel_init_oversize {L : Layout} (hL : L.wf) (top : Nat) (ram : Nat → Nat)
    (k : KState) (hbig : ¬ sub32 top k.cpu_sp ≤ THREAD_MEM_SIZE)
    (hcov : L.sizeof_thread_t = 84 ∧
      L.thread_mem_addr = L.thread_table_addr + MAX_THREADS * L.sizeof_thread_t ∧
      sub32 (L.thread_mem_addr + THREAD_MEM_SIZE) (sub32 top k.cpu_sp) + sub32 top k.cpu_sp
        = L.thread_mem_addr + THREAD_MEM_SIZE ∧
      thread_in_table L (sub32 (L.thread_mem_addr + THREAD_MEM_SIZE) (sub32 top k.cpu_sp))
        = true ∧
      sub32 (L.thread_mem_addr + THREAD_MEM_SIZE) (sub32 top k.cpu_sp)
        = slot_addr L
            (thread_pos L (sub32 (L.thread_mem_addr + THREAD_MEM_SIZE) (sub32 top k.cpu_sp))) ∧
      copied_slots_ok L ram (sub32 (L.thread_mem_addr + THREAD_MEM_SIZE) (sub32 top k.cpu_sp))
        k.cpu_sp MAX_THREADS = true) :
    ∃ k', kernel_init L top ram k = some (Except.ok k') ∧
      k'.cpu_sp = sub32 (L.thread_mem_addr + THREAD_MEM_SIZE) (sub32 top k.cpu_sp) ∧
      (k'.thread_table 0).state = T_RUNNABLE ∧
      ∀ i t, 0 < i → i < MAX_THREADS →
        thread_pos L (sub32 (L.thread_mem_addr + THREAD_MEM_SIZE) (sub32 top k.cpu_sp)) ≤ i →
        copied_slot ram (sub32 (L.thread_mem_addr + THREAD_MEM_SIZE) (sub32 top k.cpu_sp))
          k.cpu_sp (slot_addr L i) = some t →
        k'.thread_table i = t := by
  unfold kernel_init
  simp only [thread_init_cpu_sp hL]
  rw [if_neg hbig, if_pos hcov]
  unfold kernel_init_rest
  simp only
  rw [kernel_init_asserts_true hL MAX_THREADS (Nat.le_refl _), if_pos rfl]
  refine ⟨_, rfl, rfl, ?_, ?_⟩
  · simp only [kernel_set_scheduler_freq, upd_same]
  · intro i t hi0 hi hle ht
    simp only [kernel_set_scheduler_freq]
    rw [upd_other _ _ (by omega), upd_other _ _ (by omega), if_pos ⟨hle, hi⟩, ht]
    rfl

theorem deep_boot_init :
    ∃ k', kernel_init L1 0x20008000 deep_ram deep_boot_state = some (Except.ok k') ∧
      k'.cpu_sp = slot_addr L1 5 ∧ (k'.thread_table 8).state = T_RUNNABLE ∧
      (k'.thread_table 0).state = T_RUNNABLE := by
  have hr0 : sub32 (L1.thread_mem_addr + THREAD_MEM_SIZE)
      (sub32 0x20008000 deep_boot_state.cpu_sp) = slot_addr L1 5 := by decide
  have hpos : thread_pos L1 (slot_addr L1 5) = 5 := thread_pos_slot_addr (by decide) (by decide)
  obtain ⟨k', hk, hsp, h0, hslots⟩ := kernel_init_oversize (by decide : L1.wf) 0x20008000
    deep_ram deep_boot_state (by decide)
    (by
      rw [hr0, hpos]
      refine ⟨rfl, rfl, by decide, thread_in_table_slot_addr (by decide) (by decide), rfl, ?_⟩
      decide)
  rw [hr0] at hsp hslots
  rw [hpos] at hslots
  refine ⟨k', hk, hsp, ?_, h0⟩
  have hs : copied_slot deep_ram (slot_addr L1 5) deep_boot_state.cpu_sp (slot_addr L1 8)
      = some { zero_slot with state := T_RUNNABLE } := by decide
  rw [hslots 8 _ (by decide) (by decide) (by decide) hs]

theorem Reachable_before_wake : Reachable L0 before_wake := by
  rw [← asleep_ticks]
  exact Reachable_ticks Reachable_asleep 49

/-- C18 as stated fails.  In the layout `L1`, where `thread_mem` follows
`thread_table`, `kernel_init(0x20008000)` is entered with the stack pointer
`0x200079B4`, below the top, and a caller's stack of 1612 bytes, more than one
stack region.  The destination of the memcpy starts 588 bytes below
`thread_mem`, at `&thread_table[5]`: the table entries 5 to 11, which
`thread_init` had emptied, are overwritten with bytes of the caller's stack.
The byte 1 at offset 256 of that stack lands in the field `state` of entry 8,
so after `kernel_init` slot 8 is RUNNABLE, not EMPTY, and the new stack pointer
lies in the table, not in the stack region of slot 0. -/
theorem kernel_init_oversize_stack_overwrites_table :
    L1.wf ∧ deep_boot_state.cpu_sp ≤ 0x20008000 ∧
    0x20008000 - deep_boot_state.cpu_sp = 1612 ∧
    deep_ram (deep_boot_state.cpu_sp + 256) = 1 ∧
    slot_addr L1 8 + 4 = slot_addr L1 5 + 256 ∧
    ∃ k', kernel_init L1 0x20008000 deep_ram deep_boot_state = some (Except.ok k') ∧
      RawReachable L1 k' ∧
      k'.cpu_sp = slot_addr L1 5 ∧ k'.cpu_sp < L1.thread_mem_addr ∧
      (k'.thread_table 0).state = T_RUNNABLE ∧
      (k'.thread_table 8).state = T_RUNNABLE ∧
      ¬ (∀ i, 0 < i → i < MAX_THREADS → (k'.thread_table i).state = T_EMPTY) := by
  obtain ⟨k', hk, hsp, h8, h0⟩ := deep_boot_init
  refine ⟨by decide, by decide, by decide, by decide, by decide, k', hk,
    RawReachable.init _ _ _ _ hk, hsp, by rw [hsp]; decide, h0, h8, fun h => ?_⟩
  have := h 8 (by decide) (by decide)
  rw [h8] at this
  cases this

end DankOS
